import Mathlib

/-!
# Service Center (mongo datasource): rule engine and heartbeat cache

A shallow embedding of

* `datasource/mongo/util/rule_util.go` (`Filter`, `FilterAll`, `MatchRules`,
  `patternWhiteList`, `patternBlackList`, `parsePattern`),
* `datasource/mongo/util/microservice_util.go` (`GetServiceByID`, `GetService`,
  `cacheToService`),
* `datasource/mongo/heartbeat/cache/heartbeat.go` (`addHeartbeatTask`, `cleanInstance`,
  `removeDBInstance`, `isOutDate`, `RemoveCacheInstance`, the eviction function and
  the worker loop of `init`),
* `datasource/mongo/event/instance_event_handler.go` and `service_event_handler.go`
  (`OnEvent`, `PublishInstanceEvent`, `NotifySyncerInstanceEvent`, `getFramework`),
* the index cache of `datasource/mongo/sd`, known here through its test,
* `datasource/mongo/service/ms.go` (`modifySchema`, `isSchemaEditable`, `AddRule`,
  `UpdateRule`, `DeleteRule`, the first loop of `HeartbeatSet`),
* `datasource/mongo/util/schema_util.go` (`GetSchema`) and
  `datasource/mongo/client/dao/rule.go` (`GetRulesByServiceID`, `GetRules`),

followed by the properties proved about them.

Conventions.  Go strings are Lean strings; a Go `map[string]string` is an
association list read with `List.lookup` (an absent key reads as `""`); a Go
pointer that may be `nil` is an `Option`; a Go `(value, error)` result is a pair
whose second component is an `Option`; `int32` values are integers reduced with
`wrap32`.  Logging calls are dropped.  Code that acts on the store or on another
collaborator returns the list of the calls it makes, in order; what a collaborator
answers is an input.
-/

set_option linter.dupNamespace false

namespace ServiceCenter

/-! ## Data model -/

/-- Error codes of the `discovery` package that the rule engine produces.  They are
distinct constants of the imported library; only their being distinct matters.
The codes after `ErrInternal` are those of the service operations; `ResponseSuccess`
is the code of a successful response. -/
inductive ErrCode where
  | ErrInvalidParams
  | ErrPermissionDeny
  | ErrInternal
  | ResponseSuccess
  | ErrServiceNotExists
  | ErrUnavailableBackend
  | ErrBlackAndWhiteRule
  | ErrModifyRuleNotAllow
  | ErrRuleNotExists
  | ErrUndefinedSchemaID
  | ErrModifySchemaNotAllow
  | ErrNotEnoughQuota
  deriving DecidableEq, Repr

/-- The `*discovery.Error` value built by `discovery.NewError(code, detail)`. -/
structure Error where
  Code : ErrCode
  Detail : String
  deriving DecidableEq, Repr

/-- `discovery.NewError`. -/
def NewError (code : ErrCode) (detail : String) : Error :=
  { Code := code, Detail := detail }

/-- A Go `error` interface value: either a `*discovery.Error` or any other error
(store failures, `datasource.ErrNoData`, ...), identified by its text. -/
inductive GoError where
  | discovery (e : Error)
  | other (msg : String)
  deriving DecidableEq, Repr

/-- `discovery.ServiceRule`. -/
structure ServiceRule where
  RuleId : String
  RuleType : String
  Attribute : String
  Pattern : String
  Description : String
  Timestamp : String := ""
  ModTimestamp : String := ""
  deriving DecidableEq, Repr

/-- `db.Rule`: a persisted rule with its tenant and owning service. -/
structure Rule where
  Domain : String
  Project : String
  ServiceID : String
  Rule : ServiceRule
  deriving DecidableEq, Repr

/-- The consumer record `discovery.MicroService` as reflection sees it: the table of
its declared fields by name, each with the text that `reflect.Value.String` yields
for it.  The struct is declared in an imported library, so the table is a value
of the model and not fixed here. -/
structure MicroService where
  fields : List (String × String)
  deriving DecidableEq, Repr

/-- A Go `map[string]string` of tags. -/
abbrev Tags := List (String × String)

/-- `db.Service`: a persisted service with its tags; `Service` is a pointer. -/
structure Service where
  Domain : String
  Project : String
  Tags : Tags
  Service : Option MicroService
  deriving DecidableEq, Repr

/-- `regexp.MatchString(pattern, s)` of the Go standard library: `.ok matched`, or
`.error` when the pattern does not compile (Go then returns `false` and the error). -/
abbrev Regexp := String → String → Except String Bool

/-- The Go idiom `match, _ := regexp.MatchString(pattern, value)`: the error is
discarded and `match` is `false` whenever there is one. -/
def matchIgnoringErr (re : Regexp) (pattern value : String) : Bool :=
  match re pattern value with
  | .ok b => b
  | .error _ => false

/-- `strings.HasPrefix(s, p)`. -/
def HasPrefix (s p : String) : Bool :=
  p.data.isPrefixOf s.data

/-- The Go slice expression `s[n:]` for a string whose first `n` bytes are ASCII. -/
def sliceFrom (s : String) (n : Nat) : String :=
  String.mk (s.data.drop n)

/-- Reading a Go map: the zero value `""` when the key is absent. -/
def mapIndex (m : Tags) (key : String) : String :=
  (m.lookup key).getD ""

/-- `reflect.Value.FieldByName(name)` followed by `IsValid` and `String`: `none` when
the struct has no field of that name. -/
def FieldByName (v : MicroService) (name : String) : Option String :=
  v.fields.lookup name

/-! ## Rule engine (`rule_util.go`) -/

/-- `parsePattern`: the value a rule's attribute resolves to for a consumer. -/
def parsePattern (v : MicroService) (rule : ServiceRule) (tagsOfConsumer : Tags) :
    String × Option Error :=
  if HasPrefix rule.Attribute "tag_" then
    let key := sliceFrom rule.Attribute 4
    let value := mapIndex tagsOfConsumer key
    (value, none)
  else
    match FieldByName v rule.Attribute with
    | none =>
      ("", some (NewError .ErrInternal ("can not find field '" ++ rule.Attribute ++ "'")))
    | some s => (s, none)

/-- `patternWhiteList`: the loop over the rules, `nil` at the first match. -/
def patternWhiteList (re : Regexp) (rulesOfProvider : List Rule) (tagsOfConsumer : Tags)
    (consumer : MicroService) : Option Error :=
  match rulesOfProvider with
  | [] => some (NewError .ErrPermissionDeny "not found in white list")
  | rule :: rest =>
    match parsePattern consumer rule.Rule tagsOfConsumer with
    | (_, some err) => some err
    | (value, none) =>
      if value.length = 0 then
        patternWhiteList re rest tagsOfConsumer consumer
      else if matchIgnoringErr re rule.Rule.Pattern value then
        none
      else
        patternWhiteList re rest tagsOfConsumer consumer

/-- `patternBlackList`: the loop over the rules, a denial at the first match. -/
def patternBlackList (re : Regexp) (rulesOfProvider : List Rule) (tagsOfConsumer : Tags)
    (consumer : MicroService) : Option Error :=
  match rulesOfProvider with
  | [] => none
  | rule :: rest =>
    match parsePattern consumer rule.Rule tagsOfConsumer with
    | (_, some err) => some err
    | (value, none) =>
      if value.length = 0 then
        patternBlackList re rest tagsOfConsumer consumer
      else if matchIgnoringErr re rule.Rule.Pattern value then
        some (NewError .ErrPermissionDeny "found in black list")
      else
        patternBlackList re rest tagsOfConsumer consumer

/-- `MatchRules`. -/
def MatchRules (re : Regexp) (rulesOfProvider : List Rule) (consumer : Option MicroService)
    (tagsOfConsumer : Tags) : Option Error :=
  match consumer with
  | none => some (NewError .ErrInvalidParams "consumer is nil")
  | some c =>
    match rulesOfProvider with
    | [] => none
    | first :: _ =>
      if first.Rule.RuleType = "WHITE" then
        patternWhiteList re rulesOfProvider tagsOfConsumer c
      else
        patternBlackList re rulesOfProvider tagsOfConsumer c

/-! ## Store access (`microservice_util.go`) and the collaborators of `Filter` -/

/-- Outcome of `client.GetMongoClient().FindOne` followed by `Decode` into a pointer. -/
inductive FindOne (α : Type) where
  | clientErr (e : GoError)
  | resultErr
  | decodeErr (e : GoError)
  | decoded (a : Option α)

/-- What the rule filter reads from outside `rule_util.go`: the regular-expression
library, the request-context accessors of `pkg/util`, the service cache, the mongo
client, the value `datasource.ErrNoData` and the tag query `GetTags`. -/
structure Backend (Ctx : Type) where
  re : Regexp
  ParseDomainProject : Ctx → String
  ParseDomain : Ctx → String
  ParseProject : Ctx → String
  cacheGet : String → Option Service
  findOneService : Ctx → String → String → String → FindOne Service
  ErrNoData : GoError
  GetTags : Ctx → String → String → String → Tags × Option GoError

/-- `cacheToService`. -/
def cacheToService (service : Service) : Service :=
  { Domain := service.Domain, Project := service.Project, Tags := service.Tags,
    Service := service.Service }

/-- `GetService`, for the filter that `GeneratorServiceFilter` builds (domain, project
and service id). -/
def GetService {Ctx : Type} (b : Backend Ctx) (ctx : Ctx) (domain project serviceID : String) :
    Option Service × Option GoError :=
  match b.findOneService ctx domain project serviceID with
  | .clientErr err => (none, some err)
  | .resultErr => (none, some b.ErrNoData)
  | .decodeErr err => (none, some err)
  | .decoded svc => (svc, none)

/-- `GetServiceByID`: the cache first, the store when the cache has no entry. -/
def GetServiceByID {Ctx : Type} (b : Backend Ctx) (ctx : Ctx) (serviceID : String) :
    Option Service × Option GoError :=
  match b.cacheGet serviceID with
  | none => GetService b ctx (b.ParseDomain ctx) (b.ParseProject ctx) serviceID
  | some cacheService => (some (cacheToService cacheService), none)

/-- `Filter`: may the consumer `consumerID` see the provider owning `rules`? -/
def Filter {Ctx : Type} (b : Backend Ctx) (ctx : Ctx) (rules : List Rule) (consumerID : String) :
    Bool × Option GoError :=
  match GetServiceByID b ctx consumerID with
  | (none, err) => (false, err)
  | (some consumer, _) =>
    if rules.length = 0 then
      (true, none)
    else
      let domain := b.ParseDomainProject ctx
      let project := b.ParseProject ctx
      match b.GetTags ctx domain project consumerID with
      | (_, some err) => (false, some err)
      | (tags, none) =>
        match MatchRules b.re rules consumer.Service tags with
        | some matchErr =>
          if matchErr.Code = ErrCode.ErrPermissionDeny then
            (false, none)
          else
            (false, some (GoError.discovery matchErr))
        | none => (true, none)

/-- The local variables of the loop of `FilterAll`. -/
structure FilterAllState where
  allowIdx : Nat
  denyIdx : Nat
  consumers : List String
  deriving DecidableEq, Repr

/-- The `for _, consumerID := range consumerIDs` loop of `FilterAll`, over the ids not
yet visited: `.error` is the early `return nil, nil, err`. -/
def filterAllLoop {Ctx : Type} (b : Backend Ctx) (ctx : Ctx) (rules : List Rule) :
    List String → FilterAllState → Except GoError FilterAllState
  | [], st => .ok st
  | consumerID :: rest, st =>
    match Filter b ctx rules consumerID with
    | (_, some err) => .error err
    | (ok, none) =>
      if ok then
        filterAllLoop b ctx rules rest
          { st with consumers := st.consumers.set st.allowIdx consumerID,
                    allowIdx := st.allowIdx + 1 }
      else
        let denyIdx := st.denyIdx - 1
        filterAllLoop b ctx rules rest
          { st with denyIdx := denyIdx,
                    consumers := st.consumers.set denyIdx consumerID }

/-- `FilterAll`: the result triple `(allow, deny, err)`; a `nil` slice is `[]`. -/
def FilterAll {Ctx : Type} (b : Backend Ctx) (ctx : Ctx) (consumerIDs : List String)
    (rules : List Rule) : List String × List String × Option GoError :=
  let l := consumerIDs.length
  if l = 0 ∨ rules.length = 0 then
    (consumerIDs, [], none)
  else
    match filterAllLoop b ctx rules consumerIDs
        { allowIdx := 0, denyIdx := l, consumers := List.replicate l "" } with
    | .error err => ([], [], some err)
    | .ok st => (st.consumers.take st.allowIdx, st.consumers.drop st.denyIdx, none)

/-! ## Heartbeat cache (`heartbeat/cache/heartbeat.go`) -/

/-- The range of a Go `int32`. -/
def isInt32 (x : Int) : Prop :=
  -2147483648 ≤ x ∧ x ≤ 2147483647

instance (x : Int) : Decidable (isInt32 x) := by
  unfold isInt32
  exact inferInstance

/-- Reduction of an integer to the `int32` that Go arithmetic keeps: two's-complement
wrap-around modulo `2^32`. -/
def wrap32 (x : Int) : Int :=
  (x + 2147483648) % 4294967296 - 2147483648

/-- Go `a + b` on `int32`. -/
def addInt32 (a b : Int) : Int :=
  wrap32 (a + b)

/-- Go `a * b` on `int32`. -/
def mulInt32 (a b : Int) : Int :=
  wrap32 (a * b)

/-- The constant `defaultTTL`. -/
def defaultTTL : Int := 30

/-- The entry `instanceHeartbeatInfo` of the liveness cache; `lastRefresh` is a
`time.Time`, kept as nanoseconds. -/
structure instanceHeartbeatInfo where
  serviceID : String
  instanceID : String
  ttl : Int
  lastRefresh : Int
  deriving DecidableEq, Repr

/-- `ErrHeartbeatTimeout`. -/
def ErrHeartbeatTimeout : GoError :=
  GoError.other "heartbeat task waiting for processing timeout. "

/-- Which case of the `select` in `addHeartbeatTask` fires; the scheduler decides. -/
inductive SelectCase where
  | send
  | timeout
  deriving DecidableEq, Repr

/-- `addHeartbeatTask`: `cacheChan` is the content of the channel and `now` the
value of `time.Now()`; the result is the new content of the channel and the
returned error. -/
def addHeartbeatTask (fired : SelectCase) (cacheChan : List instanceHeartbeatInfo) (now : Int)
    (serviceID instanceID : String) (ttl : Int) :
    List instanceHeartbeatInfo × Option GoError :=
  let ttl := if ttl ≤ 0 then defaultTTL else ttl
  let newInstance : instanceHeartbeatInfo :=
    { serviceID := serviceID, instanceID := instanceID, ttl := ttl, lastRefresh := now }
  match fired with
  | .send => (cacheChan ++ [newInstance], none)
  | .timeout => (cacheChan, some ErrHeartbeatTimeout)

/-- `discovery.HealthCheck`: the health-check policy of an instance. -/
structure HealthCheck where
  Mode : String
  Port : Int
  Interval : Int
  Times : Int
  Url : String
  deriving DecidableEq, Repr

/-- The local `ttl` of `cleanInstance` after its default is applied: the statements
`ttl := Interval * (Times + 1)` and `if ttl <= 0 { ttl = defaultTTL }`. -/
def cleanInstanceTTL (healthCheck : HealthCheck) : Int :=
  let ttl := mulInt32 healthCheck.Interval (addInt32 healthCheck.Times 1)
  if ttl ≤ 0 then defaultTTL else ttl

/-- `discovery.MicroServiceInstance`, with the fields the registry code reads.  The
`HealthCheck` pointer is taken to be set, as it is on every registered instance. -/
structure MicroServiceInstance where
  InstanceId : String
  ServiceId : String
  Endpoints : List String
  HealthCheck : HealthCheck
  deriving DecidableEq, Repr

/-- `db.Instance`: a persisted instance; `RefreshTime` is a `time.Time`, kept as
nanoseconds. -/
structure Instance where
  Domain : String
  Project : String
  RefreshTime : Int
  Instance : MicroServiceInstance
  deriving DecidableEq, Repr

/-- The smallest `time.Duration`. -/
def minDuration : Int := -9223372036854775808

/-- The largest `time.Duration`. -/
def maxDuration : Int := 9223372036854775807

/-- The constant `time.Second`, in nanoseconds. -/
def Second : Int := 1000000000

/-- Reduction of an integer to the `int64` that Go arithmetic keeps. -/
def wrap64 (x : Int) : Int :=
  (x + 9223372036854775808) % 18446744073709551616 - 9223372036854775808

/-- `time.Time.Sub`: the difference `t - u`, saturated to the range of `time.Duration`. -/
def timeSub (t u : Int) : Int :=
  if t - u < minDuration then minDuration
  else if maxDuration < t - u then maxDuration
  else t - u

/-- `isOutDate`, with the instant `now` that `time.Since` reads:
`time.Since(refreshTime) <= time.Duration(ttl)*time.Second`. -/
def isOutDate (now : Int) (refreshTime : Int) (ttl : Int) : Bool :=
  decide (timeSub now refreshTime ≤ wrap64 (ttl * Second))

/-- A call that `cleanInstance` makes on the mongo client or on its session. -/
inductive StoreOp where
  | StartSession
  | StartTransaction
  | FindOne (serviceID instanceID : String)
  | DeleteOne (serviceID instanceID : String)
  | AbortTransaction
  | CommitTransaction
  | EndSession
  deriving DecidableEq, Repr

/-- What the store and the clock answer during one run of `cleanInstance`: the error
of each call (`none` for `nil`), the outcome of decoding the document found, and
the instant read by `time.Since`. -/
structure StoreAnswers where
  StartSession : Option GoError
  StartTransaction : Option GoError
  FindOne : Option GoError
  Decode : Except GoError Instance
  now : Int
  DeleteOne : Option GoError
  AbortTransaction : Option GoError
  CommitTransaction : Option GoError

/-- `removeDBInstance`: the calls made and the returned error. -/
def removeDBInstance (o : StoreAnswers) (serviceID instanceID : String) :
    List StoreOp × Option GoError :=
  ([StoreOp.DeleteOne serviceID instanceID], o.DeleteOne)

/-- `cleanInstance`: the calls made on the store, in order, and the returned error.
The deferred `session.EndSession` closes every path that returns after the `defer`
statement, which stands after the start of the transaction. -/
def cleanInstance (o : StoreAnswers) (serviceID instanceID : String) :
    List StoreOp × Option GoError :=
  match o.StartSession with
  | some err => ([.StartSession], some err)
  | none =>
    match o.StartTransaction with
    | some err => ([.StartSession, .StartTransaction], some err)
    | none =>
      match o.FindOne with
      | some err =>
        ([.StartSession, .StartTransaction, .FindOne serviceID instanceID, .EndSession],
          some err)
      | none =>
        match o.Decode with
        | .error err =>
          ([.StartSession, .StartTransaction, .FindOne serviceID instanceID, .EndSession],
            some err)
        | .ok ins =>
          let ttl := cleanInstanceTTL ins.Instance.HealthCheck
          if isOutDate o.now ins.RefreshTime ttl then
            ([.StartSession, .StartTransaction, .FindOne serviceID instanceID, .EndSession],
              none)
          else
            match removeDBInstance o ins.Instance.ServiceId ins.Instance.InstanceId with
            | (ops, some err) =>
              match o.AbortTransaction with
              | some errAbort =>
                ([.StartSession, .StartTransaction, .FindOne serviceID instanceID] ++ ops ++
                  [.AbortTransaction, .EndSession], some errAbort)
              | none =>
                ([.StartSession, .StartTransaction, .FindOne serviceID instanceID] ++ ops ++
                  [.AbortTransaction, .EndSession], some err)
            | (ops, none) =>
              ([.StartSession, .StartTransaction, .FindOne serviceID instanceID] ++ ops ++
                [.CommitTransaction, .EndSession], o.CommitTransaction)

/-- The state of the transaction of a session of the mongo driver. -/
inductive TransactionState where
  | NotStarted
  | InProgress
  | Committed
  | Aborted
  deriving DecidableEq, Repr

/-- The effect of one call on the transaction of the session, after the contract of the
session of the mongo driver, with the answers `o` of the calls: `StartTransaction`
opens a transaction, `CommitTransaction` commits the open transaction,
`AbortTransaction` aborts it, a call that returns an error leaves the state as it
was, and `EndSession` aborts a transaction that is still open (the driver documents
`EndSession` as aborting any existing transaction before it closes the session).
The reads and writes of the client do not change the state. -/
def sessionStep (o : StoreAnswers) (state : TransactionState) (op : StoreOp) :
    TransactionState :=
  match op, state with
  | .StartTransaction, .NotStarted =>
    if o.StartTransaction.isNone then .InProgress else .NotStarted
  | .CommitTransaction, .InProgress =>
    if o.CommitTransaction.isNone then .Committed else .InProgress
  | .AbortTransaction, .InProgress =>
    if o.AbortTransaction.isNone then .Aborted else .InProgress
  | .EndSession, .InProgress => .Aborted
  | _, state => state

/-- The state of the transaction of a fresh session after the calls `ops`. -/
def transactionAfter (o : StoreAnswers) (ops : List StoreOp) : TransactionState :=
  ops.foldl (sessionStep o) .NotStarted

/-- The items of the liveness cache `instanceHeartbeatStore`, by instance id; a
stored value is a pointer to an `instanceHeartbeatInfo`. -/
abbrev HeartbeatStore := List (String × Option instanceHeartbeatInfo)

/-- The function that `init` registers with `instanceHeartbeatStore.OnEvicted`: it
runs `cleanInstance` for a non-nil value and only logs its error.  The result is
the list of calls made on the store. -/
def onEvicted (o : StoreAnswers) (_k : String) (v : Option instanceHeartbeatInfo) :
    List StoreOp :=
  match v with
  | some instanceInfo => (cleanInstance o instanceInfo.serviceID instanceInfo.instanceID).1
  | none => []

/-- `Delete` of the cache library `patrickmn/go-cache`: the item is removed and, when an
eviction function is set and the key was present, that function is called with the
key and the removed value (the library calls it for manual deletion as for expiry). -/
def cacheDelete (items : HeartbeatStore) (k : String)
    (evictionFn : Option (String → Option instanceHeartbeatInfo → List StoreOp)) :
    HeartbeatStore × List StoreOp :=
  match evictionFn, items.lookup k with
  | some f, some v => (items.filter (fun item => item.1 != k), f k v)
  | _, _ => (items.filter (fun item => item.1 != k), [])

/-- `RemoveCacheInstance`: `instanceHeartbeatStore.Delete(instanceID)` on the cache for
which `init` has set the eviction function.  The result is the new content of the
cache and the calls made on the store. -/
def RemoveCacheInstance (o : StoreAnswers) (items : HeartbeatStore) (instanceID : String) :
    HeartbeatStore × List StoreOp :=
  cacheDelete items instanceID (some (onEvicted o))

/-- The constant `defaultWorkNum`. -/
def defaultWorkNum : Int := 10

/-- The function `config.GetInt` of `server/config`, which reads an integer key with a
default: a key that is absent reads as the default given, a key that is set reads
as its value whatever the default. -/
abbrev ConfigGetInt := String → Int → Int

/-- The worker part of `init`: the value of `workerNum` once `init` has read the
configuration; `NumCPU` is `runtime.NumCPU()`, the value `workerNum` is declared with. -/
def initWorkerNum (GetInt : ConfigGetInt) (NumCPU : Int) : Int :=
  let workerNum := NumCPU
  let num := GetInt "registry.mongo.heartbeat.workerNum" defaultWorkNum
  if num ≠ 0 then num else workerNum

/-- The loop `for i := 1; i <= workerNum; i++` of `init`: the values of `i` for which a
worker is started with `gopool.Go`. -/
def initWorkers (GetInt : ConfigGetInt) (NumCPU : Int) : List Int :=
  (List.range (initWorkerNum GetInt NumCPU).toNat).map (fun (i : Nat) => (i : Int) + 1)

/-! ## Event handlers (`event/instance_event_handler.go`, `event/service_event_handler.go`) -/

/-- `discovery.EventType`, a string type. -/
abbrev EventType := String

/-- `discovery.EVT_INIT`. -/
def EVT_INIT : EventType := "INIT"

/-- `discovery.EVT_CREATE`. -/
def EVT_CREATE : EventType := "CREATE"

/-- `discovery.EVT_UPDATE`. -/
def EVT_UPDATE : EventType := "UPDATE"

/-- `discovery.EVT_DELETE`. -/
def EVT_DELETE : EventType := "DELETE"

/-- `sd.MongoEvent` with its `Value` already asserted to the type the handler expects;
`Type_` is the field `Type`. -/
structure MongoEvent (α : Type) where
  Type_ : EventType
  Value : α

/-- `discovery.FrameworkProperties`. -/
structure FrameworkProperties where
  Name : String
  Version : String
  deriving DecidableEq, Repr

/-- `discovery.MicroServiceKey`. -/
structure MicroServiceKey where
  Tenant : String
  Environment : String
  AppId : String
  ServiceName : String
  Version : String
  Alias : String
  deriving DecidableEq, Repr

/-- `discovery.WatchInstanceResponse` as `PublishInstanceEvent` fills it. -/
structure WatchInstanceResponse where
  Response : String
  Action : String
  Key : MicroServiceKey
  Instance : MicroServiceInstance
  deriving DecidableEq, Repr

/-- The event built by `notify.NewInstanceEventWithTime(serviceID, domainProject, rev,
createAt, response)`, kept as its five arguments. -/
structure InstanceEvent where
  serviceID : String
  domainProject : String
  rev : Int
  createAt : Int
  response : WatchInstanceResponse
  deriving DecidableEq, Repr

/-- `notify.NewInstanceEventWithTime`. -/
def NewInstanceEventWithTime (serviceID domainProject : String) (rev : Int) (createAt : Int)
    (response : WatchInstanceResponse) : InstanceEvent :=
  { serviceID := serviceID, domainProject := domainProject, rev := rev, createAt := createAt,
    response := response }

/-- `dump.WatchInstanceChangedEvent` with its two key-value pairs flattened. -/
structure WatchInstanceChangedEvent where
  Action : String
  ServiceKey : String
  Service : MicroService
  InstanceKey : String
  Instance : MicroServiceInstance
  deriving DecidableEq, Repr

/-- A call that a handler makes on one of its collaborators (metrics, quota, sync
notifier, notification center); `Panic` is a nil-pointer dereference, after which
nothing else happens. -/
inductive Effect where
  | ReportInstances (domain : String) (count : Int)
  | ReportFramework (domain project frameworkName frameworkVersion : String) (count : Int)
  | ReportServices (domain frameworkName frameworkVersion : String) (count : Int)
  | RemandInstanceQuota (domain project : String)
  | SyncerAddEvent (instEvent : WatchInstanceChangedEvent)
  | Publish (evt : InstanceEvent)
  | Panic
  deriving DecidableEq, Repr

/-- What the handlers read from outside their file: the service cache, the store, the
typed field `Framework` of a service record, `core.IsDefaultDomainProject`, the state
of the sync notifier, the key constants of `datasource`, the consumer lookup
`mutil.GetAllConsumerIds`, `discovery.MicroServiceToKey`, the answer of
`notify.Center().Publish` and the clock at the i-th publication. -/
structure EventEnv where
  cacheGet : String → Option Service
  findOneService : List (String × String) → FindOne Service
  ErrNoData : GoError
  Framework : MicroService → Option FrameworkProperties
  IsDefaultDomainProject : String → Bool
  syncerClosed : Bool
  InstanceKeyPrefix : String
  ServiceKeyPrefix : String
  SPLIT : String
  GetAllConsumerIds : String → String → MicroService → List String × Option GoError
  MicroServiceToKey : String → MicroService → MicroServiceKey
  Publish : InstanceEvent → Option GoError
  now : Nat → Int

/-- `GetService` of `microservice_util.go` for an arbitrary filter document. -/
def GetServiceWithFilter (env : EventEnv) (filter : List (String × String)) :
    Option Service × Option GoError :=
  match env.findOneService filter with
  | .clientErr err => (none, some err)
  | .resultErr => (none, some env.ErrNoData)
  | .decodeErr err => (none, some err)
  | .decoded svc => (svc, none)

/-- `getFramework`. -/
def getFramework (env : EventEnv) (ms : MicroService) : String × String :=
  match env.Framework ms with
  | some framework =>
    if framework.Name.length > 0 then
      let version := if framework.Version.length = 0 then "UNKNOWN" else framework.Version
      (framework.Name, version)
    else
      ("UNKNOWN", "UNKNOWN")
  | none => ("UNKNOWN", "UNKNOWN")

/-- `util.StringJoin`. -/
def StringJoin (data : List String) (sep : String) : String :=
  sep.intercalate data

/-- `NotifySyncerInstanceEvent`. -/
def NotifySyncerInstanceEvent (env : EventEnv) (event : MongoEvent Instance)
    (microService : MicroService) : List Effect :=
  let inst := event.Value.Instance
  let instanceKey := StringJoin [env.InstanceKeyPrefix, event.Value.Domain,
    event.Value.Project, inst.ServiceId, inst.InstanceId] env.SPLIT
  let serviceKey := StringJoin [env.ServiceKeyPrefix, event.Value.Domain,
    event.Value.Project, inst.ServiceId] env.SPLIT
  let instEvent : WatchInstanceChangedEvent :=
    { Action := event.Type_, ServiceKey := serviceKey, Service := microService,
      InstanceKey := instanceKey, Instance := inst }
  [Effect.SyncerAddEvent instEvent]

/-- The loop `for _, consumerID := range subscribers` of `PublishInstanceEvent`; `i`
counts the publications made so far. -/
def publishLoop (env : EventEnv) (response : WatchInstanceResponse) (domainProject : String) :
    List String → Nat → List Effect
  | [], _ => []
  | consumerID :: rest, i =>
    let evt := NewInstanceEventWithTime consumerID domainProject (-1) (env.now i) response
    match env.Publish evt with
    | some _ => Effect.Publish evt :: publishLoop env response domainProject rest (i + 1)
    | none => Effect.Publish evt :: publishLoop env response domainProject rest (i + 1)

/-- `PublishInstanceEvent`. -/
def PublishInstanceEvent (env : EventEnv) (evt : MongoEvent Instance) (domainProject : String)
    (serviceKey : MicroServiceKey) (subscribers : List String) : List Effect :=
  if subscribers.length = 0 then
    []
  else
    let response : WatchInstanceResponse :=
      { Response := "Watch instance successfully.", Action := evt.Type_, Key := serviceKey,
        Instance := evt.Value.Instance }
    publishLoop env response domainProject subscribers 0

/-- `InstanceEventHandler.OnEvent`. -/
def InstanceEventHandler.OnEvent (env : EventEnv) (evt : MongoEvent Instance) : List Effect :=
  let action := evt.Type_
  let inst := evt.Value
  let providerID := inst.Instance.ServiceId
  let domainProject := inst.Domain ++ "/" ++ inst.Project
  let cached : Option MicroService :=
    match env.cacheGet providerID with
    | some cacheService => cacheService.Service
    | none => none
  if action = EVT_INIT then
    match cached with
    | none => [Effect.ReportInstances inst.Domain 1]
    | some microService =>
      let fw := getFramework env microService
      [Effect.ReportInstances inst.Domain 1,
        Effect.ReportFramework inst.Domain inst.Project fw.1 fw.2 1]
  else
    let switched : List Effect :=
      if action = EVT_CREATE then
        [Effect.ReportInstances inst.Domain 1]
      else if action = EVT_DELETE then
        Effect.ReportInstances inst.Domain (-1) ::
          (if !env.IsDefaultDomainProject domainProject then
            [Effect.RemandInstanceQuota inst.Domain inst.Project]
          else [])
      else []
    let notifyAll : MicroService → List Effect := fun microService =>
      (if !env.syncerClosed then NotifySyncerInstanceEvent env evt microService else []) ++
        (match env.GetAllConsumerIds inst.Domain inst.Project microService with
          | (_, some _) => []
          | (consumerIDS, none) =>
            PublishInstanceEvent env evt domainProject
              (env.MicroServiceToKey domainProject microService) consumerIDS)
    match cached with
    | some microService => switched ++ notifyAll microService
    | none =>
      match GetServiceWithFilter env [("serviceinfo.serviceid", providerID)] with
      | (_, some _) => switched
      | (none, none) => switched ++ [Effect.Panic]
      | (some service, none) =>
        match service.Service with
        | none => switched
        | some microService => switched ++ notifyAll microService

/-- `ServiceEventHandler.OnEvent`. -/
def ServiceEventHandler.OnEvent (env : EventEnv) (evt : MongoEvent Service) : List Effect :=
  let sevice := evt.Value
  let action := evt.Type_
  match sevice.Service with
  | none => [Effect.Panic]
  | some ms =>
    let fw := getFramework env ms
    if action = EVT_INIT then
      [Effect.ReportServices sevice.Domain fw.1 fw.2 1]
    else if action = EVT_CREATE then
      [Effect.ReportServices sevice.Domain fw.1 fw.2 1]
    else if action = EVT_DELETE then
      [Effect.ReportServices sevice.Domain fw.1 fw.2 (-1)]
    else
      []

/-! ## Index cache (`sd`), exercised by `sd/indexc_test.go` -/

/-- Modelled from the spec: the index cache of `datasource/mongo/sd`, whose file is not
under `src/` (only its test is).  It is an ordered multimap: each key has the list
of its member occurrences, in insertion order and with duplicates; a key without
member is not kept. -/
structure IndexCache where
  store : List (String × List String)
  deriving DecidableEq, Repr

/-- Modelled from the spec: `NewIndexCache`, the empty index cache that the test
starts from. -/
def NewIndexCache : IndexCache :=
  { store := [] }

/-- Modelled from the spec: `Get(key)` "returns a snapshot of all current members for
key, or none if absent"; `none` is the `nil` slice. -/
def IndexCache.Get (c : IndexCache) (key : String) : Option (List String) :=
  c.store.lookup key

/-- Modelled from the spec: the entries after `Put(key, member)`, which "appends member
to key's list (creates list if absent)". -/
def putEntries : List (String × List String) → String → String → List (String × List String)
  | [], key, member => [(key, [member])]
  | (k, members) :: rest, key, member =>
    if k = key then (k, members ++ [member]) :: rest
    else (k, members) :: putEntries rest key member

/-- Modelled from the spec: `Put(key, member)`. -/
def IndexCache.Put (c : IndexCache) (key member : String) : IndexCache :=
  { store := putEntries c.store key member }

/-- Modelled from the spec: the entries with the member list of `key` replaced, used
by `Delete` when members remain. -/
def setEntries : List (String × List String) → String → List String →
    List (String × List String)
  | [], _, _ => []
  | (k, members) :: rest, key, remaining =>
    if k = key then (k, remaining) :: rest
    else (k, members) :: setEntries rest key remaining

/-- Modelled from the spec: `Delete(key, member)` "removes the first matching occurrence
only; if the list becomes empty the key is dropped entirely".  A key that is absent
stays absent. -/
def IndexCache.Delete (c : IndexCache) (key member : String) : IndexCache :=
  match c.store.lookup key with
  | none => c
  | some members =>
    let remaining := members.erase member
    if remaining.length = 0 then
      { store := c.store.filter (fun entry => entry.1 != key) }
    else
      { store := setEntries c.store key remaining }

/-! ## Service operations (`service/ms.go`) and the rule DAO (`client/dao/rule.go`) -/

/-- `discovery.HeartbeatSetElement`. -/
structure HeartbeatSetElement where
  ServiceId : String
  InstanceId : String
  deriving DecidableEq, Repr

/-- The first loop of `DataSource.HeartbeatSet`, over the elements not yet visited:
`existFlag` holds the keys of the map `existFlag`, and the result lists the elements
for which a heartbeat function is started with `gopool.Go`, in order (their number
is `noMultiCounter`). -/
def heartbeatSetLoop : List HeartbeatSetElement → List String → List HeartbeatSetElement
  | [], _ => []
  | heartbeatElement :: rest, existFlag =>
    if (heartbeatElement.ServiceId ++ heartbeatElement.InstanceId) ∈ existFlag then
      heartbeatSetLoop rest existFlag
    else
      heartbeatElement ::
        heartbeatSetLoop rest
          ((heartbeatElement.ServiceId ++ heartbeatElement.InstanceId) :: existFlag)

/-- The elements of a `HeartbeatSet` request that are processed: the first loop of
`DataSource.HeartbeatSet` started with an empty `existFlag`. -/
def HeartbeatSet_processed (instances : List HeartbeatSetElement) : List HeartbeatSetElement :=
  heartbeatSetLoop instances []

/-- An option of a rule filter; `ServiceID` is `mutil.ServiceID(serviceID)`. -/
inductive FilterOption where
  | ServiceID (serviceID : String)
  deriving DecidableEq, Repr

/-- The filter built by `mutil.NewDomainProjectFilter(domain, project, options...)`, kept
as its arguments. -/
structure DomainProjectFilter where
  domain : String
  project : String
  options : List FilterOption
  deriving DecidableEq, Repr

/-- `mutil.NewDomainProjectFilter`. -/
def NewDomainProjectFilter (domain project : String) (options : List FilterOption) :
    DomainProjectFilter :=
  { domain := domain, project := project, options := options }

/-- Outcome of `client.GetMongoClient().Find` on the rule collection: an error of the
call, an error of the cursor, or the documents of the cursor, each with the outcome
of decoding it. -/
inductive FindRules where
  | clientErr (e : GoError)
  | cursorErr (e : GoError)
  | cursor (docs : List (Except GoError Rule))

/-- What the rule DAO reads from outside its file: the accessors of `pkg/util` for the
request context and the mongo client. -/
structure DaoEnv (Ctx : Type) where
  ParseDomain : Ctx → String
  ParseProject : Ctx → String
  Find : Ctx → DomainProjectFilter → FindRules

/-- The loop `for cursor.Next(ctx)` of `GetRules`: the rules decoded so far are in
`rules`; the first document that does not decode ends the loop with its error. -/
def decodeRules : List (Except GoError Rule) → List Rule → List Rule × Option GoError
  | [], rules => (rules, none)
  | .error err :: _, _ => ([], some err)
  | .ok rule :: rest, rules => decodeRules rest (rules ++ [rule])

/-- `GetRules` of `client/dao/rule.go`. -/
def GetRules {Ctx : Type} (env : DaoEnv Ctx) (ctx : Ctx) (filter : DomainProjectFilter) :
    List Rule × Option GoError :=
  match env.Find ctx filter with
  | .clientErr err => ([], some err)
  | .cursorErr err => ([], some err)
  | .cursor docs => decodeRules docs []

/-- `GetRulesByServiceID` of `client/dao/rule.go`. -/
def GetRulesByServiceID {Ctx : Type} (env : DaoEnv Ctx) (ctx : Ctx) (serviceID : String) :
    List Rule × Option GoError :=
  let filter := NewDomainProjectFilter (env.ParseDomain ctx) (env.ParseDomain ctx)
    [FilterOption.ServiceID serviceID]
  GetRules env ctx filter

/-- `discovery.Schema`: the schema of a modification request. -/
structure Schema where
  SchemaId : String
  Summary : String
  Schema : String
  deriving DecidableEq, Repr

/-- `model.Schema`: a persisted schema, with the field `modifySchema` reads. -/
structure SchemaDoc where
  SchemaID : String
  SchemaSummary : String
  deriving DecidableEq, Repr

/-- A write that `modifySchema` makes on the store, with what it writes; `Panic` is a
nil-pointer dereference. -/
inductive SchemaOp where
  | UpdateService (serviceID : String) (newSchemas : List String)
  | UpdateSchema (serviceID schemaID schema summary : String)
  | Panic
  deriving DecidableEq, Repr

/-- What `modifySchema` reads from outside `ms.go`: the typed fields `Schemas` and
`Environment` of a service record, the option `SchemaEditable` of the data source,
the constant `discovery.ENV_PROD`, the outcome of `FindOne` on the schema collection,
the outcome of the store calls `UpdateService` and `UpdateSchema`, and the text
`err.Error()` of an error. -/
structure SchemaEnv where
  Schemas : MicroService → List String
  Environment : MicroService → String
  SchemaEditable : Bool
  ENV_PROD : String
  findOneSchema : FindOne SchemaDoc
  UpdateService : Option GoError
  UpdateSchema : Option GoError
  errText : GoError → String

/-- `GetSchema` of `schema_util.go`: a schema that is not found is `nil` with no error. -/
def GetSchema (env : SchemaEnv) : Option SchemaDoc × Option GoError :=
  match env.findOneSchema with
  | .clientErr err => (none, some err)
  | .resultErr => (none, none)
  | .decodeErr err => (none, some err)
  | .decoded schema => (schema, none)

/-- The Go builtin `copy(dst, src)`: the first `min(len(dst), len(src))` elements of
`dst` are overwritten with those of `src`; the length of `dst` does not change. -/
def copySlice (dst src : List String) : List String :=
  src.take (min dst.length src.length) ++ dst.drop (min dst.length src.length)

/-- `DataSource.isSchemaEditable`. -/
def isSchemaEditable (env : SchemaEnv) (service : MicroService) : Bool :=
  ((env.Environment service).length != 0 && env.Environment service != env.ENV_PROD) ||
    env.SchemaEditable

/-- The tail of `modifySchema`, from `if len(newSchemas) != 0`: the writes made and the
returned error. -/
def modifySchemaWrite (env : SchemaEnv) (serviceID : String) (schema : Schema)
    (newSchemas : List String) : List SchemaOp × Option Error :=
  let serviceWrite : List SchemaOp :=
    if newSchemas.length != 0 then [SchemaOp.UpdateService serviceID newSchemas] else []
  match (if newSchemas.length != 0 then env.UpdateService else none) with
  | some err => (serviceWrite, some (NewError .ErrInternal (env.errText err)))
  | none =>
    match env.UpdateSchema with
    | some err =>
      (serviceWrite ++ [SchemaOp.UpdateSchema serviceID schema.SchemaId schema.Schema
        schema.Summary], some (NewError .ErrInternal (env.errText err)))
    | none =>
      (serviceWrite ++ [SchemaOp.UpdateSchema serviceID schema.SchemaId schema.Schema
        schema.Summary], none)

/-- `DataSource.modifySchema`: the writes made on the store, in order, and the returned
error. -/
def modifySchema {Ctx : Type} (b : Backend Ctx) (env : SchemaEnv) (ctx : Ctx)
    (serviceID : String) (schema : Schema) : List SchemaOp × Option Error :=
  match GetService b ctx (b.ParseDomain ctx) (b.ParseProject ctx) serviceID with
  | (_, some err) =>
    if err = b.ErrNoData then
      ([], some (NewError .ErrServiceNotExists "Service does not exist."))
    else
      ([], some (NewError .ErrInternal (env.errText err)))
  | (none, none) => ([SchemaOp.Panic], none)
  | (some svc, none) =>
    match svc.Service with
    | none => ([SchemaOp.Panic], none)
    | some microservice =>
      let isExist : Bool := (env.Schemas microservice).contains schema.SchemaId
      let newSchemas : List String := []
      if !isSchemaEditable env microservice then
        if (env.Schemas microservice).length != 0 && !isExist then
          ([], some (NewError .ErrUndefinedSchemaID
            ("Non-existent schemaID can't be added request " ++ env.ENV_PROD)))
        else
          match GetSchema env with
          | (_, some err) => ([], some (NewError .ErrUnavailableBackend (env.errText err)))
          | (respSchema, none) =>
            let refused : Bool :=
              match respSchema with
              | some doc => schema.Summary.length = 0 || doc.SchemaSummary.length != 0
              | none => false
            if refused then
              ([], some (NewError .ErrModifySchemaNotAllow
                ("schema already exist, can not be changed request " ++ env.ENV_PROD)))
            else if (env.Schemas microservice).length = 0 then
              modifySchemaWrite env serviceID schema
                (copySlice newSchemas (env.Schemas microservice) ++ [schema.SchemaId])
            else
              modifySchemaWrite env serviceID schema newSchemas
      else
        if !isExist then
          modifySchemaWrite env serviceID schema
            (copySlice newSchemas (env.Schemas microservice) ++ [schema.SchemaId])
        else
          modifySchemaWrite env serviceID schema newSchemas

/-! ## Rule operations of the data source (`service/ms.go`) -/

/-- `discovery.AddOrUpdateServiceRule`: a rule of a request. -/
structure AddOrUpdateServiceRule where
  RuleType : String
  Attribute : String
  Pattern : String
  Description : String
  deriving DecidableEq, Repr

/-- `discovery.Response`, as `discovery.CreateResponse(code, message)` builds it. -/
structure Response where
  Code : ErrCode
  Message : String
  deriving DecidableEq, Repr

/-- `discovery.CreateResponse`. -/
def CreateResponse (code : ErrCode) (message : String) : Response :=
  { Code := code, Message := message }

/-- `discovery.CreateResponseWithSCErr`. -/
def CreateResponseWithSCErr (err : Error) : Response :=
  { Code := err.Code, Message := err.Detail }

/-- What the rule operations read from outside `ms.go` during one call: the tenant of
the request context (`util.ParseDomain`, `util.ParseProject`), the answer of
`mutil.ServiceExistID`, the error of `quota.Apply` with its `InternalError()` flag,
the errors of the store calls (those made in a loop are numbered by the turn of the
loop), `util.GenerateUUID` and the clock text for each turn, and the text
`err.Error()` of an error. -/
structure RuleEnv where
  ParseDomain : String
  ParseProject : String
  ServiceExistID : String → Bool × Option GoError
  quotaErr : Option (Error × Bool)
  GetRulesErr : Option GoError
  RuleExistErr : Nat → Option GoError
  InsertErr : Nat → Option GoError
  BatchDeleteErr : Option GoError
  UpdateRuleErr : Option GoError
  GenerateUUID : Nat → String
  timestamp : Nat → String
  errText : GoError → String

/-- The document belongs to the service `serviceID` of the request's tenant. -/
def inService (env : RuleEnv) (serviceID : String) (doc : Rule) : Bool :=
  doc.Domain == env.ParseDomain && doc.Project == env.ParseProject &&
    doc.ServiceID == serviceID

/-- Modelled from the spec: the store query `mutil.GetRules(ctx, serviceID)`, whose file
is not under `src/`: the rules stored for the service in the request's tenant, in
store order. -/
def GetRulesOfService (env : RuleEnv) (collection : List Rule) (serviceID : String) :
    List ServiceRule :=
  (collection.filter (inService env serviceID)).map (fun doc => doc.Rule)

/-- Modelled from the spec: the filter `mutil.GeneratorRuleAttFilter(ctx, serviceID,
attribute, pattern)`, whose file is not under `src/`: the rule index (service,
attribute, pattern) named in the comment of `AddRule`. -/
def matchesRuleAtt (env : RuleEnv) (serviceID attr pattern : String) (doc : Rule) : Bool :=
  inService env serviceID doc && doc.Rule.Attribute == attr && doc.Rule.Pattern == pattern

/-- Modelled from the spec: the filter `mutil.GeneratorRuleFilter(ctx, serviceID, ruleID)`,
whose file is not under `src/`: the rule of that id in the service. -/
def matchesRuleID (env : RuleEnv) (serviceID ruleID : String) (doc : Rule) : Bool :=
  inService env serviceID doc && doc.Rule.RuleId == ruleID

/-- Modelled from the spec: the store write behind `mutil.UpdateRule` (`DocUpdate`), whose
file is not under `src/`: the first document that matches the filter is changed.  A
store write that returns an error is taken to have changed nothing. -/
def updateFirst (matchesDoc : Rule → Bool) (change : Rule → Rule) : List Rule → List Rule
  | [] => []
  | doc :: rest =>
    if matchesDoc doc then change doc :: rest
    else doc :: updateFirst matchesDoc change rest

/-- Modelled from the spec: the store write `BatchDelete` for a list of delete-one
models, one per rule id, whose file is not under `src/`: each model, in order,
deletes the first document that matches its filter. -/
def batchDelete (env : RuleEnv) (serviceID : String) :
    List Rule → List String → List Rule
  | collection, [] => collection
  | collection, ruleID :: rest =>
    batchDelete env serviceID (collection.eraseP (matchesRuleID env serviceID ruleID)) rest

/-- `discovery.AddServiceRulesRequest`. -/
structure AddServiceRulesRequest where
  ServiceId : String
  Rules : List AddOrUpdateServiceRule
  deriving DecidableEq, Repr

/-- `discovery.AddServiceRulesResponse`. -/
structure AddServiceRulesResponse where
  Response : Response
  RuleIds : List String
  deriving DecidableEq, Repr

/-- The variables of the loop of `AddRule`, with the rule collection. -/
structure AddRuleState where
  collection : List Rule
  ruleType : String
  ruleIDs : List String
  deriving DecidableEq, Repr

/-- The loop `for _, rule := range request.Rules` of `AddRule`, over the rules not yet
visited; `i` is the turn.  The second component is the early `return`, if any. -/
def addRuleLoop (env : RuleEnv) (serviceId : String) :
    List AddOrUpdateServiceRule → Nat → AddRuleState →
      AddRuleState × Option (AddServiceRulesResponse × Option GoError)
  | [], _, st => (st, none)
  | rule :: rest, i, st =>
    if st.ruleType.length != 0 && st.ruleType != rule.RuleType then
      (st, some ({ Response := CreateResponse .ErrBlackAndWhiteRule
                      "Service can only contain one rule type,Black or white.",
                   RuleIds := [] }, none))
    else
      let ruleType := if st.ruleType.length = 0 then rule.RuleType else st.ruleType
      match env.RuleExistErr i with
      | some _ =>
        ({ st with ruleType := ruleType },
          some ({ Response := CreateResponse .ErrUnavailableBackend
                    "Can not check rule if exist.", RuleIds := [] }, none))
      | none =>
        if st.collection.any (matchesRuleAtt env serviceId rule.Attribute rule.Pattern) then
          addRuleLoop env serviceId rest (i + 1) { st with ruleType := ruleType }
        else
          let ruleAdd : Rule :=
            { Domain := env.ParseDomain, Project := env.ParseProject, ServiceID := serviceId,
              Rule := { RuleId := env.GenerateUUID i, RuleType := rule.RuleType,
                        Attribute := rule.Attribute, Pattern := rule.Pattern,
                        Description := rule.Description, Timestamp := env.timestamp i,
                        ModTimestamp := env.timestamp i } }
          let ruleIDs := st.ruleIDs ++ [ruleAdd.Rule.RuleId]
          match env.InsertErr i with
          | some err =>
            ({ st with ruleType := ruleType, ruleIDs := ruleIDs },
              some ({ Response := CreateResponse .ErrInternal (env.errText err),
                      RuleIds := [] }, some err))
          | none =>
            addRuleLoop env serviceId rest (i + 1)
              { collection := st.collection ++ [ruleAdd], ruleType := ruleType,
                ruleIDs := ruleIDs }

/-- `DataSource.AddRule`: the rule collection after the call, the response and the
returned error. -/
def DataSource.AddRule (env : RuleEnv) (collection : List Rule)
    (request : AddServiceRulesRequest) :
    List Rule × AddServiceRulesResponse × Option GoError :=
  match env.ServiceExistID request.ServiceId with
  | (_, some _) =>
    (collection, { Response := CreateResponse .ErrInternal "Failed to check service exist",
                   RuleIds := [] }, none)
  | (false, none) =>
    (collection, { Response := CreateResponse .ErrServiceNotExists "Service does not exist",
                   RuleIds := [] }, none)
  | (true, none) =>
    match env.quotaErr with
    | some (errQuota, internalError) =>
      (collection, { Response := CreateResponseWithSCErr errQuota, RuleIds := [] },
        if internalError then some (GoError.discovery errQuota) else none)
    | none =>
      match env.GetRulesErr with
      | some err =>
        (collection, { Response := CreateResponse .ErrInternal (env.errText err),
                       RuleIds := [] }, some err)
      | none =>
        let rules := GetRulesOfService env collection request.ServiceId
        let ruleType : String :=
          match rules with
          | [] => ""
          | first :: _ => first.RuleType
        match addRuleLoop env request.ServiceId request.Rules 0
            { collection := collection, ruleType := ruleType, ruleIDs := [] } with
        | (st, some (response, err)) => (st.collection, response, err)
        | (st, none) =>
          (st.collection,
            { Response := CreateResponse .ResponseSuccess "Add service rules successfully.",
              RuleIds := st.ruleIDs }, none)

/-- `discovery.UpdateServiceRuleRequest`. -/
structure UpdateServiceRuleRequest where
  ServiceId : String
  RuleId : String
  Rule : AddOrUpdateServiceRule
  deriving DecidableEq, Repr

/-- `DataSource.UpdateRule`: the rule collection after the call, the response and the
returned error. -/
def DataSource.UpdateRule (env : RuleEnv) (collection : List Rule)
    (request : UpdateServiceRuleRequest) : List Rule × Response × Option GoError :=
  match env.ServiceExistID request.ServiceId with
  | (_, some _) =>
    (collection, CreateResponse .ErrServiceNotExists
      "UpdateRule failed for get service failed.", none)
  | (false, none) =>
    (collection, CreateResponse .ErrServiceNotExists
      "UpdateRule failed for service not exist.", none)
  | (true, none) =>
    match env.GetRulesErr with
    | some _ =>
      (collection, CreateResponse .ErrUnavailableBackend "UpdateRule failed for get rule.",
        none)
    | none =>
      let rules := GetRulesOfService env collection request.ServiceId
      let typeChange : Option String :=
        match rules with
        | [] => none
        | first :: _ =>
          if first.RuleType != request.Rule.RuleType then some first.RuleType else none
      match typeChange with
      | some firstType =>
        (collection, CreateResponse .ErrModifyRuleNotAllow
          ("Exist multiple rules, can not change rule type. Rule type is ." ++ firstType),
          none)
      | none =>
        match env.RuleExistErr 0 with
        | some err => (collection, CreateResponse .ErrInternal (env.errText err), none)
        | none =>
          if !collection.any (matchesRuleID env request.ServiceId request.RuleId) then
            (collection, CreateResponse .ErrRuleNotExists "This rule does not exist.", none)
          else
            match env.UpdateRuleErr with
            | some err =>
              (collection, CreateResponse .ErrInternal (env.errText err), some err)
            | none =>
              (updateFirst (matchesRuleID env request.ServiceId request.RuleId)
                  (fun doc =>
                    { doc with
                      Rule := { doc.Rule with
                                RuleType := request.Rule.RuleType,
                                Pattern := request.Rule.Pattern,
                                Attribute := request.Rule.Attribute,
                                Description := request.Rule.Description,
                                ModTimestamp := env.timestamp 0 } })
                  collection,
                CreateResponse .ResponseSuccess "Update service rules succesfully.", none)

/-- `discovery.DeleteServiceRulesRequest`. -/
structure DeleteServiceRulesRequest where
  ServiceId : String
  RuleIds : List String
  deriving DecidableEq, Repr

/-- The loop `for _, ruleID := range request.RuleIds` of `DeleteRule`: `delRules` holds
the rule ids of the delete models built so far; the second component is the early
`return`, if any. -/
def deleteRuleLoop (env : RuleEnv) (collection : List Rule) (serviceId : String) :
    List String → Nat → List String → List String × Option (Response × Option GoError)
  | [], _, delRules => (delRules, none)
  | ruleID :: rest, i, delRules =>
    match env.RuleExistErr i with
    | some err => (delRules, some (CreateResponse .ErrInternal (env.errText err), some err))
    | none =>
      if !collection.any (matchesRuleID env serviceId ruleID) then
        (delRules, some (CreateResponse .ErrRuleNotExists "This rule does not exist.", none))
      else
        deleteRuleLoop env collection serviceId rest (i + 1) (delRules ++ [ruleID])

/-- The outcome of `DeleteRule`: the rule collection after the call, the `BatchDelete`
calls made (each with the rule ids of its delete models), the response and the
returned error. -/
structure DeleteRuleResult where
  collection : List Rule
  batches : List (List String)
  response : Response
  err : Option GoError
  deriving DecidableEq, Repr

/-- `DataSource.DeleteRule`. -/
def DataSource.DeleteRule (env : RuleEnv) (collection : List Rule)
    (request : DeleteServiceRulesRequest) : DeleteRuleResult :=
  match env.ServiceExistID request.ServiceId with
  | (_, some err) =>
    { collection := collection, batches := [],
      response := CreateResponse .ErrInternal "Failed to check service exist",
      err := some err }
  | (false, none) =>
    { collection := collection, batches := [],
      response := CreateResponse .ErrServiceNotExists "Service not exist", err := none }
  | (true, none) =>
    match deleteRuleLoop env collection request.ServiceId request.RuleIds 0 [] with
    | (_, some (response, err)) =>
      { collection := collection, batches := [], response := response, err := err }
    | (delRules, none) =>
      if delRules.length > 0 then
        match env.BatchDeleteErr with
        | some err =>
          { collection := collection, batches := [delRules],
            response := CreateResponse .ErrInternal (env.errText err), err := some err }
        | none =>
          { collection := batchDelete env request.ServiceId collection delRules,
            batches := [delRules],
            response := CreateResponse .ResponseSuccess "Delete service rules successfully.",
            err := none }
      else
        { collection := collection, batches := [],
          response := CreateResponse .ResponseSuccess "Delete service rules successfully.",
          err := none }

/-! ## Vocabulary of the properties -/

/-- A rule matches a consumer: its attribute resolves without error to a non-empty
value, and the rule's pattern matches that value. -/
def ruleMatches (re : Regexp) (consumer : MicroService) (tags : Tags) (rule : Rule) : Prop :=
  ∃ value, parsePattern consumer rule.Rule tags = (value, none) ∧ value ≠ "" ∧
    re rule.Rule.Pattern value = .ok true

/-- The behaviour of `regexp.MatchString` on patterns without metacharacters: the
pattern occurs somewhere in the value.  Used for concrete inputs only. -/
def literalMatchString : Regexp := fun pattern value =>
  .ok (value.data.tails.any (fun suffix => pattern.data.isPrefixOf suffix))

/-- A matcher that reports a match on every input, as the pattern `.*` does.  Used
for concrete inputs only. -/
def matchEverything : Regexp := fun _ _ => .ok true

/-- A rule with only its type, attribute and pattern filled in. -/
def mkRule (ruleType attr pattern : String) : Rule :=
  { Domain := "default", Project := "default", ServiceID := "provider",
    Rule := { RuleId := "", RuleType := ruleType, Attribute := attr,
              Pattern := pattern, Description := "" } }

/-- A small store for concrete inputs: consumers `c1` (`AppId = app1`) and `c2`
(`AppId = app2`) are cached, no other service exists, and no consumer has tags. -/
def demoBackend : Backend Unit :=
  { re := literalMatchString
    ParseDomainProject := fun _ => "default/default"
    ParseDomain := fun _ => "default"
    ParseProject := fun _ => "default"
    cacheGet := fun serviceID =>
      if serviceID = "c1" then
        some { Domain := "default", Project := "default", Tags := [],
               Service := some ⟨[("ServiceId", "c1"), ("AppId", "app1")]⟩ }
      else if serviceID = "c2" then
        some { Domain := "default", Project := "default", Tags := [],
               Service := some ⟨[("ServiceId", "c2"), ("AppId", "app2")]⟩ }
      else none
    findOneService := fun _ _ _ _ => FindOne.resultErr
    ErrNoData := GoError.other "no data"
    GetTags := fun _ _ _ _ => ([], none) }

/-- A persisted instance `s1/i1` with the health-check policy Interval = 30,
Times = 3 (effective ttl 120 s) and the given refresh time. -/
def demoInstance (refreshTime : Int) : Instance :=
  { Domain := "default", Project := "default", RefreshTime := refreshTime,
    Instance := { InstanceId := "i1", ServiceId := "s1",
                  Endpoints := ["rest://127.0.0.1:8080"],
                  HealthCheck := { Mode := "push", Port := 0, Interval := 30, Times := 3,
                                   Url := "" } } }

/-- A store on which every call succeeds, with the given decoding outcome and clock. -/
def healthyStore (decode : Except GoError Instance) (now : Int) : StoreAnswers :=
  { StartSession := none, StartTransaction := none, FindOne := none, Decode := decode,
    now := now, DeleteOne := none, AbortTransaction := none, CommitTransaction := none }

/-- The liveness entry of the instance `s1/i1`. -/
def demoHeartbeatInfo : instanceHeartbeatInfo :=
  { serviceID := "s1", instanceID := "i1", ttl := 120, lastRefresh := 0 }

/-- A configuration in which no key is set: every read yields the default given. -/
def emptyConfig : ConfigGetInt := fun _ dflt => dflt

/-- The effect is a metrics report. -/
def Effect.isMetricsReport : Effect → Bool
  | .ReportInstances _ _ => true
  | .ReportFramework _ _ _ _ _ => true
  | .ReportServices _ _ _ _ => true
  | _ => false

/-- The effect is a release of instance quota. -/
def Effect.isQuotaRelease : Effect → Bool
  | .RemandInstanceQuota _ _ => true
  | _ => false

/-- The effect is an event added to the sync notifier. -/
def Effect.isSyncerAdd : Effect → Bool
  | .SyncerAddEvent _ => true
  | _ => false

/-- The effect is a publication to a subscriber. -/
def Effect.isPublish : Effect → Bool
  | .Publish _ => true
  | _ => false

/-- The provider of an instance event is resolved to `microService`: the cache holds
it, or the cache does not and the store returns it without error. -/
def providerResolved (env : EventEnv) (providerID : String) (microService : MicroService) :
    Prop :=
  (∃ cacheService, env.cacheGet providerID = some cacheService ∧
      cacheService.Service = some microService) ∨
  ((env.cacheGet providerID = none ∨
      ∃ cacheService, env.cacheGet providerID = some cacheService ∧
        cacheService.Service = none) ∧
    ∃ service, GetServiceWithFilter env [("serviceinfo.serviceid", providerID)] =
        (some service, none) ∧ service.Service = some microService)

/-- The provider record of the instance `s1/i1`. -/
def demoProvider : MicroService :=
  { fields := [("ServiceId", "s1"), ("AppId", "app1")] }

/-- An environment for concrete inputs: the provider `s1` is cached, the tenant
`default/default` is the default one, the sync notifier is open, the provider has
the consumers `c1, c2, c3`, and the publication to `c2` fails. -/
def demoEventEnv : EventEnv :=
  { cacheGet := fun serviceID =>
      if serviceID = "s1" then
        some { Domain := "default", Project := "default", Tags := [],
               Service := some demoProvider }
      else none
    findOneService := fun _ => FindOne.resultErr
    ErrNoData := GoError.other "no data"
    Framework := fun _ => some { Name := "go-chassis", Version := "" }
    IsDefaultDomainProject := fun domainProject => domainProject == "default/default"
    syncerClosed := false
    InstanceKeyPrefix := "/cse-sr/inst/files"
    ServiceKeyPrefix := "/cse-sr/ms/files"
    SPLIT := "/"
    GetAllConsumerIds := fun _ _ _ => (["c1", "c2", "c3"], none)
    MicroServiceToKey := fun domainProject _ =>
      { Tenant := domainProject, Environment := "", AppId := "app1", ServiceName := "svc",
        Version := "1.0.0", Alias := "" }
    Publish := fun evt =>
      if evt.serviceID = "c2" then some (GoError.other "channel full") else none
    now := fun i => 1000 + i }

/-- An event of the given type for the instance `s1/i1` of the given tenant. -/
def demoInstanceEvent (action : EventType) (domain project : String) : MongoEvent Instance :=
  { Type_ := action, Value := { demoInstance 0 with Domain := domain, Project := project } }

/-- The effects of the `switch` of `InstanceEventHandler.OnEvent` for an event that is
not an Init: the instance gauge and, for a Delete outside the default tenant, the
release of quota. -/
def switchEffects (env : EventEnv) (evt : MongoEvent Instance) : List Effect :=
  if evt.Type_ = EVT_CREATE then
    [Effect.ReportInstances evt.Value.Domain 1]
  else if evt.Type_ = EVT_DELETE then
    Effect.ReportInstances evt.Value.Domain (-1) ::
      (if !env.IsDefaultDomainProject (evt.Value.Domain ++ "/" ++ evt.Value.Project) then
        [Effect.RemandInstanceQuota evt.Value.Domain evt.Value.Project]
      else [])
  else []

/-- The effects of `InstanceEventHandler.OnEvent` once the provider is known: the sync
notifier, then the consumer lookup and the publications. -/
def notifyEffects (env : EventEnv) (evt : MongoEvent Instance) (microService : MicroService) :
    List Effect :=
  (if !env.syncerClosed then NotifySyncerInstanceEvent env evt microService else []) ++
    (match env.GetAllConsumerIds evt.Value.Domain evt.Value.Project microService with
      | (_, some _) => []
      | (consumerIDS, none) =>
        PublishInstanceEvent env evt (evt.Value.Domain ++ "/" ++ evt.Value.Project)
          (env.MicroServiceToKey (evt.Value.Domain ++ "/" ++ evt.Value.Project) microService)
          consumerIDS)

/-- The subscriber and the tenant a publication is addressed to. -/
def Effect.addressee : Effect → Option (String × String)
  | .Publish evt => some (evt.serviceID, evt.domainProject)
  | _ => none

/-- A service event of the given type for the provider `s1`. -/
def demoServiceEvent (action : EventType) : MongoEvent Service :=
  { Type_ := action,
    Value := { Domain := "default", Project := "default", Tags := [],
               Service := some demoProvider } }

/-- A matcher for concrete inputs that rejects the pattern `(` as `regexp.MatchString`
does ("missing closing )") and searches every other pattern as a literal. -/
def demoRegexp : Regexp := fun pattern value =>
  if pattern = "(" then .error "error parsing regexp: missing closing ): `(`"
  else literalMatchString pattern value

/-- The pattern is not a valid regular expression: `regexp.MatchString` answers with an
error whatever the value. -/
def invalidPattern (re : Regexp) (pattern : String) : Prop :=
  ∀ value : String, ∃ msg : String, re pattern value = .error msg

/-- A rule DAO over a collection of rule documents: `Find` returns, in store order and
all decodable, the documents whose domain, project and service id are those of the
filter; the context is the pair (domain, project) of the request. -/
def collectionDao (collection : List Rule) : DaoEnv (String × String) :=
  { ParseDomain := fun ctx => ctx.1
    ParseProject := fun ctx => ctx.2
    Find := fun _ filter =>
      FindRules.cursor
        ((collection.filter (fun doc =>
          doc.Domain == filter.domain && doc.Project == filter.project &&
            filter.options.all (fun option =>
              match option with
              | .ServiceID serviceID => doc.ServiceID == serviceID))).map Except.ok) }

/-- A rule document of the service `s1` in the tenant `d1/p1`. -/
def demoRuleDoc : Rule :=
  { Domain := "d1", Project := "p1", ServiceID := "s1",
    Rule := { RuleId := "r1", RuleType := "WHITE", Attribute := "AppId", Pattern := "app1",
              Description := "" } }

/-- A store that holds the service `s1` with the schema list `a, b` and no environment,
for the context `()`. -/
def schemaBackend : Backend Unit :=
  { demoBackend with
    cacheGet := fun _ => none
    findOneService := fun _ _ _ serviceID =>
      if serviceID = "s1" then
        FindOne.decoded (some { Domain := "default", Project := "default", Tags := [],
                                Service := some ⟨[("ServiceId", "s1")]⟩ })
      else FindOne.resultErr }

/-- A data source in which schemas are editable and every store call succeeds; the
service record has the schema list `a, b`. -/
def editableSchemaEnv : SchemaEnv :=
  { Schemas := fun _ => ["a", "b"]
    Environment := fun _ => ""
    SchemaEditable := true
    ENV_PROD := "production"
    findOneSchema := FindOne.resultErr
    UpdateService := none
    UpdateSchema := none
    errText := fun _ => "error" }

/-- All the rules of the list have one rule type. -/
def sameRuleType (rules : List ServiceRule) : Prop :=
  ∀ r1 ∈ rules, ∀ r2 ∈ rules, r1.RuleType = r2.RuleType

/-- A store on which every call of a rule operation succeeds, for the tenant
`d1/p1`, in which every service exists. -/
def healthyRuleEnv : RuleEnv :=
  { ParseDomain := "d1"
    ParseProject := "p1"
    ServiceExistID := fun _ => (true, none)
    quotaErr := none
    GetRulesErr := none
    RuleExistErr := fun _ => none
    InsertErr := fun _ => none
    BatchDeleteErr := none
    UpdateRuleErr := none
    GenerateUUID := fun i => "uuid" ++ toString i
    timestamp := fun _ => "1600000000"
    errText := fun _ => "error" }

/-- A rule document of the service `s1` in the tenant `d1/p1`, with the given id,
type and pattern on the attribute `AppId`. -/
def ruleDoc (ruleID ruleType pattern : String) : Rule :=
  { Domain := "d1", Project := "p1", ServiceID := "s1",
    Rule := { RuleId := ruleID, RuleType := ruleType, Attribute := "AppId",
              Pattern := pattern, Description := "" } }

/-! ## Properties of the rule engine -/

theorem string_length_eq_zero_iff (s : String) : s.length = 0 ↔ s = "" := by
  constructor
  · intro h
    have hd : s.data = [] := List.length_eq_zero.mp h
    exact String.ext hd
  · intro h
    subst h
    rfl

theorem matchIgnoringErr_eq_true_iff (re : Regexp) (p v : String) :
    matchIgnoringErr re p v = true ↔ re p v = .ok true := by
  unfold matchIgnoringErr
  cases h : re p v with
  | error e => simp
  | ok b => cases b <;> simp

/-- Every error of `parsePattern` carries the code `ErrInternal`. -/
theorem parsePattern_err_code (v : MicroService) (rule : ServiceRule) (tags : Tags)
    (x : String) (e : Error) (h : parsePattern v rule tags = (x, some e)) :
    e.Code = ErrCode.ErrInternal := by
  unfold parsePattern at h
  split at h
  · simp at h
  · split at h
    · simp only [Prod.mk.injEq, Option.some.injEq] at h
      rw [← h.2]
      rfl
    · simp at h

/-- One iteration of `patternWhiteList` on a rule that resolves and matches. -/
theorem patternWhiteList_cons_match (re : Regexp) (rule : Rule) (rest : List Rule)
    (tags : Tags) (c : MicroService) (value : String)
    (h : parsePattern c rule.Rule tags = (value, none))
    (hcond : value ≠ "" ∧ re rule.Rule.Pattern value = .ok true) :
    patternWhiteList re (rule :: rest) tags c = none := by
  rw [patternWhiteList, h]
  simp only [string_length_eq_zero_iff]
  simp [hcond.1, (matchIgnoringErr_eq_true_iff re _ _).mpr hcond.2]

/-- A rule that resolves and does not match is passed over by `patternWhiteList`. -/
theorem patternWhiteList_cons_skip (re : Regexp) (rule : Rule) (rest : List Rule)
    (tags : Tags) (c : MicroService) (value : String)
    (h : parsePattern c rule.Rule tags = (value, none))
    (hcond : ¬ (value ≠ "" ∧ re rule.Rule.Pattern value = .ok true)) :
    patternWhiteList re (rule :: rest) tags c = patternWhiteList re rest tags c := by
  rw [patternWhiteList, h]
  simp only [string_length_eq_zero_iff]
  by_cases hv : value = ""
  · simp [hv]
  · have hm2 : ¬ matchIgnoringErr re rule.Rule.Pattern value = true :=
      fun hc => hcond ⟨hv, (matchIgnoringErr_eq_true_iff re _ _).mp hc⟩
    simp [hv, hm2]

/-- One iteration of `patternBlackList` on a rule that resolves and matches. -/
theorem patternBlackList_cons_match (re : Regexp) (rule : Rule) (rest : List Rule)
    (tags : Tags) (c : MicroService) (value : String)
    (h : parsePattern c rule.Rule tags = (value, none))
    (hcond : value ≠ "" ∧ re rule.Rule.Pattern value = .ok true) :
    patternBlackList re (rule :: rest) tags c = some (NewError .ErrPermissionDeny "found in black list") := by
  rw [patternBlackList, h]
  simp only [string_length_eq_zero_iff]
  simp [hcond.1, (matchIgnoringErr_eq_true_iff re _ _).mpr hcond.2]

/-- A rule that resolves and does not match is passed over by `patternBlackList`. -/
theorem patternBlackList_cons_skip (re : Regexp) (rule : Rule) (rest : List Rule)
    (tags : Tags) (c : MicroService) (value : String)
    (h : parsePattern c rule.Rule tags = (value, none))
    (hcond : ¬ (value ≠ "" ∧ re rule.Rule.Pattern value = .ok true)) :
    patternBlackList re (rule :: rest) tags c = patternBlackList re rest tags c := by
  rw [patternBlackList, h]
  simp only [string_length_eq_zero_iff]
  by_cases hv : value = ""
  · simp [hv]
  · have hm2 : ¬ matchIgnoringErr re rule.Rule.Pattern value = true :=
      fun hc => hcond ⟨hv, (matchIgnoringErr_eq_true_iff re _ _).mp hc⟩
    simp [hv, hm2]

/-- One iteration of either loop on a rule whose attribute does not resolve. -/
theorem patternWhiteList_cons_err (re : Regexp) (rule : Rule) (rest : List Rule)
    (tags : Tags) (c : MicroService) (x : String) (e : Error)
    (h : parsePattern c rule.Rule tags = (x, some e)) :
    patternWhiteList re (rule :: rest) tags c = some e := by
  rw [patternWhiteList, h]

theorem patternBlackList_cons_err (re : Regexp) (rule : Rule) (rest : List Rule)
    (tags : Tags) (c : MicroService) (x : String) (e : Error)
    (h : parsePattern c rule.Rule tags = (x, some e)) :
    patternBlackList re (rule :: rest) tags c = some e := by
  rw [patternBlackList, h]

theorem ruleMatches_of_resolved (re : Regexp) (c : MicroService) (tags : Tags) (rule : Rule)
    (value : String) (h : parsePattern c rule.Rule tags = (value, none)) :
    ruleMatches re c tags rule ↔ (value ≠ "" ∧ re rule.Rule.Pattern value = .ok true) := by
  unfold ruleMatches
  constructor
  · rintro ⟨v, hv, hne, hm⟩
    rw [h] at hv
    have : value = v := by simpa using hv
    subst this
    exact ⟨hne, hm⟩
  · rintro ⟨hne, hm⟩
    exact ⟨value, h, hne, hm⟩

/-- A whitelist whose rules all resolve: allow exactly when some rule matches, and
the only other outcome is the denial built at the end of the loop. -/
theorem patternWhiteList_resolved (re : Regexp) (tags : Tags) (c : MicroService) :
    ∀ rules : List Rule, (∀ r ∈ rules, (parsePattern c r.Rule tags).2 = none) →
      (patternWhiteList re rules tags c = none ↔ ∃ r ∈ rules, ruleMatches re c tags r) ∧
      (patternWhiteList re rules tags c = none ∨
        patternWhiteList re rules tags c =
          some (NewError .ErrPermissionDeny "not found in white list")) := by
  intro rules
  induction rules with
  | nil =>
    intro _
    simp [patternWhiteList]
  | cons rule rest ih =>
    intro hres
    have hrest := ih (fun r hr => hres r (List.mem_cons_of_mem _ hr))
    have hr : parsePattern c rule.Rule tags = ((parsePattern c rule.Rule tags).1, none) := by
      have := hres rule (List.mem_cons_self _ _)
      exact Prod.ext rfl this
    have hm := ruleMatches_of_resolved re c tags rule _ hr
    by_cases hcond : (parsePattern c rule.Rule tags).1 ≠ "" ∧
        re rule.Rule.Pattern (parsePattern c rule.Rule tags).1 = .ok true
    · rw [patternWhiteList_cons_match re rule rest tags c _ hr hcond]
      exact ⟨⟨fun _ => ⟨rule, List.mem_cons_self _ _, hm.mpr hcond⟩, fun _ => rfl⟩, Or.inl rfl⟩
    · rw [patternWhiteList_cons_skip re rule rest tags c _ hr hcond]
      refine ⟨?_, hrest.2⟩
      rw [hrest.1]
      constructor
      · rintro ⟨r, hmem, hrm⟩
        exact ⟨r, List.mem_cons_of_mem _ hmem, hrm⟩
      · rintro ⟨r, hmem, hrm⟩
        rcases List.mem_cons.mp hmem with heq | hmem
        · subst heq
          exact absurd (hm.mp hrm) hcond
        · exact ⟨r, hmem, hrm⟩

/-- A blacklist whose rules all resolve: deny exactly when some rule matches, and
the only other outcome is allow. -/
theorem patternBlackList_resolved (re : Regexp) (tags : Tags) (c : MicroService) :
    ∀ rules : List Rule, (∀ r ∈ rules, (parsePattern c r.Rule tags).2 = none) →
      (patternBlackList re rules tags c =
          some (NewError .ErrPermissionDeny "found in black list") ↔
        ∃ r ∈ rules, ruleMatches re c tags r) ∧
      (patternBlackList re rules tags c = none ∨
        patternBlackList re rules tags c =
          some (NewError .ErrPermissionDeny "found in black list")) := by
  intro rules
  induction rules with
  | nil =>
    intro _
    simp [patternBlackList]
  | cons rule rest ih =>
    intro hres
    have hrest := ih (fun r hr => hres r (List.mem_cons_of_mem _ hr))
    have hr : parsePattern c rule.Rule tags = ((parsePattern c rule.Rule tags).1, none) := by
      have := hres rule (List.mem_cons_self _ _)
      exact Prod.ext rfl this
    have hm := ruleMatches_of_resolved re c tags rule _ hr
    by_cases hcond : (parsePattern c rule.Rule tags).1 ≠ "" ∧
        re rule.Rule.Pattern (parsePattern c rule.Rule tags).1 = .ok true
    · rw [patternBlackList_cons_match re rule rest tags c _ hr hcond]
      exact ⟨⟨fun _ => ⟨rule, List.mem_cons_self _ _, hm.mpr hcond⟩, fun _ => rfl⟩, Or.inr rfl⟩
    · rw [patternBlackList_cons_skip re rule rest tags c _ hr hcond]
      refine ⟨?_, hrest.2⟩
      rw [hrest.1]
      constructor
      · rintro ⟨r, hmem, hrm⟩
        exact ⟨r, List.mem_cons_of_mem _ hmem, hrm⟩
      · rintro ⟨r, hmem, hrm⟩
        rcases List.mem_cons.mp hmem with heq | hmem
        · subst heq
          exact absurd (hm.mp hrm) hcond
        · exact ⟨r, hmem, hrm⟩

/-- C2. Whitelist: for a non-empty rule list whose first rule has type WHITE, a
non-nil consumer and tags for which every attribute resolves, `MatchRules` returns
no error exactly when some rule's pattern matches that rule's non-empty resolved
value; when no rule matches it returns an error whose code is `ErrPermissionDeny`. -/
theorem MatchRules_white_allow_iff_some_rule_matches (re : Regexp) (first : Rule)
    (rest : List Rule) (c : MicroService) (tags : Tags)
    (hw : first.Rule.RuleType = "WHITE")
    (hres : ∀ r ∈ first :: rest, (parsePattern c r.Rule tags).2 = none) :
    (MatchRules re (first :: rest) (some c) tags = none ↔
        ∃ r ∈ first :: rest, ruleMatches re c tags r) ∧
    ((¬ ∃ r ∈ first :: rest, ruleMatches re c tags r) →
        ∃ e, MatchRules re (first :: rest) (some c) tags = some e ∧
          e.Code = ErrCode.ErrPermissionDeny) := by
  have hmr : MatchRules re (first :: rest) (some c) tags =
      patternWhiteList re (first :: rest) tags c := by
    simp [MatchRules, hw]
  have hspec := patternWhiteList_resolved re tags c (first :: rest) hres
  rw [hmr]
  refine ⟨hspec.1, fun hno => ?_⟩
  rcases hspec.2 with hnone | hdeny
  · exact absurd (hspec.1.mp hnone) hno
  · exact ⟨_, hdeny, rfl⟩

/-- C2, at the whitelist `{WHITE, AppId, "app1"}` and a consumer with `AppId = "app1"`. -/
theorem MatchRules_white_allow_iff_some_rule_matches_witness :
    (mkRule "WHITE" "AppId" "app1").Rule.RuleType = "WHITE" ∧
    (∀ r ∈ [mkRule "WHITE" "AppId" "app1"],
        (parsePattern ⟨[("AppId", "app1")]⟩ r.Rule []).2 = none) ∧
    ((MatchRules literalMatchString [mkRule "WHITE" "AppId" "app1"]
          (some ⟨[("AppId", "app1")]⟩) [] = none ↔
        ∃ r ∈ [mkRule "WHITE" "AppId" "app1"],
          ruleMatches literalMatchString ⟨[("AppId", "app1")]⟩ [] r) ∧
     ((¬ ∃ r ∈ [mkRule "WHITE" "AppId" "app1"],
          ruleMatches literalMatchString ⟨[("AppId", "app1")]⟩ [] r) →
        ∃ e, MatchRules literalMatchString [mkRule "WHITE" "AppId" "app1"]
            (some ⟨[("AppId", "app1")]⟩) [] = some e ∧
          e.Code = ErrCode.ErrPermissionDeny)) :=
  ⟨rfl, by decide,
    MatchRules_white_allow_iff_some_rule_matches literalMatchString
      (mkRule "WHITE" "AppId" "app1") [] ⟨[("AppId", "app1")]⟩ [] rfl (by decide)⟩
/-- C3. Blacklist: for a non-empty rule list whose first rule has type BLACK, a
non-nil consumer and tags for which every attribute resolves, `MatchRules` returns
an error with code `ErrPermissionDeny` exactly when some rule's pattern matches
that rule's non-empty resolved value, and returns no error otherwise. -/
theorem MatchRules_black_deny_iff_some_rule_matches (re : Regexp) (first : Rule)
    (rest : List Rule) (c : MicroService) (tags : Tags)
    (hb : first.Rule.RuleType = "BLACK")
    (hres : ∀ r ∈ first :: rest, (parsePattern c r.Rule tags).2 = none) :
    ((∃ e, MatchRules re (first :: rest) (some c) tags = some e ∧
          e.Code = ErrCode.ErrPermissionDeny) ↔
        ∃ r ∈ first :: rest, ruleMatches re c tags r) ∧
    ((¬ ∃ r ∈ first :: rest, ruleMatches re c tags r) →
        MatchRules re (first :: rest) (some c) tags = none) := by
  have hmr : MatchRules re (first :: rest) (some c) tags =
      patternBlackList re (first :: rest) tags c := by
    simp [MatchRules, hb]
  have hspec := patternBlackList_resolved re tags c (first :: rest) hres
  rw [hmr]
  constructor
  · constructor
    · rintro ⟨e, he, _⟩
      rcases hspec.2 with hnone | hdeny
      · rw [hnone] at he
        exact absurd he (by simp)
      · exact hspec.1.mp hdeny
    · intro hex
      exact ⟨_, hspec.1.mpr hex, rfl⟩
  · intro hno
    rcases hspec.2 with hnone | hdeny
    · exact hnone
    · exact absurd (hspec.1.mp hdeny) hno

/-- C3, at the blacklist `{BLACK, tag_region, "eu"}` and a consumer tagged `region = eu`. -/
theorem MatchRules_black_deny_iff_some_rule_matches_witness :
    (mkRule "BLACK" "tag_region" "eu").Rule.RuleType = "BLACK" ∧
    (∀ r ∈ [mkRule "BLACK" "tag_region" "eu"],
        (parsePattern ⟨[("AppId", "app1")]⟩ r.Rule [("region", "eu")]).2 = none) ∧
    (((∃ e, MatchRules literalMatchString [mkRule "BLACK" "tag_region" "eu"]
            (some ⟨[("AppId", "app1")]⟩) [("region", "eu")] = some e ∧
          e.Code = ErrCode.ErrPermissionDeny) ↔
        ∃ r ∈ [mkRule "BLACK" "tag_region" "eu"],
          ruleMatches literalMatchString ⟨[("AppId", "app1")]⟩ [("region", "eu")] r) ∧
     ((¬ ∃ r ∈ [mkRule "BLACK" "tag_region" "eu"],
          ruleMatches literalMatchString ⟨[("AppId", "app1")]⟩ [("region", "eu")] r) →
        MatchRules literalMatchString [mkRule "BLACK" "tag_region" "eu"]
          (some ⟨[("AppId", "app1")]⟩) [("region", "eu")] = none)) :=
  ⟨rfl, by decide,
    MatchRules_black_deny_iff_some_rule_matches literalMatchString
      (mkRule "BLACK" "tag_region" "eu") [] ⟨[("AppId", "app1")]⟩ [("region", "eu")] rfl
      (by decide)⟩

/-- A rule that resolves to the empty string can be erased from any place of a
whitelist without changing the outcome. -/
theorem patternWhiteList_erase_empty (re : Regexp) (c : MicroService) (tags : Tags)
    (rule : Rule) (hempty : parsePattern c rule.Rule tags = ("", none)) (post : List Rule) :
    ∀ pre : List Rule, patternWhiteList re (pre ++ rule :: post) tags c =
      patternWhiteList re (pre ++ post) tags c := by
  intro pre
  induction pre with
  | nil =>
    exact patternWhiteList_cons_skip re rule post tags c "" hempty (fun h => h.1 rfl)
  | cons r pre ih =>
    simp only [List.cons_append]
    rw [patternWhiteList, patternWhiteList.eq_def re (r :: (pre ++ post)), ih]

/-- A rule that resolves to the empty string can be erased from any place of a
blacklist without changing the outcome. -/
theorem patternBlackList_erase_empty (re : Regexp) (c : MicroService) (tags : Tags)
    (rule : Rule) (hempty : parsePattern c rule.Rule tags = ("", none)) (post : List Rule) :
    ∀ pre : List Rule, patternBlackList re (pre ++ rule :: post) tags c =
      patternBlackList re (pre ++ post) tags c := by
  intro pre
  induction pre with
  | nil =>
    exact patternBlackList_cons_skip re rule post tags c "" hempty (fun h => h.1 rfl)
  | cons r pre ih =>
    simp only [List.cons_append]
    rw [patternBlackList, patternBlackList.eq_def re (r :: (pre ++ post)), ih]

theorem sliceFrom_tag_prefix (key : String) : sliceFrom ("tag_" ++ key) 4 = key := by
  unfold sliceFrom
  apply String.ext
  simp [String.data_append]

theorem hasPrefix_tag_append (key : String) : HasPrefix ("tag_" ++ key) "tag_" = true := by
  unfold HasPrefix
  rw [List.isPrefixOf_iff_prefix, String.data_append]
  exact List.prefix_append _ _

/-- The attribute `"tag_" ++ key` resolves to the tag stored under `key`. -/
theorem parsePattern_tag (v : MicroService) (rule : ServiceRule) (tags : Tags) (key : String)
    (hattr : rule.Attribute = "tag_" ++ key) :
    parsePattern v rule tags = ((tags.lookup key).getD "", none) := by
  unfold parsePattern
  rw [hattr, hasPrefix_tag_append, sliceFrom_tag_prefix]
  rfl

/-- C5. A rule whose attribute resolves to the empty string never matches, whatever
its pattern and whatever the matcher answers on the empty string: it can be erased
from any position of a whitelist or of a blacklist without changing the outcome, a
whitelist made of it alone denies, a blacklist made of it alone allows, and a
blacklist rule on a tag the consumer does not have allows the consumer. -/
theorem empty_resolved_value_never_matches (re : Regexp) (c : MicroService) (tags : Tags)
    (rule : Rule) :
    (parsePattern c rule.Rule tags = ("", none) →
      ¬ ruleMatches re c tags rule ∧
      (∀ pre post : List Rule, patternWhiteList re (pre ++ rule :: post) tags c =
        patternWhiteList re (pre ++ post) tags c) ∧
      (∀ pre post : List Rule, patternBlackList re (pre ++ rule :: post) tags c =
        patternBlackList re (pre ++ post) tags c) ∧
      (rule.Rule.RuleType = "WHITE" →
        ∃ e, MatchRules re [rule] (some c) tags = some e ∧
          e.Code = ErrCode.ErrPermissionDeny) ∧
      (rule.Rule.RuleType = "BLACK" → MatchRules re [rule] (some c) tags = none)) ∧
    (∀ key : String, rule.Rule.RuleType = "BLACK" → rule.Rule.Attribute = "tag_" ++ key →
      tags.lookup key = none → MatchRules re [rule] (some c) tags = none) := by
  have main : parsePattern c rule.Rule tags = ("", none) →
      ¬ ruleMatches re c tags rule ∧
      (∀ pre post : List Rule, patternWhiteList re (pre ++ rule :: post) tags c =
        patternWhiteList re (pre ++ post) tags c) ∧
      (∀ pre post : List Rule, patternBlackList re (pre ++ rule :: post) tags c =
        patternBlackList re (pre ++ post) tags c) ∧
      (rule.Rule.RuleType = "WHITE" →
        ∃ e, MatchRules re [rule] (some c) tags = some e ∧
          e.Code = ErrCode.ErrPermissionDeny) ∧
      (rule.Rule.RuleType = "BLACK" → MatchRules re [rule] (some c) tags = none) := by
    intro hempty
    have hW := patternWhiteList_erase_empty re c tags rule hempty
    have hB := patternBlackList_erase_empty re c tags rule hempty
    refine ⟨?_, fun pre post => hW post pre, fun pre post => hB post pre, ?_, ?_⟩
    · intro hm
      exact ((ruleMatches_of_resolved re c tags rule "" hempty).mp hm).1 rfl
    · intro hw
      refine ⟨NewError .ErrPermissionDeny "not found in white list", ?_, rfl⟩
      have h1 : MatchRules re [rule] (some c) tags = patternWhiteList re [rule] tags c := by
        simp [MatchRules, hw]
      rw [h1]
      have h2 := hW [] []
      simp only [List.nil_append] at h2
      rw [h2, patternWhiteList]
    · intro hb
      have h1 : MatchRules re [rule] (some c) tags = patternBlackList re [rule] tags c := by
        simp [MatchRules, hb]
      rw [h1]
      have h2 := hB [] []
      simp only [List.nil_append] at h2
      rw [h2, patternBlackList]
  refine ⟨main, ?_⟩
  intro key hb hattr hlook
  have hempty : parsePattern c rule.Rule tags = ("", none) := by
    rw [parsePattern_tag c rule.Rule tags key hattr, hlook]
    rfl
  exact (main hempty).2.2.2.2 hb

/-- C5, at the blacklist rule `{BLACK, tag_region, ".*"}`, a consumer without the tag
`region` and a matcher that matches every input. -/
theorem empty_resolved_value_never_matches_witness :
    parsePattern ⟨[("AppId", "app1")]⟩ (mkRule "BLACK" "tag_region" ".*").Rule [] = ("", none) ∧
    (mkRule "BLACK" "tag_region" ".*").Rule.RuleType = "BLACK" ∧
    (mkRule "BLACK" "tag_region" ".*").Rule.Attribute = "tag_" ++ "region" ∧
    List.lookup "region" ([] : Tags) = none ∧
    matchEverything ".*" "" = .ok true ∧
    ¬ ruleMatches matchEverything ⟨[("AppId", "app1")]⟩ [] (mkRule "BLACK" "tag_region" ".*") ∧
    MatchRules matchEverything [mkRule "BLACK" "tag_region" ".*"]
      (some ⟨[("AppId", "app1")]⟩) [] = none :=
  ⟨by decide, rfl, by decide, rfl, rfl,
    ((empty_resolved_value_never_matches matchEverything ⟨[("AppId", "app1")]⟩ []
      (mkRule "BLACK" "tag_region" ".*")).1 (by decide)).1,
    (empty_resolved_value_never_matches matchEverything ⟨[("AppId", "app1")]⟩ []
      (mkRule "BLACK" "tag_region" ".*")).2 "region" rfl (by decide) rfl⟩

/-- In either loop, an unresolvable rule that no matching rule precedes ends the
evaluation with an `ErrInternal` error. -/
theorem patternLists_abort_at_unknown_attribute (re : Regexp) (c : MicroService) (tags : Tags)
    (bad : Rule) (post : List Rule) (x : String) (e : Error)
    (hbad : parsePattern c bad.Rule tags = (x, some e)) :
    ∀ pre : List Rule, (∀ r ∈ pre, ¬ ruleMatches re c tags r) →
      (∃ e1, patternWhiteList re (pre ++ bad :: post) tags c = some e1 ∧
        e1.Code = ErrCode.ErrInternal) ∧
      (∃ e2, patternBlackList re (pre ++ bad :: post) tags c = some e2 ∧
        e2.Code = ErrCode.ErrInternal) := by
  intro pre
  induction pre with
  | nil =>
    intro _
    have hcode := parsePattern_err_code c bad.Rule tags x e hbad
    exact ⟨⟨e, patternWhiteList_cons_err re bad post tags c x e hbad, hcode⟩,
      ⟨e, patternBlackList_cons_err re bad post tags c x e hbad, hcode⟩⟩
  | cons r pre ih =>
    intro hno
    have hrest := ih (fun r1 hr1 => hno r1 (List.mem_cons_of_mem _ hr1))
    have hr := hno r (List.mem_cons_self _ _)
    simp only [List.cons_append]
    cases hp : parsePattern c r.Rule tags with
    | mk value err =>
      cases err with
      | some e0 =>
        have hcode := parsePattern_err_code c r.Rule tags value e0 hp
        exact ⟨⟨e0, patternWhiteList_cons_err re r _ tags c value e0 hp, hcode⟩,
          ⟨e0, patternBlackList_cons_err re r _ tags c value e0 hp, hcode⟩⟩
      | none =>
        have hcond : ¬ (value ≠ "" ∧ re r.Rule.Pattern value = .ok true) :=
          fun h => hr ((ruleMatches_of_resolved re c tags r value hp).mpr h)
        rw [patternWhiteList_cons_skip re r _ tags c value hp hcond,
          patternBlackList_cons_skip re r _ tags c value hp hcond]
        exact hrest

/-- C6 (as the code behaves). If a rule list, WHITE or BLACK, contains a rule whose
attribute neither starts with the tag prefix nor names a field of the consumer
record, and no rule placed before it in the list matches, then `MatchRules` ends
with an error of code `ErrInternal`, whatever the rules after it are. -/
theorem MatchRules_unknown_attribute_aborts (re : Regexp) (pre : List Rule) (bad : Rule)
    (post : List Rule) (c : MicroService) (tags : Tags)
    (htag : HasPrefix bad.Rule.Attribute "tag_" = false)
    (hfield : FieldByName c bad.Rule.Attribute = none)
    (hno : ∀ r ∈ pre, ¬ ruleMatches re c tags r) :
    ∃ e, MatchRules re (pre ++ bad :: post) (some c) tags = some e ∧
      e.Code = ErrCode.ErrInternal := by
  have hbad : parsePattern c bad.Rule tags =
      ("", some (NewError .ErrInternal ("can not find field '" ++ bad.Rule.Attribute ++ "'"))) := by
    unfold parsePattern
    simp [htag, hfield]
  have hboth := patternLists_abort_at_unknown_attribute re c tags bad post _ _ hbad pre hno
  cases hl : pre ++ bad :: post with
  | nil => simp at hl
  | cons first rest =>
    rw [hl] at hboth
    by_cases hw : first.Rule.RuleType = "WHITE"
    · have : MatchRules re (first :: rest) (some c) tags =
          patternWhiteList re (first :: rest) tags c := by simp [MatchRules, hw]
      rw [this]
      exact hboth.1
    · have : MatchRules re (first :: rest) (some c) tags =
          patternBlackList re (first :: rest) tags c := by simp [MatchRules, hw]
      rw [this]
      exact hboth.2

/-- C6, at a whitelist whose second rule names the unknown field `NoSuchField` and
whose first rule does not match the consumer. -/
theorem MatchRules_unknown_attribute_aborts_witness :
    HasPrefix (mkRule "WHITE" "NoSuchField" "x").Rule.Attribute "tag_" = false ∧
    FieldByName ⟨[("AppId", "app2")]⟩ (mkRule "WHITE" "NoSuchField" "x").Rule.Attribute = none ∧
    (∃ e, MatchRules literalMatchString
        ([mkRule "WHITE" "AppId" "app1"] ++ mkRule "WHITE" "NoSuchField" "x" :: [])
        (some ⟨[("AppId", "app2")]⟩) [] = some e ∧ e.Code = ErrCode.ErrInternal) :=
  ⟨by decide, by decide,
    MatchRules_unknown_attribute_aborts literalMatchString [mkRule "WHITE" "AppId" "app1"]
      (mkRule "WHITE" "NoSuchField" "x") [] ⟨[("AppId", "app2")]⟩ [] (by decide) (by decide)
      (by
        intro r hr hm
        rw [List.mem_singleton] at hr
        subst hr
        obtain ⟨value, hv, _, hmatch⟩ := hm
        have hval : value = "app2" := by
          have h2 : parsePattern ⟨[("AppId", "app2")]⟩ (mkRule "WHITE" "AppId" "app1").Rule [] =
              ("app2", none) := by decide
          rw [h2] at hv
          exact (Prod.mk.inj hv).1.symm
        subst hval
        have hb := Except.ok.inj hmatch
        revert hb
        decide)⟩

/-- C6 fails as stated: a whitelist and a blacklist that both contain a rule on the
unknown field `NoSuchField`, placed after a rule that matches the consumer; the
whitelist allows and the blacklist denies with `ErrPermissionDeny`. -/
theorem MatchRules_unknown_attribute_not_reached :
    (∃ r ∈ [mkRule "WHITE" "AppId" "app1", mkRule "WHITE" "NoSuchField" "x"],
      HasPrefix r.Rule.Attribute "tag_" = false ∧
      FieldByName ⟨[("AppId", "app1")]⟩ r.Rule.Attribute = none) ∧
    MatchRules literalMatchString
      [mkRule "WHITE" "AppId" "app1", mkRule "WHITE" "NoSuchField" "x"]
      (some ⟨[("AppId", "app1")]⟩) [] = none ∧
    MatchRules literalMatchString
      [mkRule "BLACK" "AppId" "app1", mkRule "BLACK" "NoSuchField" "x"]
      (some ⟨[("AppId", "app1")]⟩) [] =
        some (NewError .ErrPermissionDeny "found in black list") := by
  refine ⟨⟨mkRule "WHITE" "NoSuchField" "x", by simp, by decide, by decide⟩, by decide, by decide⟩

/-- C7. For a rule whose attribute starts with `"tag_"`, `parsePattern` returns, with
no error, the consumer's tag stored under the attribute name without its first four
characters, and the empty string when that tag is absent; the result is the same
for every consumer record, so the record's fields are not consulted. -/
theorem parsePattern_tag_attribute (rule : ServiceRule) (tags : Tags)
    (hpre : HasPrefix rule.Attribute "tag_" = true) :
    ∃ key : String, rule.Attribute = "tag_" ++ key ∧
      key.data = rule.Attribute.data.drop 4 ∧
      (∀ v : MicroService, parsePattern v rule tags = ((tags.lookup key).getD "", none)) ∧
      (tags.lookup key = none → ∀ v : MicroService, parsePattern v rule tags = ("", none)) := by
  have hp : "tag_".data <+: rule.Attribute.data := by
    unfold HasPrefix at hpre
    exact List.isPrefixOf_iff_prefix.mp hpre
  obtain ⟨t, ht⟩ := hp
  have hattr : rule.Attribute = "tag_" ++ String.mk t := by
    apply String.ext
    rw [String.data_append, ← ht]
  refine ⟨String.mk t, hattr, ?_, fun v => parsePattern_tag v rule tags _ hattr, ?_⟩
  · rw [← ht]
    rfl
  · intro hnone v
    rw [parsePattern_tag v rule tags _ hattr, hnone]
    rfl

/-- C7, at the attribute `tag_region` with the tags `region = eu`. -/
theorem parsePattern_tag_attribute_witness :
    HasPrefix (mkRule "BLACK" "tag_region" "eu").Rule.Attribute "tag_" = true ∧
    ∃ key : String, (mkRule "BLACK" "tag_region" "eu").Rule.Attribute = "tag_" ++ key ∧
      key.data = (mkRule "BLACK" "tag_region" "eu").Rule.Attribute.data.drop 4 ∧
      (∀ v : MicroService, parsePattern v (mkRule "BLACK" "tag_region" "eu").Rule
          [("region", "eu")] = ((List.lookup key [("region", "eu")]).getD "", none)) ∧
      (List.lookup key [("region", "eu")] = none →
        ∀ v : MicroService, parsePattern v (mkRule "BLACK" "tag_region" "eu").Rule
          [("region", "eu")] = ("", none)) :=
  ⟨by decide, parsePattern_tag_attribute (mkRule "BLACK" "tag_region" "eu").Rule
    [("region", "eu")] (by decide)⟩

/-! ## Properties of `Filter` and `FilterAll` -/

/-- C4. With no rules every consumer is allowed: `MatchRules` on an empty rule list
returns no error for every non-nil consumer and every tag map, and `FilterAll` on
an empty rule list returns the whole input list as allow, an empty deny list and no
error. -/
theorem no_rules_always_allow {Ctx : Type} (b : Backend Ctx) (ctx : Ctx) (re : Regexp)
    (c : MicroService) (tags : Tags) (consumerIDs : List String) :
    MatchRules re [] (some c) tags = none ∧
    FilterAll b ctx consumerIDs [] = (consumerIDs, [], none) := by
  constructor
  · rfl
  · simp [FilterAll]

/-- C8. Once `Filter` has found the consumer and read its tags for a non-empty rule
list, it maps the result of `MatchRules`: `ErrPermissionDeny` becomes `(false, nil)`,
any other error `e` becomes `(false, e)`, and no error becomes `(true, nil)`. -/
theorem Filter_maps_MatchRules_result {Ctx : Type} (b : Backend Ctx) (ctx : Ctx)
    (rules : List Rule) (consumerID : String) (consumer : Service) (err0 : Option GoError)
    (tags : Tags)
    (hsvc : GetServiceByID b ctx consumerID = (some consumer, err0))
    (hrules : rules ≠ [])
    (htags : b.GetTags ctx (b.ParseDomainProject ctx) (b.ParseProject ctx) consumerID =
      (tags, none)) :
    (∀ e, MatchRules b.re rules consumer.Service tags = some e →
      e.Code = ErrCode.ErrPermissionDeny → Filter b ctx rules consumerID = (false, none)) ∧
    (∀ e, MatchRules b.re rules consumer.Service tags = some e →
      e.Code ≠ ErrCode.ErrPermissionDeny →
      Filter b ctx rules consumerID = (false, some (GoError.discovery e))) ∧
    (MatchRules b.re rules consumer.Service tags = none →
      Filter b ctx rules consumerID = (true, none)) := by
  have hlen : ¬ rules.length = 0 := fun h => hrules (List.length_eq_zero.mp h)
  refine ⟨?_, ?_, ?_⟩
  · intro e he hcode
    simp [Filter, hsvc, hlen, htags, he, hcode]
  · intro e he hcode
    simp [Filter, hsvc, hlen, htags, he, hcode]
  · intro he
    simp [Filter, hsvc, hlen, htags, he]

/-- C8, at the demo store, the whitelist `{WHITE, AppId, "app1"}` and the consumer `c2`. -/
theorem Filter_maps_MatchRules_result_witness :
    GetServiceByID demoBackend () "c2" =
      (some { Domain := "default", Project := "default", Tags := [],
              Service := some ⟨[("ServiceId", "c2"), ("AppId", "app2")]⟩ }, none) ∧
    [mkRule "WHITE" "AppId" "app1"] ≠ [] ∧
    MatchRules demoBackend.re [mkRule "WHITE" "AppId" "app1"]
      (some ⟨[("ServiceId", "c2"), ("AppId", "app2")]⟩) [] =
        some (NewError .ErrPermissionDeny "not found in white list") ∧
    Filter demoBackend () [mkRule "WHITE" "AppId" "app1"] "c2" = (false, none) :=
  ⟨by decide, by decide, by decide,
    (Filter_maps_MatchRules_result demoBackend () [mkRule "WHITE" "AppId" "app1"] "c2"
      { Domain := "default", Project := "default", Tags := [],
        Service := some ⟨[("ServiceId", "c2"), ("AppId", "app2")]⟩ } none []
      (by decide) (by decide) rfl).1
      (NewError .ErrPermissionDeny "not found in white list") (by decide) rfl⟩

theorem take_succ_set_self {α : Type} (x : α) :
    ∀ (l : List α) (n : Nat), n < l.length → (l.set n x).take (n + 1) = l.take n ++ [x] := by
  intro l
  induction l with
  | nil => intro n h; simp at h
  | cons a l ih =>
    intro n h
    cases n with
    | zero => simp
    | succ n =>
      simp only [List.length_cons, Nat.add_lt_add_iff_right] at h
      simp [ih n h]

theorem take_set_of_index_ge {α : Type} (x : α) :
    ∀ (l : List α) (n m : Nat), m ≤ n → (l.set n x).take m = l.take m := by
  intro l
  induction l with
  | nil => intro n m _; simp
  | cons a l ih =>
    intro n m h
    cases n with
    | zero =>
      have : m = 0 := by omega
      subst this
      simp
    | succ n =>
      cases m with
      | zero => simp
      | succ m => simp [ih n m (by omega)]

theorem drop_set_self {α : Type} (x : α) :
    ∀ (l : List α) (n : Nat), n < l.length → (l.set n x).drop n = x :: l.drop (n + 1) := by
  intro l
  induction l with
  | nil => intro n h; simp at h
  | cons a l ih =>
    intro n h
    cases n with
    | zero => simp
    | succ n =>
      simp only [List.length_cons, Nat.add_lt_add_iff_right] at h
      simp [ih n h]

/-- The loop of `FilterAll` when no `Filter` call fails: it ends normally, every
write stays inside the gap between the two indices, the allowed ids are appended
after the front part in input order, and the denied ids are pushed before the back
part, so in reverse input order. -/
theorem filterAllLoop_ok {Ctx : Type} (b : Backend Ctx) (ctx : Ctx) (rules : List Rule) :
    ∀ (rest : List String) (st : FilterAllState),
      (∀ id ∈ rest, (Filter b ctx rules id).2 = none) →
      st.allowIdx + rest.length ≤ st.denyIdx →
      st.denyIdx ≤ st.consumers.length →
      ∃ st1, filterAllLoop b ctx rules rest st = .ok st1 ∧
        st1.consumers.take st1.allowIdx =
          st.consumers.take st.allowIdx ++ rest.filter (fun id => (Filter b ctx rules id).1) ∧
        st1.consumers.drop st1.denyIdx =
          (rest.filter (fun id => !(Filter b ctx rules id).1)).reverse ++
            st.consumers.drop st.denyIdx := by
  intro rest
  induction rest with
  | nil =>
    intro st _ _ _
    exact ⟨st, rfl, by simp, by simp⟩
  | cons id rest ih =>
    intro st hok hgap hlen
    have herr := hok id (List.mem_cons_self _ _)
    have hrest : ∀ id1 ∈ rest, (Filter b ctx rules id1).2 = none :=
      fun id1 h1 => hok id1 (List.mem_cons_of_mem _ h1)
    simp only [List.length_cons] at hgap
    cases hF : Filter b ctx rules id with
    | mk ok err =>
      rw [hF] at herr
      simp only at herr
      subst herr
      cases ok with
      | true =>
        obtain ⟨st1, hrun, htake, hdrop⟩ := ih
          { st with consumers := st.consumers.set st.allowIdx id, allowIdx := st.allowIdx + 1 }
          hrest (by simp only; omega) (by simp only [List.length_set]; exact hlen)
        refine ⟨st1, ?_, ?_, ?_⟩
        · rw [filterAllLoop, hF]
          simpa using hrun
        · rw [htake]
          simp only
          rw [take_succ_set_self id st.consumers st.allowIdx (by omega)]
          simp [List.filter_cons, hF]
        · rw [hdrop]
          simp only
          rw [List.drop_set_of_lt id st.consumers (by omega)]
          simp [List.filter_cons, hF]
      | false =>
        obtain ⟨st1, hrun, htake, hdrop⟩ := ih
          { st with denyIdx := st.denyIdx - 1,
                    consumers := st.consumers.set (st.denyIdx - 1) id }
          hrest (by simp only; omega) (by simp only [List.length_set]; omega)
        refine ⟨st1, ?_, ?_, ?_⟩
        · rw [filterAllLoop, hF]
          simpa using hrun
        · rw [htake]
          simp only
          rw [take_set_of_index_ge id st.consumers (st.denyIdx - 1) st.allowIdx (by omega)]
          simp [List.filter_cons, hF]
        · rw [hdrop]
          simp only
          rw [drop_set_self id st.consumers (st.denyIdx - 1) (by omega)]
          have hd : st.denyIdx - 1 + 1 = st.denyIdx := by omega
          simp [List.filter_cons, hF, hd]

/-- The result of `FilterAll` for non-empty inputs on which no `Filter` call fails:
the allowed ids in input order, the denied ids in reverse input order, no error. -/
theorem FilterAll_ok {Ctx : Type} (b : Backend Ctx) (ctx : Ctx) (consumerIDs : List String)
    (rules : List Rule) (hids : consumerIDs ≠ []) (hrules : rules ≠ [])
    (hok : ∀ id ∈ consumerIDs, (Filter b ctx rules id).2 = none) :
    FilterAll b ctx consumerIDs rules =
      (consumerIDs.filter (fun id => (Filter b ctx rules id).1),
       (consumerIDs.filter (fun id => !(Filter b ctx rules id).1)).reverse, none) := by
  have h1 : ¬ consumerIDs.length = 0 := fun h => hids (List.length_eq_zero.mp h)
  have h2 : ¬ rules.length = 0 := fun h => hrules (List.length_eq_zero.mp h)
  obtain ⟨st1, hrun, htake, hdrop⟩ := filterAllLoop_ok b ctx rules consumerIDs
    { allowIdx := 0, denyIdx := consumerIDs.length,
      consumers := List.replicate consumerIDs.length "" }
    hok (by simp) (by simp)
  simp only [FilterAll, h1, h2, or_self, if_false, hrun]
  rw [htake, hdrop]
  simp

/-- C1. When no per-consumer `Filter` call fails, `FilterAll` returns no error and
the concatenation of its allow and deny lists is a permutation of the input list:
no id is dropped and none is duplicated. -/
theorem FilterAll_allow_deny_perm {Ctx : Type} (b : Backend Ctx) (ctx : Ctx)
    (consumerIDs : List String) (rules : List Rule)
    (hok : ∀ id ∈ consumerIDs, (Filter b ctx rules id).2 = none) :
    (FilterAll b ctx consumerIDs rules).2.2 = none ∧
    ((FilterAll b ctx consumerIDs rules).1 ++ (FilterAll b ctx consumerIDs rules).2.1).Perm
      consumerIDs := by
  by_cases hids : consumerIDs = []
  · subst hids
    simp [FilterAll]
  · by_cases hrules : rules = []
    · subst hrules
      simp [FilterAll]
    · rw [FilterAll_ok b ctx consumerIDs rules hids hrules hok]
      refine ⟨rfl, ?_⟩
      simp only
      have hfl := List.filter_append_perm (fun id => (Filter b ctx rules id).1) consumerIDs
      refine List.Perm.trans (List.Perm.append_left _ (List.reverse_perm _)) ?_
      simpa using hfl

/-- C1, at the demo store, the whitelist `{WHITE, AppId, "app1"}` and the ids
`c1, c2, c1, c2`: allow is `c1, c1` and deny is `c2, c2`. -/
theorem FilterAll_allow_deny_perm_witness :
    (∀ id ∈ ["c1", "c2", "c1", "c2"],
      (Filter demoBackend () [mkRule "WHITE" "AppId" "app1"] id).2 = none) ∧
    FilterAll demoBackend () ["c1", "c2", "c1", "c2"] [mkRule "WHITE" "AppId" "app1"] =
      (["c1", "c1"], ["c2", "c2"], none) ∧
    (FilterAll demoBackend () ["c1", "c2", "c1", "c2"] [mkRule "WHITE" "AppId" "app1"]).2.2 =
      none ∧
    ((FilterAll demoBackend () ["c1", "c2", "c1", "c2"] [mkRule "WHITE" "AppId" "app1"]).1 ++
      (FilterAll demoBackend () ["c1", "c2", "c1", "c2"]
        [mkRule "WHITE" "AppId" "app1"]).2.1).Perm ["c1", "c2", "c1", "c2"] :=
  ⟨by decide, by decide,
    FilterAll_allow_deny_perm demoBackend () ["c1", "c2", "c1", "c2"]
      [mkRule "WHITE" "AppId" "app1"] (by decide)⟩

/-! ## Properties of the heartbeat cache -/

theorem wrap32_isInt32 (x : Int) : isInt32 (wrap32 x) := by
  unfold isInt32 wrap32
  omega

theorem wrap32_of_isInt32 (x : Int) (h : isInt32 x) : wrap32 x = x := by
  unfold isInt32 at h
  unfold wrap32
  omega

/-- Wrapping the second factor first does not change the wrapped product. -/
theorem mulInt32_addInt32 (a b c : Int) : mulInt32 a (addInt32 b c) = wrap32 (a * (b + c)) := by
  unfold mulInt32 addInt32
  have hq : wrap32 (b + c) = (b + c) - 4294967296 * ((b + c + 2147483648) / 4294967296) := by
    unfold wrap32
    omega
  rw [hq]
  have hr : a * ((b + c) - 4294967296 * ((b + c + 2147483648) / 4294967296)) =
      a * (b + c) - 4294967296 * (a * ((b + c + 2147483648) / 4294967296)) := by ring
  rw [hr]
  generalize a * (b + c) = x
  generalize a * ((b + c + 2147483648) / 4294967296) = m
  unfold wrap32
  omega

/-- C9. For every ttl given to `addHeartbeatTask` (so for every `int32`), the record
it enqueues stores 30 when the given ttl is at most 0 and the given ttl unchanged
otherwise, and the stored ttl is strictly positive. -/
theorem addHeartbeatTask_stores_positive_ttl (cacheChan : List instanceHeartbeatInfo)
    (now : Int) (serviceID instanceID : String) (ttl : Int) :
    ∃ newInstance : instanceHeartbeatInfo,
      addHeartbeatTask .send cacheChan now serviceID instanceID ttl =
        (cacheChan ++ [newInstance], none) ∧
      newInstance.ttl = (if ttl ≤ 0 then 30 else ttl) ∧
      0 < newInstance.ttl := by
  refine ⟨{ serviceID := serviceID, instanceID := instanceID,
            ttl := if ttl ≤ 0 then 30 else ttl, lastRefresh := now }, rfl, rfl, ?_⟩
  simp only
  split <;> omega

/-- C10 (as the code behaves). For every Interval and Times, so for all `int32`
values, the effective ttl of `cleanInstance` is the product Interval × (Times + 1)
reduced to 32 bits when that reduced value is positive and 30 otherwise.  It equals
the true product when the true product lies in `1 .. 2^31 - 1`, it is 30 when the
true product lies in `-2^31 .. 0`, and it is always a strictly positive `int32`. -/
theorem cleanInstanceTTL_wrapped_product (healthCheck : HealthCheck) :
    cleanInstanceTTL healthCheck =
      (if 0 < wrap32 (healthCheck.Interval * (healthCheck.Times + 1)) then
        wrap32 (healthCheck.Interval * (healthCheck.Times + 1)) else 30) ∧
    (0 < healthCheck.Interval * (healthCheck.Times + 1) →
      healthCheck.Interval * (healthCheck.Times + 1) ≤ 2147483647 →
      cleanInstanceTTL healthCheck = healthCheck.Interval * (healthCheck.Times + 1)) ∧
    (-2147483648 ≤ healthCheck.Interval * (healthCheck.Times + 1) →
      healthCheck.Interval * (healthCheck.Times + 1) ≤ 0 →
      cleanInstanceTTL healthCheck = 30) ∧
    0 < cleanInstanceTTL healthCheck ∧
    isInt32 (cleanInstanceTTL healthCheck) := by
  have hdef : cleanInstanceTTL healthCheck =
      (if 0 < wrap32 (healthCheck.Interval * (healthCheck.Times + 1)) then
        wrap32 (healthCheck.Interval * (healthCheck.Times + 1)) else 30) := by
    unfold cleanInstanceTTL
    simp only [mulInt32_addInt32, defaultTTL]
    split <;> split <;> first | rfl | omega
  have hrange := wrap32_isInt32 (healthCheck.Interval * (healthCheck.Times + 1))
  refine ⟨hdef, ?_, ?_, ?_, ?_⟩
  · intro hpos hle
    rw [hdef, wrap32_of_isInt32 _ ⟨by omega, hle⟩, if_pos hpos]
  · intro hge hle
    rw [hdef, wrap32_of_isInt32 _ ⟨hge, by omega⟩, if_neg (by omega)]
  · rw [hdef]
    split <;> omega
  · rw [hdef]
    unfold isInt32 at hrange ⊢
    split <;> omega

/-- C10, at Interval = 30 and Times = 3: the effective ttl is 120. -/
theorem cleanInstanceTTL_wrapped_product_witness :
    isInt32 30 ∧ isInt32 3 ∧
    cleanInstanceTTL { Mode := "push", Port := 0, Interval := 30, Times := 3, Url := "" } = 120 ∧
    0 < cleanInstanceTTL { Mode := "push", Port := 0, Interval := 30, Times := 3, Url := "" } :=
  ⟨by decide, by decide,
    (cleanInstanceTTL_wrapped_product
      { Mode := "push", Port := 0, Interval := 30, Times := 3, Url := "" }).2.1
      (by decide) (by decide),
    (cleanInstanceTTL_wrapped_product
      { Mode := "push", Port := 0, Interval := 30, Times := 3, Url := "" }).2.2.2.1⟩

/-- C10 fails as stated, at two pairs of `int32` values.  For Interval = 65536 and
Times = 65535 the product `2^32` is positive but the code yields 30; for
Interval = -3 and Times = 1073741823 the product is negative but the code yields
`2^30` and not 30. -/
theorem cleanInstanceTTL_not_true_product :
    (isInt32 65536 ∧ isInt32 65535 ∧ (0 : Int) < 65536 * (65535 + 1) ∧
      cleanInstanceTTL { Mode := "push", Port := 0, Interval := 65536, Times := 65535,
                         Url := "" } = 30 ∧
      (30 : Int) ≠ 65536 * (65535 + 1)) ∧
    (isInt32 (-3) ∧ isInt32 1073741823 ∧ ¬ ((0 : Int) < -3 * (1073741823 + 1)) ∧
      cleanInstanceTTL { Mode := "push", Port := 0, Interval := -3, Times := 1073741823,
                         Url := "" } = 1073741824 ∧
      (1073741824 : Int) ≠ 30) := by
  decide

/-! ## Properties of the eviction reconciler and of the cache initialisation -/

/-- The effective ttl of `cleanInstance` is a positive `int32`. -/
theorem cleanInstanceTTL_pos_isInt32 (healthCheck : HealthCheck) :
    0 < cleanInstanceTTL healthCheck ∧ isInt32 (cleanInstanceTTL healthCheck) := by
  have hrange := wrap32_isInt32 (healthCheck.Interval * (healthCheck.Times + 1))
  unfold cleanInstanceTTL
  simp only [mulInt32_addInt32, defaultTTL]
  unfold isInt32 at hrange ⊢
  split <;> constructor <;> omega

/-- For a positive `int32` ttl, `isOutDate` compares the true elapsed time with the
ttl in nanoseconds: neither the saturation of `time.Since` nor the 64-bit product
changes the comparison. -/
theorem isOutDate_iff (now refreshTime ttl : Int) (hpos : 0 < ttl) (h32 : isInt32 ttl) :
    isOutDate now refreshTime ttl = true ↔ now - refreshTime ≤ ttl * Second := by
  unfold isInt32 at h32
  unfold isOutDate timeSub wrap64 minDuration maxDuration Second
  rw [decide_eq_true_iff]
  split
  · omega
  · split <;> omega

/-- C11. Eviction race guard.  When `cleanInstance` has read and decoded the persisted
record and `now - refreshTime` is at most the effective ttl (boundary included), it
issues no delete and returns no error; and whenever `cleanInstance` issues a delete,
`now - refreshTime` is strictly greater than the effective ttl of the record read. -/
theorem cleanInstance_race_guard (o : StoreAnswers) (serviceID instanceID : String) :
    (∀ ins : Instance, o.StartSession = none → o.StartTransaction = none →
      o.FindOne = none → o.Decode = .ok ins →
      o.now - ins.RefreshTime ≤ cleanInstanceTTL ins.Instance.HealthCheck * Second →
      (∀ s i, StoreOp.DeleteOne s i ∉ (cleanInstance o serviceID instanceID).1) ∧
      (cleanInstance o serviceID instanceID).2 = none) ∧
    (∀ s i, StoreOp.DeleteOne s i ∈ (cleanInstance o serviceID instanceID).1 →
      ∃ ins : Instance, o.Decode = .ok ins ∧
        cleanInstanceTTL ins.Instance.HealthCheck * Second < o.now - ins.RefreshTime) := by
  constructor
  · intro ins h1 h2 h3 h4 hle
    have httl := cleanInstanceTTL_pos_isInt32 ins.Instance.HealthCheck
    have hout : isOutDate o.now ins.RefreshTime (cleanInstanceTTL ins.Instance.HealthCheck) =
        true := (isOutDate_iff _ _ _ httl.1 httl.2).mpr hle
    simp [cleanInstance, h1, h2, h3, h4, hout]
  · intro s i hmem
    unfold cleanInstance at hmem
    split at hmem
    · simp at hmem
    · split at hmem
      · simp at hmem
      · split at hmem
        · simp at hmem
        · split at hmem
          · simp at hmem
          · rename_i ins hdec
            have httl := cleanInstanceTTL_pos_isInt32 ins.Instance.HealthCheck
            by_cases hout : isOutDate o.now ins.RefreshTime
                (cleanInstanceTTL ins.Instance.HealthCheck) = true
            · simp [hout] at hmem
            · refine ⟨ins, hdec, ?_⟩
              have := (isOutDate_iff _ _ _ httl.1 httl.2).not.mp hout
              omega

/-- C11, at the record `s1/i1` (effective ttl 120 s) refreshed exactly 120 s before
the check: no delete is issued and no error is returned. -/
theorem cleanInstance_race_guard_witness :
    (healthyStore (.ok (demoInstance 0)) 120000000000).now - (demoInstance 0).RefreshTime ≤
      cleanInstanceTTL (demoInstance 0).Instance.HealthCheck * Second ∧
    (∀ s i, StoreOp.DeleteOne s i ∉
      (cleanInstance (healthyStore (.ok (demoInstance 0)) 120000000000) "s1" "i1").1) ∧
    (cleanInstance (healthyStore (.ok (demoInstance 0)) 120000000000) "s1" "i1").2 = none :=
  ⟨by decide,
    (cleanInstance_race_guard (healthyStore (.ok (demoInstance 0)) 120000000000) "s1" "i1").1
      (demoInstance 0) rfl rfl rfl rfl (by decide)⟩

/-- The calls of `cleanInstance` at a failing step, with the session and the
transaction started: a failure of `FindOne`, of `Decode` or of `CommitTransaction`
is returned with the deferred `EndSession` as the only call that follows, whereas a
failure of the delete is followed by `AbortTransaction`. -/
theorem cleanInstance_calls_at_failures :
    cleanInstance { healthyStore (.ok (demoInstance 0)) 121000000000 with
                    FindOne := some (GoError.other "server selection timeout") } "s1" "i1" =
      ([.StartSession, .StartTransaction, .FindOne "s1" "i1", .EndSession],
        some (GoError.other "server selection timeout")) ∧
    cleanInstance (healthyStore (.error (GoError.other "no documents in result"))
        121000000000) "s1" "i1" =
      ([.StartSession, .StartTransaction, .FindOne "s1" "i1", .EndSession],
        some (GoError.other "no documents in result")) ∧
    cleanInstance { healthyStore (.ok (demoInstance 0)) 121000000000 with
                    CommitTransaction := some (GoError.other "commit failed") } "s1" "i1" =
      ([.StartSession, .StartTransaction, .FindOne "s1" "i1", .DeleteOne "s1" "i1",
        .CommitTransaction, .EndSession], some (GoError.other "commit failed")) ∧
    cleanInstance { healthyStore (.ok (demoInstance 0)) 121000000000 with
                    DeleteOne := some (GoError.other "delete failed") } "s1" "i1" =
      ([.StartSession, .StartTransaction, .FindOne "s1" "i1", .DeleteOne "s1" "i1",
        .AbortTransaction, .EndSession], some (GoError.other "delete failed")) := by
  decide

/-- C12. In `cleanInstance`, once the session and the transaction have been started, a
failure of a later step makes the run return an error and end with the transaction
aborted: a failure of `FindOne`, a failure of `Decode`, a failure of the delete that
the run issues (the error returned is that of the delete, or that of
`AbortTransaction` when the explicit abort fails too) and a failure of the
`CommitTransaction` that the run issues.  On the paths that return without a call of
`AbortTransaction`, and when that call fails, it is the deferred `EndSession` that
aborts the transaction.  No run leaves the transaction open: it ends committed or
aborted, and committed only when no error is returned. -/
theorem cleanInstance_step_failure_aborts (o : StoreAnswers) (serviceID instanceID : String)
    (hsession : o.StartSession = none) (htransaction : o.StartTransaction = none) :
    (∀ err, o.FindOne = some err →
      (cleanInstance o serviceID instanceID).2 = some err ∧
      transactionAfter o (cleanInstance o serviceID instanceID).1 = .Aborted) ∧
    (∀ err, o.FindOne = none → o.Decode = .error err →
      (cleanInstance o serviceID instanceID).2 = some err ∧
      transactionAfter o (cleanInstance o serviceID instanceID).1 = .Aborted) ∧
    (∀ s i err, StoreOp.DeleteOne s i ∈ (cleanInstance o serviceID instanceID).1 →
      o.DeleteOne = some err →
      ((cleanInstance o serviceID instanceID).2 = some err ∨
        ∃ errAbort, o.AbortTransaction = some errAbort ∧
          (cleanInstance o serviceID instanceID).2 = some errAbort) ∧
      StoreOp.AbortTransaction ∈ (cleanInstance o serviceID instanceID).1 ∧
      transactionAfter o (cleanInstance o serviceID instanceID).1 = .Aborted) ∧
    (∀ err, StoreOp.CommitTransaction ∈ (cleanInstance o serviceID instanceID).1 →
      o.CommitTransaction = some err →
      (cleanInstance o serviceID instanceID).2 = some err ∧
      transactionAfter o (cleanInstance o serviceID instanceID).1 = .Aborted) ∧
    (transactionAfter o (cleanInstance o serviceID instanceID).1 = .Committed ∨
      transactionAfter o (cleanInstance o serviceID instanceID).1 = .Aborted) ∧
    (transactionAfter o (cleanInstance o serviceID instanceID).1 = .Committed →
      (cleanInstance o serviceID instanceID).2 = none) := by
  cases hF : o.FindOne with
  | some errF =>
    simp [cleanInstance, removeDBInstance, transactionAfter, sessionStep, hsession,
      htransaction, hF]
  | none =>
    cases hD : o.Decode with
    | error errD =>
      simp [cleanInstance, removeDBInstance, transactionAfter, sessionStep, hsession,
        htransaction, hF, hD]
    | ok ins =>
      cases hout : isOutDate o.now ins.RefreshTime (cleanInstanceTTL ins.Instance.HealthCheck)
        with
      | true =>
        simp [cleanInstance, removeDBInstance, transactionAfter, sessionStep, hsession,
          htransaction, hF, hD, hout]
      | false =>
        cases hDel : o.DeleteOne with
        | some errDel =>
          cases hA : o.AbortTransaction with
          | some errA =>
            simp [cleanInstance, removeDBInstance, transactionAfter, sessionStep, hsession,
              htransaction, hF, hD, hout, hDel, hA]
          | none =>
            simp [cleanInstance, removeDBInstance, transactionAfter, sessionStep, hsession,
              htransaction, hF, hD, hout, hDel, hA]
        | none =>
          cases hC : o.CommitTransaction with
          | some errC =>
            simp [cleanInstance, removeDBInstance, transactionAfter, sessionStep, hsession,
              htransaction, hF, hD, hout, hDel, hC]
          | none =>
            simp [cleanInstance, removeDBInstance, transactionAfter, sessionStep, hsession,
              htransaction, hF, hD, hout, hDel, hC]

/-- C12, at the record `s1/i1` on a store whose `FindOne` fails after the session and
the transaction have been started: the error is returned and the deferred
`EndSession` leaves the transaction aborted. -/
theorem cleanInstance_step_failure_aborts_witness :
    ({ healthyStore (.ok (demoInstance 0)) 121000000000 with
       FindOne := some (GoError.other "server selection timeout") } : StoreAnswers).StartSession =
      none ∧
    ({ healthyStore (.ok (demoInstance 0)) 121000000000 with
       FindOne := some (GoError.other "server selection timeout") } :
       StoreAnswers).StartTransaction = none ∧
    (cleanInstance { healthyStore (.ok (demoInstance 0)) 121000000000 with
                     FindOne := some (GoError.other "server selection timeout") }
        "s1" "i1").2 = some (GoError.other "server selection timeout") ∧
    transactionAfter { healthyStore (.ok (demoInstance 0)) 121000000000 with
                       FindOne := some (GoError.other "server selection timeout") }
      (cleanInstance { healthyStore (.ok (demoInstance 0)) 121000000000 with
                       FindOne := some (GoError.other "server selection timeout") }
        "s1" "i1").1 = .Aborted :=
  ⟨rfl, rfl,
    (cleanInstance_step_failure_aborts
      { healthyStore (.ok (demoInstance 0)) 121000000000 with
        FindOne := some (GoError.other "server selection timeout") } "s1" "i1" rfl rfl).1
      (GoError.other "server selection timeout") rfl⟩

/-- Removing an entry that is present runs `cleanInstance` for it. -/
theorem RemoveCacheInstance_runs_cleanInstance (o : StoreAnswers) (items : HeartbeatStore)
    (instanceID : String) (info : instanceHeartbeatInfo)
    (hpresent : items.lookup instanceID = some (some info)) :
    (RemoveCacheInstance o items instanceID).2 =
      (cleanInstance o info.serviceID info.instanceID).1 := by
  simp [RemoveCacheInstance, cacheDelete, hpresent, onEvicted]

/-- C13, evaluated on the code.  `RemoveCacheInstance` on an entry that is present
removes it and runs the eviction function: when the caller has already deleted the
record the store is read inside a transaction, and when the persisted record is
still there with a refresh time older than its ttl the record is deleted. -/
theorem RemoveCacheInstance_touches_store :
    RemoveCacheInstance (healthyStore (.error (GoError.other "no documents in result")) 5000000000)
        [("i1", some demoHeartbeatInfo)] "i1" =
      ([], [.StartSession, .StartTransaction, .FindOne "s1" "i1", .EndSession]) ∧
    RemoveCacheInstance (healthyStore (.ok (demoInstance 0)) 121000000000)
        [("i1", some demoHeartbeatInfo)] "i1" =
      ([], [.StartSession, .StartTransaction, .FindOne "s1" "i1", .DeleteOne "s1" "i1",
            .CommitTransaction, .EndSession]) := by
  decide

/-- C14 (as the code behaves). When the key `registry.mongo.heartbeat.workerNum` is
absent, `init` starts 10 workers (`defaultWorkNum`), whatever `runtime.NumCPU` is;
when the key is set to a positive `n`, it starts exactly `n` workers; the available
parallelism is the number of workers only when the key is set to 0. -/
theorem initWorkers_count (GetInt : ConfigGetInt) (NumCPU : Int) :
    ((∀ dflt, GetInt "registry.mongo.heartbeat.workerNum" dflt = dflt) →
      (initWorkers GetInt NumCPU).length = 10) ∧
    (∀ n : Int, 0 < n → (∀ dflt, GetInt "registry.mongo.heartbeat.workerNum" dflt = n) →
      ((initWorkers GetInt NumCPU).length : Int) = n) ∧
    (0 ≤ NumCPU → (∀ dflt, GetInt "registry.mongo.heartbeat.workerNum" dflt = 0) →
      ((initWorkers GetInt NumCPU).length : Int) = NumCPU) := by
  have hlen : (initWorkers GetInt NumCPU).length = (initWorkerNum GetInt NumCPU).toNat := by
    unfold initWorkers
    rw [List.length_map, List.length_range]
  rw [hlen]
  refine ⟨?_, ?_, ?_⟩
  · intro habsent
    simp [initWorkerNum, habsent, defaultWorkNum]
  · intro n hn hset
    have hne : n ≠ 0 := by omega
    simp only [initWorkerNum, hset, hne, ne_eq, not_false_eq_true, if_true]
    omega
  · intro hcpu hzero
    simp only [initWorkerNum, hzero, ne_eq, not_true_eq_false, if_false]
    omega

/-- C14, at a configuration with no key set and 4 processors, and at one that sets
the key to 3. -/
theorem initWorkers_count_witness :
    (∀ dflt, emptyConfig "registry.mongo.heartbeat.workerNum" dflt = dflt) ∧
    (initWorkers emptyConfig 4).length = 10 ∧
    (((initWorkers (fun _ _ => 3) 4).length : Int) = 3) :=
  ⟨fun _ => rfl, (initWorkers_count emptyConfig 4).1 (fun _ => rfl),
    (initWorkers_count (fun _ _ => 3) 4).2.1 3 (by decide) (fun _ => rfl)⟩

/-- C14 fails as stated: with the key absent and 4 processors `init` starts 10
workers and not 4, and with the key set to the non-zero value -2 it starts none. -/
theorem initWorkers_not_NumCPU :
    (∀ dflt, emptyConfig "registry.mongo.heartbeat.workerNum" dflt = dflt) ∧
    initWorkers emptyConfig 4 = [1, 2, 3, 4, 5, 6, 7, 8, 9, 10] ∧
    (initWorkers emptyConfig 4).length ≠ 4 ∧
    initWorkers (fun _ _ => -2) 4 = [] := by
  refine ⟨fun _ => rfl, by decide, by decide, by decide⟩

/-! ## Properties of the event handlers -/

/-- One turn of the publication loop: the publication is made and the loop goes on,
whether the publication fails or not. -/
theorem publishLoop_cons (env : EventEnv) (response : WatchInstanceResponse)
    (domainProject consumerID : String) (rest : List String) (i : Nat) :
    publishLoop env response domainProject (consumerID :: rest) i =
      Effect.Publish (NewInstanceEventWithTime consumerID domainProject (-1) (env.now i)
        response) :: publishLoop env response domainProject rest (i + 1) := by
  rw [publishLoop]
  cases env.Publish (NewInstanceEventWithTime consumerID domainProject (-1) (env.now i)
    response) <;> rfl

/-- Every effect of the publication loop is a publication. -/
theorem publishLoop_all_publish (env : EventEnv) (response : WatchInstanceResponse)
    (domainProject : String) :
    ∀ (subscribers : List String) (i : Nat),
      ∀ e ∈ publishLoop env response domainProject subscribers i, e.isPublish = true := by
  intro subscribers
  induction subscribers with
  | nil =>
    intro i e he
    simp [publishLoop] at he
  | cons consumerID rest ih =>
    intro i e he
    rw [publishLoop_cons] at he
    rcases List.mem_cons.mp he with heq | hmem
    · rw [heq]
      rfl
    · exact ih (i + 1) e hmem

/-- The calls made by the publication loop: one per subscriber, in list order, each
for that subscriber, whatever the publications answer. -/
theorem publishLoop_eq (env : EventEnv) (response : WatchInstanceResponse)
    (domainProject : String) :
    ∀ (subscribers : List String) (i : Nat),
      publishLoop env response domainProject subscribers i =
        (List.range subscribers.length).map (fun (j : Nat) =>
          Effect.Publish (NewInstanceEventWithTime (subscribers.getD j "") domainProject (-1)
            (env.now (i + j)) response)) := by
  intro subscribers
  induction subscribers with
  | nil =>
    intro i
    simp [publishLoop]
  | cons consumerID rest ih =>
    intro i
    rw [publishLoop_cons, ih (i + 1), List.length_cons, List.range_succ_eq_map, List.map_cons,
      List.map_map]
    refine congrArg₂ List.cons ?_ ?_
    · simp
    · apply List.map_congr_left
      intro j _
      simp only [Function.comp_apply, List.getD_cons_succ]
      rw [show i + 1 + j = i + (j + 1) by omega]

/-- The effects of `PublishInstanceEvent` are publications only. -/
theorem PublishInstanceEvent_all_publish (env : EventEnv) (evt : MongoEvent Instance)
    (domainProject : String) (serviceKey : MicroServiceKey) (subscribers : List String) :
    ∀ e ∈ PublishInstanceEvent env evt domainProject serviceKey subscribers,
      e.isPublish = true := by
  intro e he
  unfold PublishInstanceEvent at he
  split at he
  · simp at he
  · exact publishLoop_all_publish env _ domainProject subscribers 0 e he

/-- A list of publications holds no quota release and no sync-notifier event. -/
theorem filters_of_all_publish (l : List Effect) (h : ∀ e ∈ l, e.isPublish = true) :
    l.filter Effect.isQuotaRelease = [] ∧ l.filter Effect.isSyncerAdd = [] ∧
    l.filter Effect.isPublish = l := by
  refine ⟨?_, ?_, ?_⟩
  · rw [List.filter_eq_nil_iff]
    intro e he
    have := h e he
    cases e <;> simp_all [Effect.isPublish, Effect.isQuotaRelease]
  · rw [List.filter_eq_nil_iff]
    intro e he
    have := h e he
    cases e <;> simp_all [Effect.isPublish, Effect.isSyncerAdd]
  · rw [List.filter_eq_self]
    exact h

/-- The part of `notifyEffects` that follows the sync notifier is made of
publications only. -/
theorem notifyEffects_publications (env : EventEnv) (evt : MongoEvent Instance)
    (microService : MicroService) :
    ∃ pubs : List Effect, (∀ e ∈ pubs, e.isPublish = true) ∧
      notifyEffects env evt microService =
        (if !env.syncerClosed then NotifySyncerInstanceEvent env evt microService else []) ++
          pubs := by
  unfold notifyEffects
  cases hg : env.GetAllConsumerIds evt.Value.Domain evt.Value.Project microService with
  | mk ids err =>
    cases err with
    | some e => exact ⟨[], by simp, by simp⟩
    | none => exact ⟨_, PublishInstanceEvent_all_publish env evt _ _ ids, rfl⟩

/-- The shape of `InstanceEventHandler.OnEvent` on an event that is not an Init: the
effects of the `switch`, followed by nothing when the provider is not found, or by
the notifications for the provider that is resolved. -/
theorem OnEvent_not_init (env : EventEnv) (evt : MongoEvent Instance)
    (hne : evt.Type_ ≠ EVT_INIT) :
    InstanceEventHandler.OnEvent env evt = switchEffects env evt ∨
    InstanceEventHandler.OnEvent env evt = switchEffects env evt ++ [Effect.Panic] ∨
    ∃ microService, providerResolved env evt.Value.Instance.ServiceId microService ∧
      InstanceEventHandler.OnEvent env evt =
        switchEffects env evt ++ notifyEffects env evt microService := by
  unfold InstanceEventHandler.OnEvent
  simp only [hne, if_false]
  cases hc : env.cacheGet evt.Value.Instance.ServiceId with
  | some cacheService =>
    cases hs : cacheService.Service with
    | some microService =>
      right; right
      exact ⟨microService, Or.inl ⟨cacheService, hc, hs⟩, by simp [hs, switchEffects, notifyEffects]⟩
    | none =>
      simp only [hs]
      cases hg : GetServiceWithFilter env
          [("serviceinfo.serviceid", evt.Value.Instance.ServiceId)] with
      | mk svc err =>
        cases err with
        | some e => left; simp [switchEffects]
        | none =>
          cases svc with
          | none => right; left; simp [switchEffects]
          | some service =>
            cases hss : service.Service with
            | none => left; simp [hss, switchEffects]
            | some microService =>
              right; right
              exact ⟨microService,
                Or.inr ⟨Or.inr ⟨cacheService, hc, hs⟩, service, hg, hss⟩,
                by simp [hss, switchEffects, notifyEffects]⟩
  | none =>
    simp only []
    cases hg : GetServiceWithFilter env
        [("serviceinfo.serviceid", evt.Value.Instance.ServiceId)] with
    | mk svc err =>
      cases err with
      | some e => left; simp [switchEffects]
      | none =>
        cases svc with
        | none => right; left; simp [switchEffects]
        | some service =>
          cases hss : service.Service with
          | none => left; simp [hss, switchEffects]
          | some microService =>
            right; right
            exact ⟨microService, Or.inr ⟨Or.inl hc, service, hg, hss⟩,
              by simp [hss, switchEffects, notifyEffects]⟩

theorem EVT_DELETE_ne_EVT_CREATE : EVT_DELETE ≠ EVT_CREATE := by decide

theorem EVT_CREATE_ne_EVT_DELETE : EVT_CREATE ≠ EVT_DELETE := by decide

/-- The quota releases among the effects of the `switch`. -/
theorem switchEffects_quota (env : EventEnv) (evt : MongoEvent Instance) :
    (switchEffects env evt).filter Effect.isQuotaRelease =
      if evt.Type_ = EVT_DELETE ∧
          env.IsDefaultDomainProject (evt.Value.Domain ++ "/" ++ evt.Value.Project) = false then
        [Effect.RemandInstanceQuota evt.Value.Domain evt.Value.Project]
      else [] := by
  unfold switchEffects
  by_cases hc : evt.Type_ = EVT_CREATE
  · simp [hc, EVT_CREATE_ne_EVT_DELETE, Effect.isQuotaRelease]
  · by_cases hd : evt.Type_ = EVT_DELETE
    · cases hdef : env.IsDefaultDomainProject (evt.Value.Domain ++ "/" ++ evt.Value.Project) <;>
        simp [hd, hdef, EVT_DELETE_ne_EVT_CREATE, Effect.isQuotaRelease]
    · simp [hc, hd]

/-- The `switch` adds nothing to the sync notifier and publishes nothing. -/
theorem switchEffects_no_notification (env : EventEnv) (evt : MongoEvent Instance) :
    (switchEffects env evt).filter Effect.isSyncerAdd = [] ∧
    (switchEffects env evt).filter Effect.isPublish = [] := by
  unfold switchEffects
  by_cases hc : evt.Type_ = EVT_CREATE
  · simp [hc, Effect.isSyncerAdd, Effect.isPublish]
  · by_cases hd : evt.Type_ = EVT_DELETE
    · cases hdef : env.IsDefaultDomainProject (evt.Value.Domain ++ "/" ++ evt.Value.Project) <;>
        simp [hd, hdef, EVT_DELETE_ne_EVT_CREATE, Effect.isSyncerAdd, Effect.isPublish]
    · simp [hc, hd]

/-- The notifications hold no quota release, and their sync-notifier events are the
one built by `NotifySyncerInstanceEvent` when the notifier is open, none otherwise. -/
theorem notifyEffects_filters (env : EventEnv) (evt : MongoEvent Instance)
    (microService : MicroService) :
    (notifyEffects env evt microService).filter Effect.isQuotaRelease = [] ∧
    (notifyEffects env evt microService).filter Effect.isSyncerAdd =
      (if env.syncerClosed then [] else NotifySyncerInstanceEvent env evt microService) := by
  obtain ⟨pubs, hpubs, heq⟩ := notifyEffects_publications env evt microService
  have hf := filters_of_all_publish pubs hpubs
  rw [heq, List.filter_append, List.filter_append, hf.1, hf.2.1]
  cases env.syncerClosed <;>
    simp [NotifySyncerInstanceEvent, Effect.isQuotaRelease, Effect.isSyncerAdd]

/-- `InstanceEventHandler.OnEvent` on an Init event. -/
theorem OnEvent_init (env : EventEnv) (evt : MongoEvent Instance) (hi : evt.Type_ = EVT_INIT) :
    InstanceEventHandler.OnEvent env evt = [Effect.ReportInstances evt.Value.Domain 1] ∨
    ∃ fn fv, InstanceEventHandler.OnEvent env evt =
      [Effect.ReportInstances evt.Value.Domain 1,
        Effect.ReportFramework evt.Value.Domain evt.Value.Project fn fv 1] := by
  unfold InstanceEventHandler.OnEvent
  simp only [hi, if_true]
  split
  · exact Or.inl rfl
  · exact Or.inr ⟨_, _, rfl⟩

/-- `InstanceEventHandler.OnEvent` on an event that is not an Init and whose provider is
resolved. -/
theorem OnEvent_resolved (env : EventEnv) (evt : MongoEvent Instance)
    (microService : MicroService) (hne : evt.Type_ ≠ EVT_INIT)
    (hres : providerResolved env evt.Value.Instance.ServiceId microService) :
    InstanceEventHandler.OnEvent env evt =
      switchEffects env evt ++ notifyEffects env evt microService := by
  rcases hres with ⟨cs, hc, hs⟩ | ⟨hcache, service, hg, hss⟩
  · unfold InstanceEventHandler.OnEvent
    simp [hne, hc, hs, switchEffects, notifyEffects]
  · rcases hcache with hc | ⟨cs, hc, hs⟩
    · unfold InstanceEventHandler.OnEvent
      simp [hne, hc, hg, hss, switchEffects, notifyEffects]
    · unfold InstanceEventHandler.OnEvent
      simp [hne, hc, hs, hg, hss, switchEffects, notifyEffects]

/-- C16. On an Init event the handlers only report metrics: every effect of
`InstanceEventHandler.OnEvent` is a metrics report, so it publishes nothing, adds
nothing to the sync notifier and releases no quota; and `ServiceEventHandler.OnEvent`,
for an event that carries a service record, reports one service gauge of +1 and
nothing else. -/
theorem Init_events_only_report_metrics (env : EventEnv) (ievt : MongoEvent Instance)
    (sevt : MongoEvent Service) (ms : MicroService)
    (hi : ievt.Type_ = EVT_INIT) (hs : sevt.Type_ = EVT_INIT)
    (hms : sevt.Value.Service = some ms) :
    (∀ e ∈ InstanceEventHandler.OnEvent env ievt, e.isMetricsReport = true) ∧
    (InstanceEventHandler.OnEvent env ievt).filter Effect.isPublish = [] ∧
    (InstanceEventHandler.OnEvent env ievt).filter Effect.isSyncerAdd = [] ∧
    (InstanceEventHandler.OnEvent env ievt).filter Effect.isQuotaRelease = [] ∧
    ServiceEventHandler.OnEvent env sevt =
      [Effect.ReportServices sevt.Value.Domain (getFramework env ms).1
        (getFramework env ms).2 1] := by
  have hsvc : ServiceEventHandler.OnEvent env sevt =
      [Effect.ReportServices sevt.Value.Domain (getFramework env ms).1
        (getFramework env ms).2 1] := by
    unfold ServiceEventHandler.OnEvent
    simp [hms, hs]
  rcases OnEvent_init env ievt hi with h | ⟨fn, fv, h⟩
  · rw [h]
    exact ⟨by simp [Effect.isMetricsReport], by simp [Effect.isPublish],
      by simp [Effect.isSyncerAdd], by simp [Effect.isQuotaRelease], hsvc⟩
  · rw [h]
    exact ⟨by simp [Effect.isMetricsReport], by simp [Effect.isPublish],
      by simp [Effect.isSyncerAdd], by simp [Effect.isQuotaRelease], hsvc⟩

/-- C16, at an Init event for the instance `s1/i1` and an Init event for the service
`s1`, whose framework has a name and no version. -/
theorem Init_events_only_report_metrics_witness :
    (demoInstanceEvent EVT_INIT "default" "default").Type_ = EVT_INIT ∧
    (demoServiceEvent EVT_INIT).Type_ = EVT_INIT ∧
    (demoServiceEvent EVT_INIT).Value.Service = some demoProvider ∧
    InstanceEventHandler.OnEvent demoEventEnv (demoInstanceEvent EVT_INIT "default" "default") =
      [Effect.ReportInstances "default" 1,
        Effect.ReportFramework "default" "default" "go-chassis" "UNKNOWN" 1] ∧
    (InstanceEventHandler.OnEvent demoEventEnv
      (demoInstanceEvent EVT_INIT "default" "default")).filter Effect.isPublish = [] ∧
    ServiceEventHandler.OnEvent demoEventEnv (demoServiceEvent EVT_INIT) =
      [Effect.ReportServices "default" "go-chassis" "UNKNOWN" 1] :=
  ⟨rfl, rfl, rfl, by decide,
    (Init_events_only_report_metrics demoEventEnv
      (demoInstanceEvent EVT_INIT "default" "default") (demoServiceEvent EVT_INIT)
      demoProvider rfl rfl rfl).2.1,
    (Init_events_only_report_metrics demoEventEnv
      (demoInstanceEvent EVT_INIT "default" "default") (demoServiceEvent EVT_INIT)
      demoProvider rfl rfl rfl).2.2.2.2⟩

/-- C17. `InstanceEventHandler.OnEvent` releases instance quota once, for the tenant of
the instance, exactly when the event is a Delete and `domain/project` is not the
default tenant, and never otherwise; the store and the cache are arbitrary, so this
holds whether or not the provider is resolved afterwards. -/
theorem OnEvent_releases_quota_iff (env : EventEnv) (evt : MongoEvent Instance) :
    (InstanceEventHandler.OnEvent env evt).filter Effect.isQuotaRelease =
      if evt.Type_ = EVT_DELETE ∧
          env.IsDefaultDomainProject (evt.Value.Domain ++ "/" ++ evt.Value.Project) = false then
        [Effect.RemandInstanceQuota evt.Value.Domain evt.Value.Project]
      else [] := by
  by_cases hi : evt.Type_ = EVT_INIT
  · have hnd : ¬ (evt.Type_ = EVT_DELETE ∧
        env.IsDefaultDomainProject (evt.Value.Domain ++ "/" ++ evt.Value.Project) = false) := by
      rw [hi]
      intro h
      exact absurd h.1 (by decide)
    rw [if_neg hnd]
    rcases OnEvent_init env evt hi with h | ⟨fn, fv, h⟩ <;>
      · rw [h]
        simp [Effect.isQuotaRelease]
  · rw [← switchEffects_quota env evt]
    rcases OnEvent_not_init env evt hi with h | h | ⟨microService, _, h⟩
    · rw [h]
    · rw [h, List.filter_append]
      simp [Effect.isQuotaRelease]
    · rw [h, List.filter_append, (notifyEffects_filters env evt microService).1,
        List.append_nil]

/-- C18. `PublishInstanceEvent` makes one publication per element of the subscriber
list, in list order, each addressed to that element and to the given
`domainProject`; it makes none for the empty list; and the publications made do not
depend on what the publications answer, so a failed one neither stops nor alters
those after it. -/
theorem PublishInstanceEvent_one_call_per_subscriber (env : EventEnv)
    (evt : MongoEvent Instance) (domainProject : String) (serviceKey : MicroServiceKey)
    (subscribers : List String) :
    (PublishInstanceEvent env evt domainProject serviceKey subscribers).map Effect.addressee =
      subscribers.map (fun consumerID => some (consumerID, domainProject)) ∧
    (∀ e ∈ PublishInstanceEvent env evt domainProject serviceKey subscribers,
      e.isPublish = true) ∧
    (PublishInstanceEvent env evt domainProject serviceKey subscribers).length =
      subscribers.length ∧
    PublishInstanceEvent env evt domainProject serviceKey [] = [] ∧
    (∀ answers : InstanceEvent → Option GoError,
      PublishInstanceEvent { env with Publish := answers } evt domainProject serviceKey
          subscribers =
        PublishInstanceEvent env evt domainProject serviceKey subscribers) := by
  have hloop : ∀ (e1 : EventEnv) (response : WatchInstanceResponse) (subs : List String)
      (i : Nat), (publishLoop e1 response domainProject subs i).map Effect.addressee =
        subs.map (fun consumerID => some (consumerID, domainProject)) := by
    intro e1 response subs
    induction subs with
    | nil =>
      intro i
      simp [publishLoop]
    | cons consumerID rest ih =>
      intro i
      rw [publishLoop_cons, List.map_cons, List.map_cons, ih (i + 1)]
      rfl
  have haddr : (PublishInstanceEvent env evt domainProject serviceKey subscribers).map
      Effect.addressee = subscribers.map (fun consumerID => some (consumerID, domainProject)) := by
    unfold PublishInstanceEvent
    split
    · rename_i hlen
      rw [List.length_eq_zero.mp hlen]
      rfl
    · exact hloop env _ subscribers 0
  refine ⟨haddr, PublishInstanceEvent_all_publish env evt domainProject serviceKey subscribers,
    ?_, ?_, ?_⟩
  · have := congrArg List.length haddr
    simpa using this
  · simp [PublishInstanceEvent]
  · intro answers
    unfold PublishInstanceEvent
    split
    · rfl
    · rw [publishLoop_eq, publishLoop_eq]

/-- C19. For an instance event that is not an Init and whose provider is resolved,
`InstanceEventHandler.OnEvent` adds to the sync notifier exactly the one event built
by `NotifySyncerInstanceEvent` when the notifier is not closed and nothing when it
is closed, whatever the consumer lookup returns, a failure and an empty list
included. -/
theorem OnEvent_notifies_syncer_once (env : EventEnv) (evt : MongoEvent Instance)
    (microService : MicroService) (hne : evt.Type_ ≠ EVT_INIT)
    (hres : providerResolved env evt.Value.Instance.ServiceId microService) :
    ∀ lookup : String → String → MicroService → List String × Option GoError,
      (InstanceEventHandler.OnEvent { env with GetAllConsumerIds := lookup } evt).filter
          Effect.isSyncerAdd =
        (if env.syncerClosed then [] else NotifySyncerInstanceEvent env evt microService) ∧
      ((if env.syncerClosed then [] else
          NotifySyncerInstanceEvent env evt microService).length =
        if env.syncerClosed then 0 else 1) := by
  intro lookup
  have hres1 : providerResolved { env with GetAllConsumerIds := lookup }
      evt.Value.Instance.ServiceId microService := hres
  constructor
  · rw [OnEvent_resolved _ evt microService hne hres1, List.filter_append,
      (switchEffects_no_notification _ evt).1, List.nil_append,
      (notifyEffects_filters _ evt microService).2]
    rfl
  · cases env.syncerClosed <;> simp [NotifySyncerInstanceEvent]

/-- C19, at a Create event for the instance `s1/i1`, whose provider is cached, with the
notifier open and a consumer lookup that fails. -/
theorem OnEvent_notifies_syncer_once_witness :
    (demoInstanceEvent EVT_CREATE "default" "default").Type_ ≠ EVT_INIT ∧
    providerResolved demoEventEnv
      (demoInstanceEvent EVT_CREATE "default" "default").Value.Instance.ServiceId
      demoProvider ∧
    ((InstanceEventHandler.OnEvent
        { demoEventEnv with
          GetAllConsumerIds := fun _ _ _ => ([], some (GoError.other "query failed")) }
        (demoInstanceEvent EVT_CREATE "default" "default")).filter Effect.isSyncerAdd =
      (if demoEventEnv.syncerClosed then [] else
        NotifySyncerInstanceEvent demoEventEnv
          (demoInstanceEvent EVT_CREATE "default" "default") demoProvider) ∧
     ((if demoEventEnv.syncerClosed then [] else
        NotifySyncerInstanceEvent demoEventEnv
          (demoInstanceEvent EVT_CREATE "default" "default") demoProvider).length =
      if demoEventEnv.syncerClosed then 0 else 1)) :=
  ⟨by decide, Or.inl ⟨_, rfl, rfl⟩,
    OnEvent_notifies_syncer_once demoEventEnv (demoInstanceEvent EVT_CREATE "default" "default")
      demoProvider (by decide) (Or.inl ⟨_, rfl, rfl⟩)
      (fun _ _ _ => ([], some (GoError.other "query failed")))⟩

/-! ## Properties of the index cache -/

/-- Reading the entries after a `Put`: the key put gets its former members followed by
the new one, every other key reads as before. -/
theorem lookup_putEntries (key member : String) :
    ∀ entries : List (String × List String),
      (putEntries entries key member).lookup key =
        some (((entries.lookup key).getD []) ++ [member]) ∧
      ∀ other : String, other ≠ key →
        (putEntries entries key member).lookup other = entries.lookup other := by
  intro entries
  induction entries with
  | nil =>
    constructor
    · simp [putEntries, List.lookup]
    · intro other hne
      have hb : (other == key) = false := beq_eq_false_iff_ne.mpr hne
      simp [putEntries, List.lookup, hb]
  | cons entry rest ih =>
    obtain ⟨k, members⟩ := entry
    by_cases hk : k = key
    · subst hk
      constructor
      · simp [putEntries, List.lookup]
      · intro other hne
        have hb : (other == k) = false := beq_eq_false_iff_ne.mpr hne
        simp [putEntries, List.lookup, hb]
    · have hb : (key == k) = false := beq_eq_false_iff_ne.mpr (fun h => hk h.symm)
      constructor
      · simp [putEntries, List.lookup, hk, hb, ih.1]
      · intro other hne
        cases ho : (other == k) with
        | true => simp [putEntries, List.lookup, hk, ho]
        | false => simp [putEntries, List.lookup, hk, ho, ih.2 other hne]

/-- C20. `Put` appends: after `Put(key, member)`, `Get(key)` is the list `Get(key)`
returned before (empty when the key was absent) followed by `member`, duplicates
kept, and `Get` of every other key is unchanged. -/
theorem IndexCache_Put_appends (c : IndexCache) (key member : String) :
    (c.Put key member).Get key = some (((c.Get key).getD []) ++ [member]) ∧
    ∀ other : String, other ≠ key → (c.Put key member).Get other = c.Get other := by
  unfold IndexCache.Put IndexCache.Get
  exact lookup_putEntries key member c.store

/-- C20, on the steps of `TestIndexCache` and with a repeated member and a second
key. -/
theorem IndexCache_Put_appends_witness :
    "index2" ≠ "index1" ∧
    (NewIndexCache.Put "index1" "doc1").Get "index1" = some ["doc1"] ∧
    ((NewIndexCache.Put "index1" "doc1").Put "index1" "doc2").Get "index1" =
      some ["doc1", "doc2"] ∧
    (((NewIndexCache.Put "index1" "doc1").Put "index2" "x").Put "index1" "doc1").Get "index1" =
      some ["doc1", "doc1"] ∧
    (((NewIndexCache.Put "index1" "doc1").Put "index2" "x").Put "index1" "doc1").Get "index2" =
      ((NewIndexCache.Put "index1" "doc1").Put "index2" "x").Get "index2" :=
  ⟨by decide, by decide, by decide, by decide,
    (IndexCache_Put_appends ((NewIndexCache.Put "index1" "doc1").Put "index2" "x")
      "index1" "doc1").2 "index2" (by decide)⟩

/-! ## Further properties of `FilterAll` and `MatchRules` -/

/-- The loop of `FilterAll` stops at the first id for which `Filter` fails, with that
error. -/
theorem filterAllLoop_error {Ctx : Type} (b : Backend Ctx) (ctx : Ctx) (rules : List Rule)
    (id : String) (post : List String) (e : GoError)
    (hfail : (Filter b ctx rules id).2 = some e) :
    ∀ (pre : List String) (st : FilterAllState),
      (∀ x ∈ pre, (Filter b ctx rules x).2 = none) →
      filterAllLoop b ctx rules (pre ++ id :: post) st = .error e := by
  intro pre
  induction pre with
  | nil =>
    intro st _
    cases hF : Filter b ctx rules id with
    | mk ok err =>
      rw [hF] at hfail
      simp only at hfail
      subst hfail
      simp [filterAllLoop, hF]
  | cons x pre ih =>
    intro st hok
    have hx := hok x (List.mem_cons_self _ _)
    have hpre : ∀ y ∈ pre, (Filter b ctx rules y).2 = none :=
      fun y hy => hok y (List.mem_cons_of_mem _ hy)
    cases hF : Filter b ctx rules x with
    | mk ok err =>
      rw [hF] at hx
      simp only at hx
      subst hx
      simp only [List.cons_append]
      rw [filterAllLoop, hF]
      cases ok with
      | true => simpa using ih _ hpre
      | false => simpa using ih _ hpre

/-- The result of `FilterAll` when a `Filter` call fails, for a non-empty rule list:
no allow list, no deny list, and the error of the first failing call. -/
theorem FilterAll_error {Ctx : Type} (b : Backend Ctx) (ctx : Ctx) (rules : List Rule)
    (pre : List String) (id : String) (post : List String) (e : GoError)
    (hrules : rules ≠ [])
    (hpre : ∀ x ∈ pre, (Filter b ctx rules x).2 = none)
    (hfail : (Filter b ctx rules id).2 = some e) :
    FilterAll b ctx (pre ++ id :: post) rules = ([], [], some e) := by
  have h1 : ¬ (pre ++ id :: post).length = 0 := by simp
  have h2 : ¬ rules.length = 0 := fun h => hrules (List.length_eq_zero.mp h)
  simp only [FilterAll, h1, h2, or_self, if_false,
    filterAllLoop_error b ctx rules id post e hfail pre _ hpre]

/-- A list with a failing element splits at its first failing element. -/
theorem exists_first_failure {Ctx : Type} (b : Backend Ctx) (ctx : Ctx) (rules : List Rule) :
    ∀ ids : List String, (∃ id ∈ ids, (Filter b ctx rules id).2 ≠ none) →
      ∃ pre id post e, ids = pre ++ id :: post ∧
        (∀ x ∈ pre, (Filter b ctx rules x).2 = none) ∧
        (Filter b ctx rules id).2 = some e := by
  intro ids
  induction ids with
  | nil =>
    rintro ⟨id, hmem, _⟩
    simp at hmem
  | cons x rest ih =>
    rintro ⟨id, hmem, hne⟩
    cases hx : (Filter b ctx rules x).2 with
    | some e => exact ⟨[], x, rest, e, rfl, by simp, hx⟩
    | none =>
      have hrest : ∃ id ∈ rest, (Filter b ctx rules id).2 ≠ none := by
        rcases List.mem_cons.mp hmem with heq | hin
        · subst heq
          exact absurd hx hne
        · exact ⟨id, hin, hne⟩
      obtain ⟨pre, y, post, e, heq, hpre, hy⟩ := ih hrest
      refine ⟨x :: pre, y, post, e, by simp [heq], ?_, hy⟩
      intro z hz
      rcases List.mem_cons.mp hz with hzx | hzp
      · subst hzx
        exact hx
      · exact hpre z hzp

/-- C24 (as the code behaves). For a non-empty rule list `FilterAll` agrees with `Filter`
applied to each id: it returns an error exactly when `Filter` returns one for some id
of the list, and otherwise its allow list holds exactly the ids for which `Filter`
returns true and its deny list exactly those for which it returns false.  For an
empty rule list `FilterAll` returns every id as allowed, with no error, without
calling `Filter`. -/
theorem FilterAll_agrees_with_Filter {Ctx : Type} (b : Backend Ctx) (ctx : Ctx)
    (consumerIDs : List String) (rules : List Rule) :
    (rules = [] → FilterAll b ctx consumerIDs rules = (consumerIDs, [], none)) ∧
    (rules ≠ [] →
      ((FilterAll b ctx consumerIDs rules).2.2 ≠ none ↔
        ∃ id ∈ consumerIDs, (Filter b ctx rules id).2 ≠ none) ∧
      ((FilterAll b ctx consumerIDs rules).2.2 = none →
        (∀ id, id ∈ (FilterAll b ctx consumerIDs rules).1 ↔
          id ∈ consumerIDs ∧ (Filter b ctx rules id).1 = true) ∧
        (∀ id, id ∈ (FilterAll b ctx consumerIDs rules).2.1 ↔
          id ∈ consumerIDs ∧ (Filter b ctx rules id).1 = false))) := by
  constructor
  · intro hr
    subst hr
    simp [FilterAll]
  · intro hrules
    by_cases hfail : ∃ id ∈ consumerIDs, (Filter b ctx rules id).2 ≠ none
    · obtain ⟨pre, id, post, e, heq, hpre, hid⟩ := exists_first_failure b ctx rules _ hfail
      have hres := FilterAll_error b ctx rules pre id post e hrules hpre hid
      rw [← heq] at hres
      rw [hres]
      exact ⟨⟨fun _ => hfail, fun _ => by simp⟩, fun h => absurd h (by simp)⟩
    · have hok : ∀ id ∈ consumerIDs, (Filter b ctx rules id).2 = none := by
        intro id hid
        by_contra hne
        exact hfail ⟨id, hid, hne⟩
      by_cases hids : consumerIDs = []
      · subst hids
        simp [FilterAll]
      · rw [FilterAll_ok b ctx consumerIDs rules hids hrules hok]
        refine ⟨⟨fun h => absurd rfl h, fun h => absurd h hfail⟩, fun _ => ⟨?_, ?_⟩⟩
        · intro id
          simp [List.mem_filter]
        · intro id
          simp [List.mem_filter]

/-- C24, at the demo store, the whitelist `{WHITE, AppId, "app1"}` and the ids
`c1, c2`. -/
theorem FilterAll_agrees_with_Filter_witness :
    [mkRule "WHITE" "AppId" "app1"] ≠ [] ∧
    (FilterAll demoBackend () ["c1", "c2"] [mkRule "WHITE" "AppId" "app1"]).2.2 = none ∧
    (∀ id, id ∈ (FilterAll demoBackend () ["c1", "c2"] [mkRule "WHITE" "AppId" "app1"]).1 ↔
      id ∈ ["c1", "c2"] ∧
        (Filter demoBackend () [mkRule "WHITE" "AppId" "app1"] id).1 = true) ∧
    (∀ id, id ∈ (FilterAll demoBackend () ["c1", "c2"] [mkRule "WHITE" "AppId" "app1"]).2.1 ↔
      id ∈ ["c1", "c2"] ∧
        (Filter demoBackend () [mkRule "WHITE" "AppId" "app1"] id).1 = false) :=
  ⟨by decide, by decide,
    ((FilterAll_agrees_with_Filter demoBackend () ["c1", "c2"]
      [mkRule "WHITE" "AppId" "app1"]).2 (by decide)).2 (by decide)⟩

/-- C24 fails as stated: for the empty rule list and the id `ghost` of a consumer that
does not exist, `Filter` returns false with the store's "no data" error, while
`FilterAll` returns no error and lists `ghost` as allowed. -/
theorem FilterAll_empty_rules_skips_Filter :
    Filter demoBackend () [] "ghost" = (false, some (GoError.other "no data")) ∧
    FilterAll demoBackend () ["ghost"] [] = (["ghost"], [], none) := by
  decide

/-- C25. For a non-empty id list and a non-empty rule list: when no `Filter` call fails,
`FilterAll` returns the allowed ids in their input order and the denied ids in the
reverse of their input order, with no error; when a `Filter` call fails, it returns
no allow list, no deny list and the error of that call (the first that fails). -/
theorem FilterAll_order_and_failure {Ctx : Type} (b : Backend Ctx) (ctx : Ctx)
    (consumerIDs : List String) (rules : List Rule)
    (hids : consumerIDs ≠ []) (hrules : rules ≠ []) :
    ((∀ id ∈ consumerIDs, (Filter b ctx rules id).2 = none) →
      FilterAll b ctx consumerIDs rules =
        (consumerIDs.filter (fun id => (Filter b ctx rules id).1),
         (consumerIDs.filter (fun id => !(Filter b ctx rules id).1)).reverse, none)) ∧
    (∀ (pre : List String) (id : String) (post : List String) (e : GoError),
      consumerIDs = pre ++ id :: post →
      (∀ x ∈ pre, (Filter b ctx rules x).2 = none) →
      (Filter b ctx rules id).2 = some e →
      FilterAll b ctx consumerIDs rules = ([], [], some e)) := by
  constructor
  · intro hok
    exact FilterAll_ok b ctx consumerIDs rules hids hrules hok
  · intro pre id post e heq hpre hid
    rw [heq]
    exact FilterAll_error b ctx rules pre id post e hrules hpre hid

/-- C25, at the demo store and the whitelist `{WHITE, AppId, "app1"}`: for the ids
`c2, c1, c2, c1` the result is allow `c1, c1` and deny `c2, c2`; for the ids
`c1, ghost, c2`, where the consumer `ghost` does not exist and `Filter` fails with the
store's "no data" error, the result is that error alone. -/
theorem FilterAll_order_and_failure_witness :
    ["c2", "c1", "c2", "c1"] ≠ [] ∧ [mkRule "WHITE" "AppId" "app1"] ≠ [] ∧
    (∀ id ∈ ["c2", "c1", "c2", "c1"],
      (Filter demoBackend () [mkRule "WHITE" "AppId" "app1"] id).2 = none) ∧
    FilterAll demoBackend () ["c2", "c1", "c2", "c1"] [mkRule "WHITE" "AppId" "app1"] =
      (["c2", "c1", "c2", "c1"].filter
          (fun id => (Filter demoBackend () [mkRule "WHITE" "AppId" "app1"] id).1),
        (["c2", "c1", "c2", "c1"].filter
          (fun id => !(Filter demoBackend () [mkRule "WHITE" "AppId" "app1"] id).1)).reverse,
        none) ∧
    FilterAll demoBackend () ["c2", "c1", "c2", "c1"] [mkRule "WHITE" "AppId" "app1"] =
      (["c1", "c1"], ["c2", "c2"], none) ∧
    (Filter demoBackend () [mkRule "WHITE" "AppId" "app1"] "ghost").2 =
      some (GoError.other "no data") ∧
    FilterAll demoBackend () ["c1", "ghost", "c2"] [mkRule "WHITE" "AppId" "app1"] =
      ([], [], some (GoError.other "no data")) :=
  ⟨by decide, by decide, by decide,
    (FilterAll_order_and_failure demoBackend () ["c2", "c1", "c2", "c1"]
      [mkRule "WHITE" "AppId" "app1"] (by decide) (by decide)).1 (by decide),
    by decide, by decide,
    (FilterAll_order_and_failure demoBackend () ["c1", "ghost", "c2"]
      [mkRule "WHITE" "AppId" "app1"] (by decide) (by decide)).2
      ["c1"] "ghost" ["c2"] (GoError.other "no data") rfl (by decide) (by decide)⟩

/-- C26. `MatchRules` takes the list semantics from the first rule alone: when the first
rule's type is exactly `"WHITE"` the result is that of `patternWhiteList` on the whole
list, and for any other first-rule type it is that of `patternBlackList` on the whole
list, whatever the types of the later rules; and for a nil consumer the result is
`ErrInvalidParams`, for every rule list, the empty one included. -/
theorem MatchRules_semantics_from_first_rule (re : Regexp) (first : Rule) (rest : List Rule)
    (rules : List Rule) (c : MicroService) (tags : Tags) :
    (first.Rule.RuleType = "WHITE" →
      MatchRules re (first :: rest) (some c) tags =
        patternWhiteList re (first :: rest) tags c) ∧
    (first.Rule.RuleType ≠ "WHITE" →
      MatchRules re (first :: rest) (some c) tags =
        patternBlackList re (first :: rest) tags c) ∧
    (∃ e, MatchRules re rules none tags = some e ∧ e.Code = ErrCode.ErrInvalidParams) ∧
    (∃ e, MatchRules re [] none tags = some e ∧ e.Code = ErrCode.ErrInvalidParams) := by
  refine ⟨?_, ?_, ⟨_, rfl, rfl⟩, ⟨_, rfl, rfl⟩⟩
  · intro hw
    simp [MatchRules, hw]
  · intro hb
    simp [MatchRules, hb]

/-- C26, at lists of mixed types and a consumer with `AppId = app1`: a list headed by a
WHITE rule that does not match denies although a later BLACK-typed rule is there,
and lists headed by a rule of type `BLACK`, of empty type or of the unknown type
`white` deny as blacklists on a match although their second rule is WHITE. -/
theorem MatchRules_semantics_from_first_rule_witness :
    (mkRule "WHITE" "AppId" "app2").Rule.RuleType = "WHITE" ∧
    (mkRule "" "AppId" "app1").Rule.RuleType ≠ "WHITE" ∧
    MatchRules literalMatchString
        [mkRule "WHITE" "AppId" "app2", mkRule "BLACK" "AppId" "app3"]
        (some ⟨[("AppId", "app1")]⟩) [] =
      patternWhiteList literalMatchString
        [mkRule "WHITE" "AppId" "app2", mkRule "BLACK" "AppId" "app3"] []
        ⟨[("AppId", "app1")]⟩ ∧
    MatchRules literalMatchString
        [mkRule "WHITE" "AppId" "app2", mkRule "BLACK" "AppId" "app3"]
        (some ⟨[("AppId", "app1")]⟩) [] =
      some (NewError .ErrPermissionDeny "not found in white list") ∧
    MatchRules literalMatchString
        [mkRule "" "AppId" "app1", mkRule "WHITE" "AppId" "app1"]
        (some ⟨[("AppId", "app1")]⟩) [] =
      patternBlackList literalMatchString
        [mkRule "" "AppId" "app1", mkRule "WHITE" "AppId" "app1"] []
        ⟨[("AppId", "app1")]⟩ ∧
    MatchRules literalMatchString
        [mkRule "" "AppId" "app1", mkRule "WHITE" "AppId" "app1"]
        (some ⟨[("AppId", "app1")]⟩) [] =
      some (NewError .ErrPermissionDeny "found in black list") ∧
    MatchRules literalMatchString
        [mkRule "white" "AppId" "app1", mkRule "WHITE" "AppId" "app1"]
        (some ⟨[("AppId", "app1")]⟩) [] =
      some (NewError .ErrPermissionDeny "found in black list") :=
  ⟨rfl, by decide,
    (MatchRules_semantics_from_first_rule literalMatchString (mkRule "WHITE" "AppId" "app2")
      [mkRule "BLACK" "AppId" "app3"] [] ⟨[("AppId", "app1")]⟩ []).1 rfl,
    by decide,
    (MatchRules_semantics_from_first_rule literalMatchString (mkRule "" "AppId" "app1")
      [mkRule "WHITE" "AppId" "app1"] [] ⟨[("AppId", "app1")]⟩ []).2.1 (by decide),
    by decide, by decide⟩

/-- A rule that resolves and does not match can be erased from any place of a
whitelist or of a blacklist without changing the outcome. -/
theorem patternLists_erase_nonmatching (re : Regexp) (c : MicroService) (tags : Tags)
    (rule : Rule) (value : String) (hres : parsePattern c rule.Rule tags = (value, none))
    (hno : ¬ (value ≠ "" ∧ re rule.Rule.Pattern value = .ok true)) (post : List Rule) :
    ∀ pre : List Rule,
      patternWhiteList re (pre ++ rule :: post) tags c =
        patternWhiteList re (pre ++ post) tags c ∧
      patternBlackList re (pre ++ rule :: post) tags c =
        patternBlackList re (pre ++ post) tags c := by
  intro pre
  induction pre with
  | nil =>
    exact ⟨patternWhiteList_cons_skip re rule post tags c value hres hno,
      patternBlackList_cons_skip re rule post tags c value hres hno⟩
  | cons r pre ih =>
    simp only [List.cons_append]
    constructor
    · rw [patternWhiteList, patternWhiteList.eq_def re (r :: (pre ++ post)), ih.1]
    · rw [patternBlackList, patternBlackList.eq_def re (r :: (pre ++ post)), ih.2]

/-- A pattern that is not a valid regular expression matches no value. -/
theorem invalidPattern_not_ok (re : Regexp) (pattern value : String)
    (hinv : invalidPattern re pattern) : ¬ re pattern value = .ok true := by
  obtain ⟨msg, hmsg⟩ := hinv value
  rw [hmsg]
  intro h
  cases h

/-- C27. Rules whose pattern is not a valid regular expression, and whose attribute
resolves, do not match and raise no error: each of them can be erased from any
place of a whitelist or of a blacklist without changing the outcome, a whitelist
made only of such rules denies with `ErrPermissionDeny`, and a blacklist made only
of such rules allows. -/
theorem invalid_pattern_rules_never_match (re : Regexp) (c : MicroService) (tags : Tags)
    (rules : List Rule)
    (hinv : ∀ r ∈ rules, invalidPattern re r.Rule.Pattern)
    (hres : ∀ r ∈ rules, (parsePattern c r.Rule tags).2 = none) :
    (∀ r ∈ rules, ¬ ruleMatches re c tags r) ∧
    (∀ r ∈ rules, ∀ pre post : List Rule,
      patternWhiteList re (pre ++ r :: post) tags c =
        patternWhiteList re (pre ++ post) tags c ∧
      patternBlackList re (pre ++ r :: post) tags c =
        patternBlackList re (pre ++ post) tags c) ∧
    patternWhiteList re rules tags c =
      some (NewError .ErrPermissionDeny "not found in white list") ∧
    patternBlackList re rules tags c = none ∧
    (∀ first rest, rules = first :: rest → first.Rule.RuleType = "WHITE" →
      ∃ e, MatchRules re rules (some c) tags = some e ∧
        e.Code = ErrCode.ErrPermissionDeny) ∧
    (∀ first rest, rules = first :: rest → first.Rule.RuleType ≠ "WHITE" →
      MatchRules re rules (some c) tags = none) := by
  have hrule : ∀ r ∈ rules, parsePattern c r.Rule tags = ((parsePattern c r.Rule tags).1, none) ∧
      ¬ ((parsePattern c r.Rule tags).1 ≠ "" ∧
        re r.Rule.Pattern (parsePattern c r.Rule tags).1 = .ok true) := by
    intro r hr
    exact ⟨Prod.ext rfl (hres r hr),
      fun h => invalidPattern_not_ok re _ _ (hinv r hr) h.2⟩
  have hlists : patternWhiteList re rules tags c =
        some (NewError .ErrPermissionDeny "not found in white list") ∧
      patternBlackList re rules tags c = none := by
    clear hinv hres
    induction rules with
    | nil => exact ⟨by rw [patternWhiteList], by rw [patternBlackList]⟩
    | cons r rest ih =>
      have hr := hrule r (List.mem_cons_self _ _)
      have hrest := ih (fun x hx => hrule x (List.mem_cons_of_mem _ hx))
      rw [patternWhiteList_cons_skip re r rest tags c _ hr.1 hr.2,
        patternBlackList_cons_skip re r rest tags c _ hr.1 hr.2]
      exact hrest
  refine ⟨?_, ?_, hlists.1, hlists.2, ?_, ?_⟩
  · intro r hr hm
    exact (hrule r hr).2 ((ruleMatches_of_resolved re c tags r _ (hrule r hr).1).mp hm)
  · intro r hr pre post
    exact patternLists_erase_nonmatching re c tags r _ (hrule r hr).1 (hrule r hr).2 post pre
  · intro first rest heq hw
    refine ⟨NewError .ErrPermissionDeny "not found in white list", ?_, rfl⟩
    rw [← hlists.1, heq]
    simp [MatchRules, hw]
  · intro first rest heq hb
    rw [← hlists.2, heq]
    simp [MatchRules, hb]

/-- C27, at rules with the pattern `(`, which does not compile, on the field `AppId`:
alone in a whitelist the rule denies, alone in a blacklist it allows. -/
theorem invalid_pattern_rules_never_match_witness :
    (∀ r ∈ [mkRule "WHITE" "AppId" "("], invalidPattern demoRegexp r.Rule.Pattern) ∧
    (∀ r ∈ [mkRule "WHITE" "AppId" "("],
      (parsePattern ⟨[("AppId", "app1")]⟩ r.Rule []).2 = none) ∧
    patternWhiteList demoRegexp [mkRule "WHITE" "AppId" "("] [] ⟨[("AppId", "app1")]⟩ =
      some (NewError .ErrPermissionDeny "not found in white list") ∧
    MatchRules demoRegexp [mkRule "BLACK" "AppId" "("] (some ⟨[("AppId", "app1")]⟩) [] =
      none :=
  ⟨by
      intro r hr value
      rw [List.mem_singleton] at hr
      subst hr
      exact ⟨_, rfl⟩,
    by decide,
    (invalid_pattern_rules_never_match demoRegexp ⟨[("AppId", "app1")]⟩ []
      [mkRule "WHITE" "AppId" "("]
      (by
        intro r hr value
        rw [List.mem_singleton] at hr
        subst hr
        exact ⟨_, rfl⟩)
      (by decide)).2.2.1,
    by decide⟩

/-! ## Properties of `Delete` on the index cache -/

/-- Reading the entries from which a key has been filtered out. -/
theorem lookup_filter_key (key : String) :
    ∀ entries : List (String × List String),
      (entries.filter (fun entry => entry.1 != key)).lookup key = none ∧
      ∀ other : String, other ≠ key →
        (entries.filter (fun entry => entry.1 != key)).lookup other = entries.lookup other := by
  intro entries
  induction entries with
  | nil => simp
  | cons entry rest ih =>
    obtain ⟨k, members⟩ := entry
    by_cases hk : k = key
    · subst hk
      constructor
      · simpa [List.filter_cons] using ih.1
      · intro other hne
        have hb : (other == k) = false := beq_eq_false_iff_ne.mpr hne
        simpa [List.filter_cons, List.lookup, hb] using ih.2 other hne
    · have hb : (key == k) = false := beq_eq_false_iff_ne.mpr (fun h => hk h.symm)
      have hkb : (k != key) = true := by simp [hk]
      constructor
      · simp only [List.filter_cons, hkb, if_true, List.lookup, hb]
        exact ih.1
      · intro other hne
        simp only [List.filter_cons, hkb, if_true]
        cases ho : (other == k) with
        | true => simp [List.lookup, ho]
        | false => simpa [List.lookup, ho] using ih.2 other hne

/-- Reading the entries in which the member list of a present key has been replaced. -/
theorem lookup_setEntries (key : String) (remaining : List String) :
    ∀ entries : List (String × List String),
      (entries.lookup key ≠ none →
        (setEntries entries key remaining).lookup key = some remaining) ∧
      ∀ other : String, other ≠ key →
        (setEntries entries key remaining).lookup other = entries.lookup other := by
  intro entries
  induction entries with
  | nil => simp [setEntries]
  | cons entry rest ih =>
    obtain ⟨k, members⟩ := entry
    by_cases hk : k = key
    · subst hk
      constructor
      · intro _
        simp [setEntries, List.lookup]
      · intro other hne
        have hb : (other == k) = false := beq_eq_false_iff_ne.mpr hne
        simp [setEntries, List.lookup, hb]
    · have hb : (key == k) = false := beq_eq_false_iff_ne.mpr (fun h => hk h.symm)
      constructor
      · intro hpresent
        have hrest : rest.lookup key ≠ none := by
          simpa [List.lookup, hb] using hpresent
        simpa [setEntries, hk, List.lookup, hb] using ih.1 hrest
      · intro other hne
        cases ho : (other == k) with
        | true => simp [setEntries, hk, List.lookup, ho]
        | false => simpa [setEntries, hk, List.lookup, ho] using ih.2 other hne

/-- C21. `Delete` removes one occurrence: after `Delete(key, member)`, `Get(key)` is the
former member list with its first occurrence of `member` erased, later duplicates
and all other members kept in order, and it is nil once that list is empty (as it is
when the key was absent); `Get` of every other key is unchanged. -/
theorem IndexCache_Delete_erases_first (c : IndexCache) (key member : String) :
    (c.Delete key member).Get key =
      (match c.Get key with
        | none => none
        | some members =>
          if members.erase member = [] then none else some (members.erase member)) ∧
    ∀ other : String, other ≠ key → (c.Delete key member).Get other = c.Get other := by
  unfold IndexCache.Delete IndexCache.Get
  cases hl : c.store.lookup key with
  | none =>
    simp [hl]
  | some members =>
    by_cases hempty : members.erase member = []
    · have hlen : (members.erase member).length = 0 := by rw [hempty]; rfl
      simp only [hlen, if_true, hempty]
      exact lookup_filter_key key c.store
    · have hlen : ¬ (members.erase member).length = 0 :=
        fun h => hempty (List.length_eq_zero.mp h)
      simp only [hlen, if_false, hempty]
      have hset := lookup_setEntries key (members.erase member) c.store
      exact ⟨hset.1 (by rw [hl]; simp), hset.2⟩

/-- C21, on the steps of `TestIndexCache` and on a list with a repeated member. -/
theorem IndexCache_Delete_erases_first_witness :
    "index2" ≠ "index1" ∧
    (((NewIndexCache.Put "index1" "doc1").Put "index1" "doc2").Delete "index1" "doc1").Get
      "index1" = some ["doc2"] ∧
    ((((NewIndexCache.Put "index1" "doc1").Put "index1" "doc2").Delete "index1" "doc1").Delete
      "index1" "doc2").Get "index1" = none ∧
    ((((NewIndexCache.Put "index1" "a").Put "index1" "b").Put "index1" "a").Delete
      "index1" "a").Get "index1" = some ["b", "a"] ∧
    ((((NewIndexCache.Put "index1" "a").Put "index2" "x").Delete "index1" "a").Get "index2") =
      ((NewIndexCache.Put "index1" "a").Put "index2" "x").Get "index2" :=
  ⟨by decide, by decide, by decide, by decide,
    (IndexCache_Delete_erases_first ((NewIndexCache.Put "index1" "a").Put "index2" "x")
      "index1" "a").2 "index2" (by decide)⟩

/-! ## Properties of the service operations and of the rule DAO -/

/-- C29, evaluated on the code.  `HeartbeatSet` keys an element by the concatenation
`ServiceId + InstanceId`: the element (`a`, `bc`) that follows (`ab`, `c`) has the
same key `abc`, so it is skipped as a duplicate although both its ids differ from
those of the earlier element; with a true repetition the elements (`s1`, `i1`),
(`s1`, `i2`), (`s1`, `i1`) are processed as the first two. -/
theorem HeartbeatSet_key_collision :
    HeartbeatSet_processed [⟨"ab", "c"⟩, ⟨"a", "bc"⟩] = [⟨"ab", "c"⟩] ∧
    (⟨"ab", "c"⟩ : HeartbeatSetElement).ServiceId ≠
      (⟨"a", "bc"⟩ : HeartbeatSetElement).ServiceId ∧
    (⟨"ab", "c"⟩ : HeartbeatSetElement).InstanceId ≠
      (⟨"a", "bc"⟩ : HeartbeatSetElement).InstanceId ∧
    HeartbeatSet_processed [⟨"s1", "i1"⟩, ⟨"s1", "i2"⟩, ⟨"s1", "i1"⟩] =
      [⟨"s1", "i1"⟩, ⟨"s1", "i2"⟩] := by
  decide

/-- The filter of `GetRulesByServiceID`: its project component is the domain of the
context. -/
theorem GetRulesByServiceID_filter {Ctx : Type} (env : DaoEnv Ctx) (ctx : Ctx)
    (serviceID : String) :
    GetRulesByServiceID env ctx serviceID =
      GetRules env ctx
        { domain := env.ParseDomain ctx, project := env.ParseDomain ctx,
          options := [FilterOption.ServiceID serviceID] } := by
  rfl

/-- C30, evaluated on the code.  For the context of the tenant `d1/p1` and a collection
that holds a rule of the service `s1` in that tenant, `GetRulesByServiceID` finds
nothing, because it asks for the project `d1`; the filter with the context's project
finds the rule, and `GetRulesByServiceID` finds it only in a context whose project
is named like its domain. -/
theorem GetRulesByServiceID_project_is_domain :
    GetRulesByServiceID (collectionDao [demoRuleDoc]) ("d1", "p1") "s1" = ([], none) ∧
    GetRules (collectionDao [demoRuleDoc]) ("d1", "p1")
        (NewDomainProjectFilter "d1" "p1" [FilterOption.ServiceID "s1"]) =
      ([demoRuleDoc], none) ∧
    GetRulesByServiceID (collectionDao [{ demoRuleDoc with Project := "d1" }]) ("d1", "p1")
        "s1" = ([{ demoRuleDoc with Project := "d1" }], none) := by
  decide

/-- In `modifySchema`, for an editable service that does not list the schema id, the
schema list written back is the new schema id alone, whatever the former list. -/
theorem modifySchema_editable_new_schema {Ctx : Type} (b : Backend Ctx) (env : SchemaEnv)
    (ctx : Ctx) (serviceID : String) (schema : Schema) (svc : Service)
    (microservice : MicroService)
    (hsvc : GetService b ctx (b.ParseDomain ctx) (b.ParseProject ctx) serviceID =
      (some svc, none))
    (hms : svc.Service = some microservice)
    (hedit : isSchemaEditable env microservice = true)
    (hnew : (env.Schemas microservice).contains schema.SchemaId = false) :
    modifySchema b env ctx serviceID schema =
      modifySchemaWrite env serviceID schema [schema.SchemaId] ∧
    SchemaOp.UpdateService serviceID [schema.SchemaId] ∈
      (modifySchema b env ctx serviceID schema).1 := by
  have heq : modifySchema b env ctx serviceID schema =
      modifySchemaWrite env serviceID schema [schema.SchemaId] := by
    have hnot : schema.SchemaId ∉ env.Schemas microservice := by simpa using hnew
    simp [modifySchema, hsvc, hms, hedit, hnot, copySlice]
  refine ⟨heq, ?_⟩
  rw [heq]
  unfold modifySchemaWrite
  simp only [List.length_singleton, bne_iff_ne, ne_eq, one_ne_zero, not_false_eq_true, if_true]
  cases env.UpdateService with
  | some e => simp
  | none => cases env.UpdateSchema <;> simp

/-- C23, evaluated on the code.  For the editable service `s1` with the schema list
`a, b` and the new schema id `c`, `modifySchema` writes back the list `c` and not
`a, b, c`: the `copy` into the nil slice `newSchemas` copies nothing. -/
theorem modifySchema_drops_former_schemas :
    editableSchemaEnv.Schemas ⟨[("ServiceId", "s1")]⟩ = ["a", "b"] ∧
    isSchemaEditable editableSchemaEnv ⟨[("ServiceId", "s1")]⟩ = true ∧
    copySlice [] ["a", "b"] = [] ∧
    modifySchema schemaBackend editableSchemaEnv () "s1"
        { SchemaId := "c", Summary := "sum", Schema := "openapi" } =
      ([SchemaOp.UpdateService "s1" ["c"], SchemaOp.UpdateSchema "s1" "c" "openapi" "sum"],
        none) := by
  decide

/-! ## Properties of the rule operations -/

/-- A list with an element that satisfies a property splits at the first such
element. -/
theorem exists_first_split {α : Type} (P : α → Prop) :
    ∀ l : List α, (∃ x ∈ l, P x) →
      ∃ pre x post, l = pre ++ x :: post ∧ (∀ y ∈ pre, ¬ P y) ∧ P x := by
  intro l
  induction l with
  | nil =>
    rintro ⟨x, hx, _⟩
    simp at hx
  | cons a rest ih =>
    rintro ⟨x, hx, hP⟩
    by_cases ha : P a
    · exact ⟨[], a, rest, rfl, by simp, ha⟩
    · have hrest : ∃ x ∈ rest, P x := by
        rcases List.mem_cons.mp hx with heq | hin
        · subst heq
          exact absurd hP ha
        · exact ⟨x, hin, hP⟩
      obtain ⟨pre, y, post, heq, hpre, hy⟩ := ih hrest
      refine ⟨a :: pre, y, post, by simp [heq], ?_, hy⟩
      intro z hz
      rcases List.mem_cons.mp hz with hza | hzp
      · subst hza
        exact ha
      · exact hpre z hzp

/-- The rules of a service after a document of that service is appended. -/
theorem GetRulesOfService_append (env : RuleEnv) (collection : List Rule) (serviceID : String)
    (doc : Rule) (hin : inService env serviceID doc = true) :
    GetRulesOfService env (collection ++ [doc]) serviceID =
      GetRulesOfService env collection serviceID ++ [doc.Rule] := by
  simp [GetRulesOfService, List.filter_append, hin]

/-- The loop of `AddRule` keeps the rule types of the service uniform: if the rules
stored for the service all have the type held in `ruleType` (none being stored when
`ruleType` is empty) and no rule of the request has an empty type, then the rules
stored for the service when the loop ends, normally or by an early return, have
one type. -/
theorem addRuleLoop_keeps_one_type (env : RuleEnv) (serviceId : String) :
    ∀ (rules : List AddOrUpdateServiceRule) (i : Nat) (st : AddRuleState),
      (∀ r ∈ rules, r.RuleType ≠ "") →
      (∀ r ∈ GetRulesOfService env st.collection serviceId, r.RuleType = st.ruleType) →
      (st.ruleType = "" → GetRulesOfService env st.collection serviceId = []) →
      sameRuleType
        (GetRulesOfService env (addRuleLoop env serviceId rules i st).1.collection
          serviceId) := by
  intro rules
  induction rules with
  | nil =>
    intro i st _ hall _
    intro r1 h1 r2 h2
    simp only [addRuleLoop] at h1 h2
    rw [hall r1 h1, hall r2 h2]
  | cons rule rest ih =>
    intro i st hreq hall hempty
    have hrule : rule.RuleType ≠ "" := hreq rule (List.mem_cons_self _ _)
    have hrest : ∀ r ∈ rest, r.RuleType ≠ "" :=
      fun r hr => hreq r (List.mem_cons_of_mem _ hr)
    have hsame : sameRuleType (GetRulesOfService env st.collection serviceId) := by
      intro r1 h1 r2 h2
      rw [hall r1 h1, hall r2 h2]
    rw [addRuleLoop]
    by_cases hmis : (st.ruleType.length != 0 && st.ruleType != rule.RuleType) = true
    · simp only [hmis, if_true]
      exact hsame
    · simp only [hmis]
      -- the type kept for the next turns is the type of this rule
      have htype : (if st.ruleType.length = 0 then rule.RuleType else st.ruleType) =
          rule.RuleType := by
        by_cases h0 : st.ruleType.length = 0
        · simp [h0]
        · simp only [h0, if_false]
          have h0b : (st.ruleType.length != 0) = true := by simpa using h0
          by_contra hne
          apply hmis
          simp [h0b, hne]
      have hall2 : ∀ r ∈ GetRulesOfService env st.collection serviceId,
          r.RuleType = rule.RuleType := by
        intro r hr
        by_cases h0 : st.ruleType.length = 0
        · have he : st.ruleType = "" := (string_length_eq_zero_iff _).mp h0
          rw [hempty he] at hr
          simp at hr
        · rw [hall r hr]
          simpa [h0] using htype
      rw [htype]
      cases hRE : env.RuleExistErr i with
      | some e =>
        simp only [Bool.false_eq_true, if_false]
        exact hsame
      | none =>
        simp only [Bool.false_eq_true, if_false]
        by_cases hex : st.collection.any
            (matchesRuleAtt env serviceId rule.Attribute rule.Pattern) = true
        · simp only [hex, if_true]
          exact ih (i + 1) _ hrest hall2 (fun h => absurd h hrule)
        · simp only [hex]
          cases hIE : env.InsertErr i with
          | some e =>
            simp only [Bool.false_eq_true, if_false]
            exact hsame
          | none =>
            simp only [Bool.false_eq_true, if_false]
            refine ih (i + 1) _ hrest ?_ (fun h => absurd h hrule)
            intro r hr
            simp only at hr
            rw [GetRulesOfService_append env st.collection serviceId _
              (by simp [inService])] at hr
            rcases List.mem_append.mp hr with hold | hnew
            · exact hall2 r hold
            · rw [List.mem_singleton] at hnew
              rw [hnew]

/-- The loop of `AddRule` answers `ErrBlackAndWhiteRule` at the first rule whose type
differs from the type held in `ruleType`, when no store call fails before it. -/
theorem addRuleLoop_mismatch (env : RuleEnv) (serviceId : String) (ruleType : String)
    (bad : AddOrUpdateServiceRule) (post : List AddOrUpdateServiceRule)
    (hT : ruleType ≠ "") (hbad : bad.RuleType ≠ ruleType)
    (hRE : ∀ i, env.RuleExistErr i = none) (hIE : ∀ i, env.InsertErr i = none) :
    ∀ (pre : List AddOrUpdateServiceRule) (i : Nat) (st : AddRuleState),
      st.ruleType = ruleType → (∀ r ∈ pre, r.RuleType = ruleType) →
      ∃ response, (addRuleLoop env serviceId (pre ++ bad :: post) i st).2 =
          some (response, none) ∧
        response.Response.Code = ErrCode.ErrBlackAndWhiteRule := by
  have hlen : ∀ t : String, t ≠ "" → (t.length != 0) = true := by
    intro t ht
    have : ¬ t.length = 0 := fun h => ht ((string_length_eq_zero_iff t).mp h)
    simpa using this
  have hlen0 : ∀ t : String, t ≠ "" → ¬ t.length = 0 :=
    fun t ht h => ht ((string_length_eq_zero_iff t).mp h)
  intro pre
  induction pre with
  | nil =>
    intro i st hst _
    have h1 : (st.ruleType.length != 0) = true := by
      rw [hst]
      exact hlen _ hT
    have hne : (st.ruleType != bad.RuleType) = true := by
      rw [hst]
      simpa using fun h => hbad h.symm
    simp only [List.nil_append]
    rw [addRuleLoop]
    simp only [h1, hne, Bool.and_self, if_true]
    exact ⟨_, rfl, rfl⟩
  | cons r pre ih =>
    intro i st hst hpre
    have hr : r.RuleType = ruleType := hpre r (List.mem_cons_self _ _)
    have hrest : ∀ x ∈ pre, x.RuleType = ruleType :=
      fun x hx => hpre x (List.mem_cons_of_mem _ hx)
    have heq : (st.ruleType != r.RuleType) = false := by
      rw [hst, hr]
      simp
    have h0 : ¬ st.ruleType.length = 0 := by
      rw [hst]
      exact hlen0 _ hT
    simp only [List.cons_append]
    rw [addRuleLoop]
    simp only [heq, Bool.and_false, Bool.false_eq_true, if_false, hRE i, hIE i, h0]
    by_cases hex : st.collection.any (matchesRuleAtt env serviceId r.Attribute r.Pattern) = true
    · simp only [hex, if_true]
      exact ih (i + 1) _ hst hrest
    · simp only [hex, Bool.false_eq_true, if_false]
      exact ih (i + 1) _ hst hrest

/-- The documents after `updateFirst`: each is a former document or the change of a
former document that matches the filter. -/
theorem mem_updateFirst (matchesDoc : Rule → Bool) (change : Rule → Rule) :
    ∀ (collection : List Rule) (doc : Rule),
      doc ∈ updateFirst matchesDoc change collection →
      doc ∈ collection ∨ ∃ old ∈ collection, matchesDoc old = true ∧ doc = change old := by
  intro collection
  induction collection with
  | nil =>
    intro doc h
    simp [updateFirst] at h
  | cons d rest ih =>
    intro doc h
    rw [updateFirst] at h
    by_cases hm : matchesDoc d = true
    · simp only [hm, if_true] at h
      rcases List.mem_cons.mp h with heq | hin
      · exact Or.inr ⟨d, List.mem_cons_self _ _, hm, heq⟩
      · exact Or.inl (List.mem_cons_of_mem _ hin)
    · simp only [hm] at h
      rcases List.mem_cons.mp h with heq | hin
      · exact Or.inl (heq ▸ List.mem_cons_self _ _)
      · rcases ih doc hin with hold | ⟨old, hold, hmo, hch⟩
        · exact Or.inl (List.mem_cons_of_mem _ hold)
        · exact Or.inr ⟨old, List.mem_cons_of_mem _ hold, hmo, hch⟩

/-- Membership in the rules of a service. -/
theorem mem_GetRulesOfService (env : RuleEnv) (collection : List Rule) (serviceID : String)
    (r : ServiceRule) :
    r ∈ GetRulesOfService env collection serviceID ↔
      ∃ doc ∈ collection, inService env serviceID doc = true ∧ doc.Rule = r := by
  simp [GetRulesOfService, List.mem_map, List.mem_filter, and_assoc]

/-- `AddRule` keeps the rule types of a service uniform, whatever its response. -/
theorem AddRule_keeps_one_type (env : RuleEnv) (collection : List Rule)
    (request : AddServiceRulesRequest)
    (hinv : sameRuleType (GetRulesOfService env collection request.ServiceId))
    (hstored : ∀ r ∈ GetRulesOfService env collection request.ServiceId, r.RuleType ≠ "")
    (hreq : ∀ r ∈ request.Rules, r.RuleType ≠ "") :
    sameRuleType
      (GetRulesOfService env (DataSource.AddRule env collection request).1
        request.ServiceId) := by
  unfold DataSource.AddRule
  split
  · exact hinv
  · exact hinv
  · split
    · exact hinv
    · split
      · exact hinv
      · have hloop := addRuleLoop_keeps_one_type env request.ServiceId request.Rules 0
          { collection := collection,
            ruleType := (match GetRulesOfService env collection request.ServiceId with
              | [] => ""
              | first :: _ => first.RuleType),
            ruleIDs := [] } hreq
          (by
            intro r hr
            simp only at hr ⊢
            cases hrules : GetRulesOfService env collection request.ServiceId with
            | nil =>
              rw [hrules] at hr
              simp at hr
            | cons first tl =>
              simp only
              exact hinv r hr first (by rw [hrules]; exact List.mem_cons_self _ _))
          (by
            intro hempty
            simp only at hempty ⊢
            cases hrules : GetRulesOfService env collection request.ServiceId with
            | nil => rfl
            | cons first tl =>
              rw [hrules] at hempty
              simp only at hempty
              exact absurd hempty
                (hstored first (by rw [hrules]; exact List.mem_cons_self _ _)))
        simp only
        split
        · rename_i st response err heq
          rw [heq] at hloop
          exact hloop
        · rename_i st heq
          rw [heq] at hloop
          exact hloop

/-- `UpdateRule` keeps the rule types of a service uniform, whatever its response. -/
theorem UpdateRule_keeps_one_type (env : RuleEnv) (collection : List Rule)
    (request : UpdateServiceRuleRequest)
    (hinv : sameRuleType (GetRulesOfService env collection request.ServiceId)) :
    sameRuleType
      (GetRulesOfService env (DataSource.UpdateRule env collection request).1
        request.ServiceId) := by
  unfold DataSource.UpdateRule
  split
  · exact hinv
  · exact hinv
  · split
    · exact hinv
    · simp only
      split
      · exact hinv
      · rename_i htc
        split
        · exact hinv
        · split
          · exact hinv
          · rename_i hexists
            split
            · exact hinv
            · -- every rule of the service has the type of the request
              have hall : ∀ r ∈ GetRulesOfService env collection request.ServiceId,
                  r.RuleType = request.Rule.RuleType := by
                intro r hr
                cases hrules : GetRulesOfService env collection request.ServiceId with
                | nil =>
                  rw [hrules] at hr
                  simp at hr
                | cons first tl =>
                  rw [hrules] at htc
                  simp only at htc
                  have hfirst : first.RuleType = request.Rule.RuleType := by
                    by_contra hne
                    have hb : (first.RuleType != request.Rule.RuleType) = true := by
                      simpa using hne
                    simp [hb] at htc
                  rw [← hfirst]
                  exact hinv r hr first (by rw [hrules]; exact List.mem_cons_self _ _)
              have hnew : ∀ r ∈ GetRulesOfService env
                  (updateFirst (matchesRuleID env request.ServiceId request.RuleId)
                    (fun doc =>
                      { doc with
                        Rule := { doc.Rule with
                                  RuleType := request.Rule.RuleType,
                                  Pattern := request.Rule.Pattern,
                                  Attribute := request.Rule.Attribute,
                                  Description := request.Rule.Description,
                                  ModTimestamp := env.timestamp 0 } })
                    collection) request.ServiceId,
                  r.RuleType = request.Rule.RuleType := by
                intro r hr
                obtain ⟨doc, hdoc, hsvc, hrule⟩ :=
                  (mem_GetRulesOfService env _ request.ServiceId r).mp hr
                rcases mem_updateFirst _ _ collection doc hdoc with hold | ⟨old, _, _, hch⟩
                · exact hall r
                    ((mem_GetRulesOfService env _ request.ServiceId r).mpr
                      ⟨doc, hold, hsvc, hrule⟩)
                · rw [← hrule, hch]
              intro r1 h1 r2 h2
              rw [hnew r1 h1, hnew r2 h2]

/-- One turn of the loop of `AddRule` when no type is held yet and no store call fails:
the loop goes on with the type of the rule. -/
theorem addRuleLoop_first_turn (env : RuleEnv) (serviceId : String)
    (rule : AddOrUpdateServiceRule) (rest : List AddOrUpdateServiceRule) (i : Nat)
    (st : AddRuleState) (hst : st.ruleType = "")
    (hRE : ∀ i, env.RuleExistErr i = none) (hIE : ∀ i, env.InsertErr i = none) :
    ∃ st1 : AddRuleState, st1.ruleType = rule.RuleType ∧
      addRuleLoop env serviceId (rule :: rest) i st =
        addRuleLoop env serviceId rest (i + 1) st1 := by
  have h0 : st.ruleType.length = 0 := (string_length_eq_zero_iff _).mpr hst
  rw [addRuleLoop]
  simp only [h0, bne_self_eq_false, Bool.false_and, Bool.false_eq_true, if_false, if_true,
    hRE i, hIE i]
  by_cases hex : st.collection.any
      (matchesRuleAtt env serviceId rule.Attribute rule.Pattern) = true
  · simp only [hex, if_true]
    exact ⟨_, rfl, rfl⟩
  · simp only [hex, Bool.false_eq_true, if_false]
    exact ⟨_, rfl, rfl⟩

/-- `AddRule` answers `ErrBlackAndWhiteRule` to a request that would mix rule types,
when the service exists, the quota is granted and no store call fails. -/
theorem AddRule_mixed_types (env : RuleEnv) (collection : List Rule)
    (request : AddServiceRulesRequest)
    (hexist : env.ServiceExistID request.ServiceId = (true, none))
    (hquota : env.quotaErr = none) (hget : env.GetRulesErr = none)
    (hRE : ∀ i, env.RuleExistErr i = none) (hIE : ∀ i, env.InsertErr i = none)
    (hinv : sameRuleType (GetRulesOfService env collection request.ServiceId))
    (hstored : ∀ r ∈ GetRulesOfService env collection request.ServiceId, r.RuleType ≠ "")
    (hreq : ∀ r ∈ request.Rules, r.RuleType ≠ "")
    (hmix : ∃ t1 ∈ (GetRulesOfService env collection request.ServiceId).map
          (fun r => r.RuleType) ++ request.Rules.map (fun r => r.RuleType),
        ∃ t2 ∈ (GetRulesOfService env collection request.ServiceId).map
          (fun r => r.RuleType) ++ request.Rules.map (fun r => r.RuleType), t1 ≠ t2) :
    (DataSource.AddRule env collection request).2.1.Response.Code =
      ErrCode.ErrBlackAndWhiteRule := by
  have hloop : ∃ response,
      (addRuleLoop env request.ServiceId request.Rules 0
        { collection := collection,
          ruleType := (match GetRulesOfService env collection request.ServiceId with
            | [] => ""
            | first :: _ => first.RuleType),
          ruleIDs := [] }).2 = some (response, none) ∧
      response.Response.Code = ErrCode.ErrBlackAndWhiteRule := by
    cases hrules : GetRulesOfService env collection request.ServiceId with
    | nil =>
      rw [hrules] at hmix
      simp only [List.map_nil, List.nil_append, List.mem_map] at hmix
      obtain ⟨t1, ⟨r1, hr1, rfl⟩, t2, ⟨r2, hr2, rfl⟩, hne⟩ := hmix
      cases hreqs : request.Rules with
      | nil =>
        rw [hreqs] at hr1
        simp at hr1
      | cons first rest =>
        have hex : ∃ r ∈ rest, r.RuleType ≠ first.RuleType := by
          by_contra hno
          have hall : ∀ r ∈ request.Rules, r.RuleType = first.RuleType := by
            intro r hr
            rw [hreqs] at hr
            rcases List.mem_cons.mp hr with heq | hin
            · rw [heq]
            · by_contra hne2
              exact hno ⟨r, hin, hne2⟩
          exact hne ((hall r1 hr1).trans (hall r2 hr2).symm)
        obtain ⟨pre, bad, post, hsplit, hpre, hbad⟩ := exists_first_split _ rest hex
        obtain ⟨st1, hst1, hstep⟩ := addRuleLoop_first_turn env request.ServiceId first rest 0
          { collection := collection, ruleType := "", ruleIDs := [] } rfl hRE hIE
        simp only
        rw [hstep, hsplit]
        exact addRuleLoop_mismatch env request.ServiceId first.RuleType bad post
          (hreq first (by rw [hreqs]; exact List.mem_cons_self _ _)) hbad hRE hIE pre 1 st1
          hst1 (fun r hr => by
            by_contra hne2
            exact hpre r hr hne2)
    | cons first tl =>
      have hfirst : first ∈ GetRulesOfService env collection request.ServiceId := by
        rw [hrules]
        exact List.mem_cons_self _ _
      have hallT : ∀ r ∈ GetRulesOfService env collection request.ServiceId,
          r.RuleType = first.RuleType := fun r hr => hinv r hr first hfirst
      have hex : ∃ r ∈ request.Rules, r.RuleType ≠ first.RuleType := by
        by_contra hno
        obtain ⟨t1, h1, t2, h2, hne⟩ := hmix
        have hall : ∀ t ∈ (GetRulesOfService env collection request.ServiceId).map
            (fun r => r.RuleType) ++ request.Rules.map (fun r => r.RuleType),
            t = first.RuleType := by
          intro t ht
          rcases List.mem_append.mp ht with hs | hq
          · obtain ⟨x, hx, hxt⟩ := List.mem_map.mp hs
            rw [← hxt]
            exact hallT x hx
          · obtain ⟨y, hy, hyt⟩ := List.mem_map.mp hq
            rw [← hyt]
            by_contra hne2
            exact hno ⟨y, hy, hne2⟩
        exact hne ((hall t1 h1).trans (hall t2 h2).symm)
      obtain ⟨pre, bad, post, hsplit, hpre, hbad⟩ := exists_first_split _ request.Rules hex
      simp only
      rw [hsplit]
      exact addRuleLoop_mismatch env request.ServiceId first.RuleType bad post
        (hstored first hfirst) hbad hRE hIE pre 0 _ rfl (fun r hr => by
          by_contra hne2
          exact hpre r hr hne2)
  obtain ⟨response, hres, hcode⟩ := hloop
  unfold DataSource.AddRule
  simp only [hexist, hquota, hget]
  split
  · rename_i st resp err heq
    have h2 := congrArg Prod.snd heq
    simp only at h2
    rw [hres] at h2
    have h3 : response = resp := by
      have := Option.some.inj h2
      exact (Prod.mk.inj this).1
    rw [← h3]
    exact hcode
  · rename_i st heq
    have h2 := congrArg Prod.snd heq
    simp only at h2
    rw [hres] at h2
    cases h2

/-- `UpdateRule` answers `ErrModifyRuleNotAllow` to a request whose rule type differs
from the type of a rule stored for the service, when the service exists and the
rules can be read. -/
theorem UpdateRule_type_change (env : RuleEnv) (collection : List Rule)
    (request : UpdateServiceRuleRequest)
    (hexist : env.ServiceExistID request.ServiceId = (true, none))
    (hget : env.GetRulesErr = none)
    (hinv : sameRuleType (GetRulesOfService env collection request.ServiceId))
    (hmix : ∃ r ∈ GetRulesOfService env collection request.ServiceId,
      r.RuleType ≠ request.Rule.RuleType) :
    (DataSource.UpdateRule env collection request).2.1.Code =
      ErrCode.ErrModifyRuleNotAllow := by
  obtain ⟨r, hr, hne⟩ := hmix
  unfold DataSource.UpdateRule
  simp only [hexist, hget]
  cases hrules : GetRulesOfService env collection request.ServiceId with
  | nil =>
    rw [hrules] at hr
    simp at hr
  | cons first tl =>
    have hfirst : first.RuleType = r.RuleType :=
      hinv first (by rw [hrules]; exact List.mem_cons_self _ _) r hr
    have hb : (first.RuleType != request.Rule.RuleType) = true := by
      rw [hfirst]
      simpa using hne
    simp [hb, CreateResponse]

/-- C22 (as the code behaves). Rule-type invariant, for rule types that are not empty:
the rules stored for the service and the rules of the `AddRule` request have a rule
type other than "", the mark that `AddRule` takes for "no type yet".  If the rules stored for a service share one rule type, then
after `AddRule` and after `UpdateRule` on that service, whatever the response, the
rules stored for it still share one rule type.  Moreover, when the service exists,
the quota is granted and no store call fails, `AddRule` answers
`ErrBlackAndWhiteRule` to a request whose rules, together with the stored ones, do
not share one type, and `UpdateRule` answers `ErrModifyRuleNotAllow` to a request
whose rule type differs from that of a stored rule. -/
theorem rule_type_invariant_preserved (env : RuleEnv) (collection : List Rule)
    (addRequest : AddServiceRulesRequest) (updateRequest : UpdateServiceRuleRequest)
    (hinvA : sameRuleType (GetRulesOfService env collection addRequest.ServiceId))
    (hinvU : sameRuleType (GetRulesOfService env collection updateRequest.ServiceId))
    (hstored : ∀ r ∈ GetRulesOfService env collection addRequest.ServiceId, r.RuleType ≠ "")
    (hreq : ∀ r ∈ addRequest.Rules, r.RuleType ≠ "") :
    sameRuleType
      (GetRulesOfService env (DataSource.AddRule env collection addRequest).1
        addRequest.ServiceId) ∧
    sameRuleType
      (GetRulesOfService env (DataSource.UpdateRule env collection updateRequest).1
        updateRequest.ServiceId) ∧
    (env.ServiceExistID addRequest.ServiceId = (true, none) → env.quotaErr = none →
      env.GetRulesErr = none → (∀ i, env.RuleExistErr i = none) →
      (∀ i, env.InsertErr i = none) →
      (∃ t1 ∈ (GetRulesOfService env collection addRequest.ServiceId).map
            (fun r => r.RuleType) ++ addRequest.Rules.map (fun r => r.RuleType),
          ∃ t2 ∈ (GetRulesOfService env collection addRequest.ServiceId).map
            (fun r => r.RuleType) ++ addRequest.Rules.map (fun r => r.RuleType), t1 ≠ t2) →
      (DataSource.AddRule env collection addRequest).2.1.Response.Code =
        ErrCode.ErrBlackAndWhiteRule) ∧
    (env.ServiceExistID updateRequest.ServiceId = (true, none) → env.GetRulesErr = none →
      (∃ r ∈ GetRulesOfService env collection updateRequest.ServiceId,
        r.RuleType ≠ updateRequest.Rule.RuleType) →
      (DataSource.UpdateRule env collection updateRequest).2.1.Code =
        ErrCode.ErrModifyRuleNotAllow) :=
  ⟨AddRule_keeps_one_type env collection addRequest hinvA hstored hreq,
    UpdateRule_keeps_one_type env collection updateRequest hinvU,
    fun hexist hquota hget hRE hIE hmix =>
      AddRule_mixed_types env collection addRequest hexist hquota hget hRE hIE hinvA hstored
        hreq hmix,
    fun hexist hget hmix =>
      UpdateRule_type_change env collection updateRequest hexist hget hinvU hmix⟩

/-- C22, at the service `s1` with one stored WHITE rule: a request that adds a WHITE
rule and then a BLACK rule is answered `ErrBlackAndWhiteRule` after the WHITE rule
has been inserted, and the two stored rules are WHITE; a request that changes the
stored rule to BLACK is answered `ErrModifyRuleNotAllow`. -/
theorem rule_type_invariant_preserved_witness :
    sameRuleType (GetRulesOfService healthyRuleEnv [ruleDoc "r1" "WHITE" "app1"] "s1") ∧
    (∀ r ∈ GetRulesOfService healthyRuleEnv [ruleDoc "r1" "WHITE" "app1"] "s1",
      r.RuleType ≠ "") ∧
    (∀ r ∈ [(⟨"WHITE", "AppId", "app2", ""⟩ : AddOrUpdateServiceRule),
        ⟨"BLACK", "AppId", "app3", ""⟩], r.RuleType ≠ "") ∧
    (GetRulesOfService healthyRuleEnv
        (DataSource.AddRule healthyRuleEnv [ruleDoc "r1" "WHITE" "app1"]
          ⟨"s1", [⟨"WHITE", "AppId", "app2", ""⟩, ⟨"BLACK", "AppId", "app3", ""⟩]⟩).1
        "s1").map (fun r => r.RuleType) = ["WHITE", "WHITE"] ∧
    sameRuleType
      (GetRulesOfService healthyRuleEnv
        (DataSource.AddRule healthyRuleEnv [ruleDoc "r1" "WHITE" "app1"]
          ⟨"s1", [⟨"WHITE", "AppId", "app2", ""⟩, ⟨"BLACK", "AppId", "app3", ""⟩]⟩).1
        "s1") ∧
    (DataSource.AddRule healthyRuleEnv [ruleDoc "r1" "WHITE" "app1"]
        ⟨"s1", [⟨"WHITE", "AppId", "app2", ""⟩, ⟨"BLACK", "AppId", "app3", ""⟩]⟩).2.1.Response.Code =
      ErrCode.ErrBlackAndWhiteRule ∧
    (DataSource.UpdateRule healthyRuleEnv [ruleDoc "r1" "WHITE" "app1"]
        ⟨"s1", "r1", ⟨"BLACK", "AppId", "app1", ""⟩⟩).2.1.Code =
      ErrCode.ErrModifyRuleNotAllow :=
  ⟨by unfold sameRuleType; decide, by decide, by decide, by decide,
    (rule_type_invariant_preserved healthyRuleEnv [ruleDoc "r1" "WHITE" "app1"]
      ⟨"s1", [⟨"WHITE", "AppId", "app2", ""⟩, ⟨"BLACK", "AppId", "app3", ""⟩]⟩
      ⟨"s1", "r1", ⟨"BLACK", "AppId", "app1", ""⟩⟩
      (by unfold sameRuleType; decide) (by unfold sameRuleType; decide) (by decide)
      (by decide)).1,
    by decide, by decide⟩

/-- C22 fails as stated.  `AddRule` takes the empty rule type for "no type yet": on the
service `s1` without stored rules (so the stored rules share one rule type), a
request with a rule of empty type followed by a WHITE rule is answered with success,
not with `ErrBlackAndWhiteRule`, and the two rules stored for the service afterwards
have the rule types "" and "WHITE", which differ. -/
theorem AddRule_empty_type_mixes_types :
    sameRuleType (GetRulesOfService healthyRuleEnv [] "s1") ∧
    (DataSource.AddRule healthyRuleEnv []
        ⟨"s1", [⟨"", "AppId", "app2", ""⟩, ⟨"WHITE", "AppId", "app3", ""⟩]⟩).2.1.Response.Code =
      ErrCode.ResponseSuccess ∧
    (GetRulesOfService healthyRuleEnv
        (DataSource.AddRule healthyRuleEnv []
          ⟨"s1", [⟨"", "AppId", "app2", ""⟩, ⟨"WHITE", "AppId", "app3", ""⟩]⟩).1
        "s1").map (fun r => r.RuleType) = ["", "WHITE"] ∧
    ¬ sameRuleType
      (GetRulesOfService healthyRuleEnv
        (DataSource.AddRule healthyRuleEnv []
          ⟨"s1", [⟨"", "AppId", "app2", ""⟩, ⟨"WHITE", "AppId", "app3", ""⟩]⟩).1
        "s1") :=
  ⟨by unfold sameRuleType; decide, by decide, by decide, by unfold sameRuleType; decide⟩

/-- The loop of `DeleteRule` ends at the first rule id that does not exist, with
`ErrRuleNotExists` and no error, when the existence checks do not fail. -/
theorem deleteRuleLoop_missing (env : RuleEnv) (collection : List Rule) (serviceId : String)
    (hRE : ∀ i, env.RuleExistErr i = none) :
    ∀ (ruleIds : List String) (i : Nat) (delRules : List String),
      (∃ ruleID ∈ ruleIds, collection.any (matchesRuleID env serviceId ruleID) = false) →
      (deleteRuleLoop env collection serviceId ruleIds i delRules).2 =
        some (CreateResponse .ErrRuleNotExists "This rule does not exist.", none) := by
  intro ruleIds
  induction ruleIds with
  | nil =>
    rintro i delRules ⟨ruleID, hmem, _⟩
    simp at hmem
  | cons ruleID rest ih =>
    rintro i delRules ⟨missing, hmem, hmiss⟩
    rw [deleteRuleLoop]
    simp only [hRE i]
    by_cases hex : collection.any (matchesRuleID env serviceId ruleID) = true
    · simp only [hex, Bool.not_true, Bool.false_eq_true, if_false]
      apply ih
      rcases List.mem_cons.mp hmem with heq | hin
      · rw [heq, hex] at hmiss
        cases hmiss
      · exact ⟨missing, hin, hmiss⟩
    · have hf : collection.any (matchesRuleID env serviceId ruleID) = false := by
        simpa using hex
      simp [hf]

/-- The loop of `DeleteRule` builds one delete model per rule id, in order, when every
rule id exists and the existence checks do not fail. -/
theorem deleteRuleLoop_all_exist (env : RuleEnv) (collection : List Rule) (serviceId : String)
    (hRE : ∀ i, env.RuleExistErr i = none) :
    ∀ (ruleIds : List String) (i : Nat) (delRules : List String),
      (∀ ruleID ∈ ruleIds, collection.any (matchesRuleID env serviceId ruleID) = true) →
      deleteRuleLoop env collection serviceId ruleIds i delRules =
        (delRules ++ ruleIds, none) := by
  intro ruleIds
  induction ruleIds with
  | nil =>
    intro i delRules _
    simp [deleteRuleLoop]
  | cons ruleID rest ih =>
    intro i delRules hall
    rw [deleteRuleLoop]
    simp only [hRE i, hall ruleID (List.mem_cons_self _ _), Bool.not_true,
      Bool.false_eq_true, if_false]
    rw [ih (i + 1) _ (fun x hx => hall x (List.mem_cons_of_mem _ hx))]
    simp

/-- The batch deletes documents only: what is left is a sublist of the collection, and
a document that no rule id of the batch designates is left in place. -/
theorem batchDelete_sublist (env : RuleEnv) (serviceID : String) :
    ∀ (ruleIds : List String) (collection : List Rule),
      (batchDelete env serviceID collection ruleIds).Sublist collection ∧
      ∀ doc ∈ collection,
        (∀ ruleID ∈ ruleIds, matchesRuleID env serviceID ruleID doc = false) →
        doc ∈ batchDelete env serviceID collection ruleIds := by
  intro ruleIds
  induction ruleIds with
  | nil =>
    intro collection
    simp [batchDelete]
  | cons ruleID rest ih =>
    intro collection
    rw [batchDelete]
    have hrec := ih (collection.eraseP (matchesRuleID env serviceID ruleID))
    constructor
    · exact hrec.1.trans (List.eraseP_sublist _)
    · intro doc hdoc hno
      apply hrec.2
      · have hn : ¬ matchesRuleID env serviceID ruleID doc = true := by
          rw [hno ruleID (List.mem_cons_self _ _)]
          simp
        exact (List.mem_eraseP_of_neg hn).mpr hdoc
      · exact fun x hx => hno x (List.mem_cons_of_mem _ hx)

/-- Deleting the rule of one id leaves the existence of the rule of another id as it
was. -/
theorem any_matchesRuleID_eraseP (env : RuleEnv) (serviceID : String) (ruleID other : String)
    (hne : other ≠ ruleID) :
    ∀ collection : List Rule,
      (collection.eraseP (matchesRuleID env serviceID ruleID)).any
          (matchesRuleID env serviceID other) =
        collection.any (matchesRuleID env serviceID other) := by
  intro collection
  induction collection with
  | nil => rfl
  | cons doc rest ih =>
    rw [List.eraseP_cons]
    cases hm : matchesRuleID env serviceID ruleID doc with
    | true =>
      have hother : matchesRuleID env serviceID other doc = false := by
        unfold matchesRuleID at hm ⊢
        simp only [Bool.and_eq_true, beq_iff_eq] at hm
        have : ¬ doc.Rule.RuleId = other := by
          rw [hm.2]
          exact fun h => hne h.symm
        simp [this]
      simp [hother]
    | false =>
      simp [List.any_cons, ih]

/-- A batch of distinct rule ids that all exist deletes as many documents as it has
rule ids. -/
theorem batchDelete_length (env : RuleEnv) (serviceID : String) :
    ∀ (ruleIds : List String) (collection : List Rule), ruleIds.Nodup →
      (∀ ruleID ∈ ruleIds, collection.any (matchesRuleID env serviceID ruleID) = true) →
      (batchDelete env serviceID collection ruleIds).length + ruleIds.length =
        collection.length := by
  intro ruleIds
  induction ruleIds with
  | nil =>
    intro collection _ _
    simp [batchDelete]
  | cons ruleID rest ih =>
    intro collection hnodup hall
    rw [batchDelete]
    have hnd := List.nodup_cons.mp hnodup
    have hex := hall ruleID (List.mem_cons_self _ _)
    have hrest : ∀ x ∈ rest,
        (collection.eraseP (matchesRuleID env serviceID ruleID)).any
          (matchesRuleID env serviceID x) = true := by
      intro x hx
      rw [any_matchesRuleID_eraseP env serviceID ruleID x
        (fun h => hnd.1 (h ▸ hx)) collection]
      exact hall x (List.mem_cons_of_mem _ hx)
    have hlen := ih (collection.eraseP (matchesRuleID env serviceID ruleID)) hnd.2 hrest
    have hpos : 0 < collection.length := by
      obtain ⟨doc, hdoc, _⟩ := List.any_eq_true.mp hex
      exact List.length_pos_of_mem hdoc
    rw [List.length_eraseP, if_pos hex] at hlen
    simp only [List.length_cons]
    omega

/-- C28. `DeleteRule` is all-or-nothing with respect to missing rules.  When the service
exists and the existence checks do not fail: if some rule id of the request does
not exist for the service, the answer is `ErrRuleNotExists`, no batch is sent and
the rule collection is unchanged, whatever ids precede the missing one; if all
rule ids exist, one batch is sent with exactly the requested rule ids, it deletes
documents only, it leaves every document that no requested id designates, and for
distinct ids it deletes as many documents as there are ids. -/
theorem DeleteRule_all_or_nothing (env : RuleEnv) (collection : List Rule)
    (request : DeleteServiceRulesRequest)
    (hexist : env.ServiceExistID request.ServiceId = (true, none))
    (hRE : ∀ i, env.RuleExistErr i = none) :
    ((∃ ruleID ∈ request.RuleIds,
        collection.any (matchesRuleID env request.ServiceId ruleID) = false) →
      (DataSource.DeleteRule env collection request).response.Code =
        ErrCode.ErrRuleNotExists ∧
      (DataSource.DeleteRule env collection request).batches = [] ∧
      (DataSource.DeleteRule env collection request).collection = collection ∧
      (DataSource.DeleteRule env collection request).err = none) ∧
    ((∀ ruleID ∈ request.RuleIds,
        collection.any (matchesRuleID env request.ServiceId ruleID) = true) →
      request.RuleIds ≠ [] → env.BatchDeleteErr = none →
      (DataSource.DeleteRule env collection request).response.Code =
        ErrCode.ResponseSuccess ∧
      (DataSource.DeleteRule env collection request).batches = [request.RuleIds] ∧
      (DataSource.DeleteRule env collection request).collection.Sublist collection ∧
      (∀ doc ∈ collection,
        (∀ ruleID ∈ request.RuleIds,
          matchesRuleID env request.ServiceId ruleID doc = false) →
        doc ∈ (DataSource.DeleteRule env collection request).collection) ∧
      (request.RuleIds.Nodup →
        (DataSource.DeleteRule env collection request).collection.length +
          request.RuleIds.length = collection.length)) := by
  constructor
  · intro hmiss
    have hloop := deleteRuleLoop_missing env collection request.ServiceId hRE
      request.RuleIds 0 [] hmiss
    unfold DataSource.DeleteRule
    simp only [hexist]
    split
    · rename_i del response err heq
      have h2 := congrArg Prod.snd heq
      simp only at h2
      rw [hloop] at h2
      have h3 := Prod.mk.inj (Option.some.inj h2)
      rw [← h3.1, ← h3.2]
      exact ⟨rfl, rfl, rfl, rfl⟩
    · rename_i del heq
      have h2 := congrArg Prod.snd heq
      simp only at h2
      rw [hloop] at h2
      cases h2
  · intro hall hne hbatch
    have hloop := deleteRuleLoop_all_exist env collection request.ServiceId hRE
      request.RuleIds 0 [] hall
    have hlen : request.RuleIds.length > 0 := List.length_pos.mpr hne
    have hres : DataSource.DeleteRule env collection request =
        { collection := batchDelete env request.ServiceId collection request.RuleIds,
          batches := [request.RuleIds],
          response := CreateResponse .ResponseSuccess "Delete service rules successfully.",
          err := none } := by
      unfold DataSource.DeleteRule
      simp only [hexist, hloop, List.nil_append, hlen, if_true, hbatch]
    rw [hres]
    have hsub := batchDelete_sublist env request.ServiceId request.RuleIds collection
    exact ⟨rfl, rfl, hsub.1, hsub.2,
      fun hnodup => batchDelete_length env request.ServiceId request.RuleIds collection
        hnodup hall⟩

/-- C28, at the service `s1` with the rules `r1, r2, r3`: the request `r1, ghost`
deletes nothing and is answered `ErrRuleNotExists`; the request `r1, r3` deletes
these two rules in one batch and leaves `r2`. -/
theorem DeleteRule_all_or_nothing_witness :
    healthyRuleEnv.ServiceExistID "s1" = (true, none) ∧
    (∃ ruleID ∈ ["r1", "ghost"],
      [ruleDoc "r1" "WHITE" "a", ruleDoc "r2" "WHITE" "b", ruleDoc "r3" "WHITE" "c"].any
        (matchesRuleID healthyRuleEnv "s1" ruleID) = false) ∧
    ((DataSource.DeleteRule healthyRuleEnv
        [ruleDoc "r1" "WHITE" "a", ruleDoc "r2" "WHITE" "b", ruleDoc "r3" "WHITE" "c"]
        ⟨"s1", ["r1", "ghost"]⟩).response.Code = ErrCode.ErrRuleNotExists ∧
      (DataSource.DeleteRule healthyRuleEnv
        [ruleDoc "r1" "WHITE" "a", ruleDoc "r2" "WHITE" "b", ruleDoc "r3" "WHITE" "c"]
        ⟨"s1", ["r1", "ghost"]⟩).batches = [] ∧
      (DataSource.DeleteRule healthyRuleEnv
        [ruleDoc "r1" "WHITE" "a", ruleDoc "r2" "WHITE" "b", ruleDoc "r3" "WHITE" "c"]
        ⟨"s1", ["r1", "ghost"]⟩).collection =
        [ruleDoc "r1" "WHITE" "a", ruleDoc "r2" "WHITE" "b", ruleDoc "r3" "WHITE" "c"] ∧
      (DataSource.DeleteRule healthyRuleEnv
        [ruleDoc "r1" "WHITE" "a", ruleDoc "r2" "WHITE" "b", ruleDoc "r3" "WHITE" "c"]
        ⟨"s1", ["r1", "ghost"]⟩).err = none) ∧
    DataSource.DeleteRule healthyRuleEnv
        [ruleDoc "r1" "WHITE" "a", ruleDoc "r2" "WHITE" "b", ruleDoc "r3" "WHITE" "c"]
        ⟨"s1", ["r1", "r3"]⟩ =
      { collection := [ruleDoc "r2" "WHITE" "b"], batches := [["r1", "r3"]],
        response := CreateResponse .ResponseSuccess "Delete service rules successfully.",
        err := none } :=
  ⟨rfl, ⟨"ghost", by decide, by decide⟩,
    (DeleteRule_all_or_nothing healthyRuleEnv
      [ruleDoc "r1" "WHITE" "a", ruleDoc "r2" "WHITE" "b", ruleDoc "r3" "WHITE" "c"]
      ⟨"s1", ["r1", "ghost"]⟩ rfl (fun _ => rfl)).1 ⟨"ghost", by decide, by decide⟩,
    by decide⟩

end ServiceCenter
